import Mathlib

/-!
# Single-server queue simulator: a shallow embedding

The Go packages `models`, `config` and `simulation` and the manual driver of
`main.go` are embedded as pure Lean functions.

Conventions of the embedding

* `float64` values (simulated time, areas, delays) are rationals with exact
  arithmetic; rounding, infinities and NaN are outside the embedding.
* Go `int` counters are `Int` (no counter can wrap within a feasible run).
* Pointers to customers and events become values: every customer is referenced
  from one place at a time (the FIFO queue or one pending event).
* The pseudo-random generator is the list of the values that the successive
  calls of `rng.Float64()` return; a computation that asks for more draws than
  the list holds yields `none`.
* `math.Log` is a parameter `ln : ℚ → ℚ`, `math.Sqrt` a parameter
  `sqrt : ℚ → ℚ`.
* A division whose divisor the code does not guard (in the computation of the
  metrics, and of a rate-dependent bound `0.5 / rate`, `1.5 / rate`, `1 / rate`
  of a variate) is `fdiv`, which yields `none` for a zero divisor, where
  `float64` would produce an infinity or NaN; an index into a slice yields
  `none` when it is out of range (a panic in Go).
* A computation of the simulator yields `none` when the draws run out, when the
  fuel runs out or when a variate is not a finite number: such runs are outside
  the embedding.
* A Go map with string keys is an association list.
* A Go loop without a bound of its own (the `for` loop of `Run`) takes a fuel
  argument and yields `none` when the fuel runs out.
* Terminal output, the logger and wall-clock measurements are left out; they
  never write to the simulation state.
* `os.ReadFile` and `yaml.Unmarshal` are parameters of `LoadConfig`.
* `container/heap` of the Go standard library is embedded from its source
  (`up`, `down`, `Init`, `Push`, `Pop`), since `EventList` is defined through it.
-/

namespace DES

/-! ## models -/

/-- Status of a customer (`models.CustomerStatus`). -/
inductive CustomerStatus where
  | CustomerWaiting
  | CustomerInService
  | CustomerCompleted
  | CustomerRejected
deriving DecidableEq

/-- Customer record (`models.Customer`). -/
structure Customer where
  ID : Int
  ArrivalTime : ℚ
  ServiceTime : ℚ
  ServiceStart : ℚ
  ExitTime : ℚ
  Status : CustomerStatus
deriving DecidableEq

/-- Kind of an event (`models.EventType`). -/
inductive EventType where
  | EventArrival
  | EventDeparture
  | EventTermination
deriving DecidableEq

/-- Event record (`models.Event`); the Go field `Type` is called `Kind` here,
`Customer = none` is the nil pointer. -/
structure Event where
  Kind : EventType
  Timestamp : ℚ
  Customer : Option Customer
  Priority : Int
deriving DecidableEq

/-- Random settings (`models.RandomConfig`). -/
structure RandomConfig where
  Seed : Int
  Distribution : String
deriving DecidableEq

/-- Configuration (`models.SimulationConfig`), without the display, logging and
stop-condition blocks, which the simulation engine never reads. -/
structure SimulationConfig where
  SimulationTime : ℚ
  ArrivalRate : ℚ
  ServiceRate : ℚ
  MaxQueueSize : Int
  MaxCustomers : Int
  Random : RandomConfig
deriving DecidableEq

/-- State snapshot (`models.SystemState`); `NextDepartureTime = none` stands for
the `+Inf` that `initializeState` stores there. -/
structure SystemState where
  Clock : ℚ
  ServerBusy : Bool
  Queue : List Customer
  NextArrivalTime : ℚ
  NextDepartureTime : Option ℚ
  CustomersServed : Int
  TotalCustomers : Int
  TotalDelay : ℚ
  AreaUnderQ : ℚ
  AreaUnderB : ℚ
  LastEventTime : ℚ
  EventsProcessed : Int
  RejectedCustomers : Int
deriving DecidableEq

/-- Per-customer sample (`models.CustomerStats`). -/
structure CustomerStats where
  WaitTime : ℚ
  SystemTime : ℚ
deriving DecidableEq

/-- Log record (`models.EventLogEntry`). -/
structure EventLogEntry where
  Time : ℚ
  EventType : String
  CustomerID : Int
  QueueSize : Int
  ServerBusy : Bool
  Action : String
deriving DecidableEq

/-- Aggregate metrics (`models.ComprehensiveMetrics`); the fixed-size arrays
are pairs. -/
structure ComprehensiveMetrics where
  AverageWaitTime : ℚ
  AverageQueueLength : ℚ
  ServerUtilization : ℚ
  AverageSystemTime : ℚ
  AverageInSystem : ℚ
  Throughput : ℚ
  QueueProbability : ℚ
  RejectedCustomers : Int
  TotalCustomers : Int
  BlockingProbability : ℚ
  WaitTimeVariance : ℚ
  SystemTimeVariance : ℚ
  MaxQueueLength : Int
  MaxWaitTime : ℚ
  ServerIdleTime : ℚ
  ServerBusyTime : ℚ
  WaitTimeConfidence : ℚ × ℚ
  SystemTimeConfidence : ℚ × ℚ
  WaitTimePercentiles : List (String × ℚ)
  SystemTimePercentiles : List (String × ℚ)
deriving DecidableEq

/-- Results of a run (`models.SimulationResults`) without the wall-clock
`Runtime`. -/
structure SimulationResults where
  Config : SimulationConfig
  Metrics : ComprehensiveMetrics
  State : SystemState
  EventLog : List EventLogEntry
deriving DecidableEq

/-! ## config/loader.go -/

/-- The `simulation` block of the YAML file (`YAMLConfig`), with the fields
that the model of `SimulationConfig` keeps. -/
structure YAMLConfig where
  SimulationTime : ℚ
  ArrivalRate : ℚ
  ServiceRate : ℚ
  MaxQueueSize : Int
  MaxCustomers : Int
  Seed : Int
  Distribution : String
deriving DecidableEq

/-- Function `convertToModel`: a field-by-field copy. -/
def convertToModel (yamlConfig : YAMLConfig) : SimulationConfig :=
  { SimulationTime := yamlConfig.SimulationTime
    ArrivalRate := yamlConfig.ArrivalRate
    ServiceRate := yamlConfig.ServiceRate
    MaxQueueSize := yamlConfig.MaxQueueSize
    MaxCustomers := yamlConfig.MaxCustomers
    Random := { Seed := yamlConfig.Seed, Distribution := yamlConfig.Distribution } }

/-- Function `LoadConfig`; `os.ReadFile` and `yaml.Unmarshal` are the
parameters `readFile` and `unmarshal`. The only errors are theirs. -/
def LoadConfig (readFile : String → Except String String)
    (unmarshal : String → Except String YAMLConfig) (filename : String) :
    Except String SimulationConfig :=
  match readFile filename with
  | Except.error err => Except.error ("failed to read config file: " ++ err)
  | Except.ok data =>
    match unmarshal data with
    | Except.error err => Except.error ("failed to parse YAML: " ++ err)
    | Except.ok yamlConfig => Except.ok (convertToModel yamlConfig)

/-! ## simulation/events.go: the heap of pending events -/

/-- Slice of pending events (`eventHeap`). -/
abbrev eventHeap := List Event

/-- Method `eventHeap.Len`. -/
def eventHeap.Len (h : eventHeap) : Nat := h.length

/-- Method `eventHeap.Less`: strict comparison of the two timestamps. -/
def eventHeap.Less (h : eventHeap) (i j : Nat) : Bool :=
  match h[i]?, h[j]? with
  | some a, some b => decide (a.Timestamp < b.Timestamp)
  | _, _ => false

/-- Method `eventHeap.Swap`. -/
def eventHeap.Swap (h : eventHeap) (i j : Nat) : eventHeap :=
  match h[i]?, h[j]? with
  | some a, some b => (h.set i b).set j a
  | _, _ => h

/-- Method `eventHeap.Push`: append at the end of the slice. -/
def eventHeap.Push (h : eventHeap) (x : Event) : eventHeap := h ++ [x]

/-- Method `eventHeap.Pop`: cut off and return the last element. -/
def eventHeap.Pop (h : eventHeap) : Option Event × eventHeap :=
  (h.getLast?, h.dropLast)

/-- Sift-up loop `up` of `container/heap`. -/
def heap.up (h : eventHeap) (j : Nat) : eventHeap :=
  if (j - 1) / 2 = j then h
  else if eventHeap.Less h j ((j - 1) / 2) then
    heap.up (eventHeap.Swap h ((j - 1) / 2) j) ((j - 1) / 2)
  else h
termination_by j
decreasing_by omega

/-- Sift-down loop `down` of `container/heap` on the first `n` slots, started
at slot `i`; the boolean that Go returns is not used by `heap.Pop`. -/
def heap.down (h : eventHeap) (i n : Nat) : eventHeap :=
  if n ≤ 2 * i + 1 then h
  else if 2 * i + 2 < n ∧ eventHeap.Less h (2 * i + 2) (2 * i + 1) = true then
    if eventHeap.Less h (2 * i + 2) i then
      heap.down (eventHeap.Swap h i (2 * i + 2)) (2 * i + 2) n
    else h
  else
    if eventHeap.Less h (2 * i + 1) i then
      heap.down (eventHeap.Swap h i (2 * i + 1)) (2 * i + 1) n
    else h
termination_by n - i
decreasing_by all_goals omega

/-- Loop of `heap.Init`: `down` at the slots `k-1, ..., 0`. -/
def heap.initLoop (n : Nat) : Nat → eventHeap → eventHeap
  | 0, h => h
  | k + 1, h => heap.initLoop n k (heap.down h k n)

/-- Function `heap.Init`. -/
def heap.Init (h : eventHeap) : eventHeap :=
  heap.initLoop (eventHeap.Len h) (eventHeap.Len h / 2) h

/-- Function `heap.Push`: append, then sift the new element up. -/
def heap.Push (h : eventHeap) (x : Event) : eventHeap :=
  heap.up (eventHeap.Push h x) (eventHeap.Len (eventHeap.Push h x) - 1)

/-- Function `heap.Pop`: swap root and last slot, sift the new root down
within the first `n` slots, cut off the last slot. -/
def heap.Pop (h : eventHeap) : Option Event × eventHeap :=
  eventHeap.Pop (heap.down (eventHeap.Swap h 0 (eventHeap.Len h - 1)) 0 (eventHeap.Len h - 1))

/-- The event list (`EventList`). -/
structure EventList where
  events : eventHeap
deriving DecidableEq

/-- Constructor `NewEventList`. -/
def NewEventList : EventList := ⟨heap.Init []⟩

/-- Method `EventList.IsEmpty`. -/
def EventList.IsEmpty (el : EventList) : Bool := el.events.length == 0

/-- Method `EventList.Size`. -/
def EventList.Size (el : EventList) : Nat := el.events.length

/-- Method `EventList.Push`. -/
def EventList.Push (el : EventList) (event : Event) : EventList :=
  ⟨heap.Push el.events event⟩

/-- Method `EventList.Pop`; `none` is the nil event. -/
def EventList.Pop (el : EventList) : Option Event × EventList :=
  if el.IsEmpty then (none, el)
  else ((heap.Pop el.events).1, ⟨(heap.Pop el.events).2⟩)

/-- Method `EventList.Peek`; `none` is the nil event. -/
def EventList.Peek (el : EventList) : Option Event :=
  if el.IsEmpty then none else el.events[0]?

/-- Division of two `float64` values; `none` stands for the infinity or NaN
that a zero divisor produces. -/
def fdiv (a b : ℚ) : Option ℚ := if b = 0 then none else some (a / b)

/-! ## simulation/events.go: the event manager -/

/-- The event manager (`EventManager`): the event list and the remaining draws
of the generator. The shared configuration pointer is the explicit argument
`cfg` of the functions below. -/
structure EventManager where
  eventList : EventList
  rng : List ℚ
deriving DecidableEq

/-- Constructor `NewEventManager`: `src` is the stream that `rand.NewSource`
produces from a seed, `now` the wall-clock value used for the seed `-1`. -/
def NewEventManager (src : Int → List ℚ) (now : Int) (cfg : SimulationConfig) :
    EventManager :=
  { eventList := NewEventList
    rng := src (if cfg.Random.Seed = -1 then now else cfg.Random.Seed) }

/-- Method `ScheduleEvent`. -/
def EventManager.ScheduleEvent (em : EventManager) (eventType : EventType) (timestamp : ℚ)
    (customer : Option Customer) : EventManager :=
  { em with
    eventList := em.eventList.Push
      { Kind := eventType, Timestamp := timestamp, Customer := customer, Priority := 0 } }

/-- Method `GetNextEvent`. -/
def EventManager.GetNextEvent (em : EventManager) : Option Event × EventManager :=
  (em.eventList.Pop.1, { em with eventList := em.eventList.Pop.2 })

/-- Method `PeekNextEvent`. -/
def EventManager.PeekNextEvent (em : EventManager) : Option Event :=
  em.eventList.Peek

/-- The loop `for u == 0.0 || u == 1.0 { u = em.rng.Float64() }`. -/
def resample : ℚ → List ℚ → Option (ℚ × List ℚ)
  | u, [] => if u = 0 ∨ u = 1 then none else some (u, [])
  | u, v :: r => if u = 0 ∨ u = 1 then resample v r else some (u, v :: r)

/-- Method `GenerateExponential`. -/
def EventManager.GenerateExponential (ln : ℚ → ℚ) (em : EventManager) (rate : ℚ) :
    Option (ℚ × EventManager) :=
  if rate ≤ 0 then some (1, em)
  else
    match em.rng with
    | [] => none
    | u0 :: r0 =>
      match resample u0 r0 with
      | none => none
      | some (u, r) => some (-ln (1 - u) / rate, { em with rng := r })

/-- Method `GenerateUniform`. -/
def EventManager.GenerateUniform (em : EventManager) (min max : ℚ) :
    Option (ℚ × EventManager) :=
  match em.rng with
  | [] => none
  | u :: r => some (min + u * (max - min), { em with rng := r })

/-- Method `GenerateConstant`. -/
def EventManager.GenerateConstant (_em : EventManager) (value : ℚ) : ℚ := value

/-- Method `GetInterarrivalTime`. The divisions by the rate are unguarded in
the code; with a zero rate the bounds of the uniform distribution and the
constant value are not finite numbers. -/
def EventManager.GetInterarrivalTime (ln : ℚ → ℚ) (cfg : SimulationConfig)
    (em : EventManager) : Option (ℚ × EventManager) :=
  if cfg.Random.Distribution = "uniform" then
    match fdiv 0.5 cfg.ArrivalRate, fdiv 1.5 cfg.ArrivalRate with
    | some min, some max => em.GenerateUniform min max
    | _, _ => none
  else if cfg.Random.Distribution = "constant" then
    match fdiv 1 cfg.ArrivalRate with
    | some value => some (value, em)
    | none => none
  else em.GenerateExponential ln cfg.ArrivalRate

/-- Method `GetServiceTime`, with the same unguarded divisions by the rate. -/
def EventManager.GetServiceTime (ln : ℚ → ℚ) (cfg : SimulationConfig)
    (em : EventManager) : Option (ℚ × EventManager) :=
  if cfg.Random.Distribution = "uniform" then
    match fdiv 0.5 cfg.ServiceRate, fdiv 1.5 cfg.ServiceRate with
    | some min, some max => em.GenerateUniform min max
    | _, _ => none
  else if cfg.Random.Distribution = "constant" then
    match fdiv 1 cfg.ServiceRate with
    | some value => some (value, em)
    | none => none
  else em.GenerateExponential ln cfg.ServiceRate

/-- Method `HasEvents`. -/
def EventManager.HasEvents (em : EventManager) : Bool := !em.eventList.IsEmpty

/-- Method `ClearEvents`. -/
def EventManager.ClearEvents (em : EventManager) : EventManager :=
  { em with eventList := NewEventList }

/-- Method `GetEventCount`. -/
def EventManager.GetEventCount (em : EventManager) : Nat := em.eventList.Size

/-! ## simulation/statistics.go -/

/-- The collector (`EnhancedStatisticsCollector`): the metrics record, the
retained samples and the running maxima. -/
structure EnhancedStatisticsCollector where
  metrics : ComprehensiveMetrics
  customerStats : List CustomerStats
  waitTimes : List ℚ
  systemTimes : List ℚ
  maxQueueLength : Int
  maxWaitTime : ℚ
deriving DecidableEq

/-- Constructor `NewStatisticsCollector`. -/
def NewStatisticsCollector : EnhancedStatisticsCollector :=
  { metrics :=
      { AverageWaitTime := 0, AverageQueueLength := 0, ServerUtilization := 0,
        AverageSystemTime := 0, AverageInSystem := 0, Throughput := 0,
        QueueProbability := 0, RejectedCustomers := 0, TotalCustomers := 0,
        BlockingProbability := 0, WaitTimeVariance := 0, SystemTimeVariance := 0,
        MaxQueueLength := 0, MaxWaitTime := 0, ServerIdleTime := 0, ServerBusyTime := 0,
        WaitTimeConfidence := (0, 0), SystemTimeConfidence := (0, 0),
        WaitTimePercentiles := [], SystemTimePercentiles := [] }
    customerStats := [], waitTimes := [], systemTimes := [], maxQueueLength := 0,
    maxWaitTime := 0 }

/-- Method `UpdatePreEvent`: it writes to the collector and to the state. -/
def EnhancedStatisticsCollector.UpdatePreEvent (sc : EnhancedStatisticsCollector)
    (state : SystemState) (timeDiff : ℚ) : EnhancedStatisticsCollector × SystemState :=
  if timeDiff ≤ 0 then (sc, state)
  else
    let currentQueueLength : Int := state.Queue.length
    let state1 := { state with AreaUnderQ := state.AreaUnderQ + (currentQueueLength : ℚ) * timeDiff }
    let sc1 := if currentQueueLength > sc.maxQueueLength then
        { sc with maxQueueLength := currentQueueLength } else sc
    let state2 := if state1.ServerBusy then
        { state1 with AreaUnderB := state1.AreaUnderB + timeDiff } else state1
    (sc1, state2)

/-- Method `RecordCustomerCompletion`. -/
def EnhancedStatisticsCollector.RecordCustomerCompletion (sc : EnhancedStatisticsCollector)
    (customer : Customer) : EnhancedStatisticsCollector :=
  let waitTime := max 0 (customer.ServiceStart - customer.ArrivalTime)
  let systemTime := max 0 (customer.ExitTime - customer.ArrivalTime)
  { sc with
    customerStats := sc.customerStats ++ [{ WaitTime := waitTime, SystemTime := systemTime }]
    waitTimes := sc.waitTimes ++ [waitTime]
    systemTimes := sc.systemTimes ++ [systemTime]
    maxWaitTime := if waitTime > sc.maxWaitTime then waitTime else sc.maxWaitTime }

/-- Indexing `data[i]` of a slice with an `int`; `none` is the panic for an
index out of range. -/
def sliceAt (data : List ℚ) (i : Int) : Option ℚ :=
  if i < 0 then none else data[i.toNat]?

/-- Method `calculatePercentile` (its receiver is not used). -/
def calculatePercentile (data : List ℚ) (percentile : ℚ) : Option ℚ :=
  if data.length = 0 then some 0
  else if ⌊percentile * (((data.length : Int) - 1 : Int) : ℚ)⌋
      = ⌈percentile * (((data.length : Int) - 1 : Int) : ℚ)⌉ then
    sliceAt data ⌊percentile * (((data.length : Int) - 1 : Int) : ℚ)⌋
  else
    match sliceAt data ⌊percentile * (((data.length : Int) - 1 : Int) : ℚ)⌋,
      sliceAt data ⌈percentile * (((data.length : Int) - 1 : Int) : ℚ)⌉ with
    | some lo, some hi =>
      some (lo * (1 - (percentile * (((data.length : Int) - 1 : Int) : ℚ)
            - (⌊percentile * (((data.length : Int) - 1 : Int) : ℚ)⌋ : ℚ)))
          + hi * (percentile * (((data.length : Int) - 1 : Int) : ℚ)
            - (⌊percentile * (((data.length : Int) - 1 : Int) : ℚ)⌋ : ℚ)))
    | _, _ => none

/-- Method `calculateVariances`. -/
def EnhancedStatisticsCollector.calculateVariances (sc : EnhancedStatisticsCollector) :
    Option EnhancedStatisticsCollector :=
  if sc.waitTimes.length < 2 then
    some { sc with metrics := { sc.metrics with WaitTimeVariance := 0, SystemTimeVariance := 0 } }
  else
    match
      fdiv (sc.waitTimes.foldl (fun acc wt =>
          acc + (wt - sc.metrics.AverageWaitTime) * (wt - sc.metrics.AverageWaitTime)) 0)
        (sc.waitTimes.length : ℚ),
      fdiv (sc.systemTimes.foldl (fun acc st =>
          acc + (st - sc.metrics.AverageSystemTime) * (st - sc.metrics.AverageSystemTime)) 0)
        (sc.systemTimes.length : ℚ) with
    | some waitVariance, some systemVariance =>
      some { sc with
        metrics := { sc.metrics with
          WaitTimeVariance := waitVariance, SystemTimeVariance := systemVariance } }
    | _, _ => none

/-- Method `calculatePercentiles`: `sort.Float64s` is the ascending
rearrangement of the copied samples. -/
def EnhancedStatisticsCollector.calculatePercentiles (sc : EnhancedStatisticsCollector) :
    Option EnhancedStatisticsCollector :=
  if sc.waitTimes.length = 0 then some sc
  else
    match calculatePercentile (sc.waitTimes.insertionSort (fun a b => a ≤ b)) 0.5,
      calculatePercentile (sc.waitTimes.insertionSort (fun a b => a ≤ b)) 0.75,
      calculatePercentile (sc.waitTimes.insertionSort (fun a b => a ≤ b)) 0.9,
      calculatePercentile (sc.waitTimes.insertionSort (fun a b => a ≤ b)) 0.95 with
    | some p50, some p75, some p90, some p95 =>
      some { sc with
        metrics := { sc.metrics with
          WaitTimePercentiles :=
            [("50th", p50), ("75th", p75), ("90th", p90), ("95th", p95)] } }
    | _, _, _, _ => none

/-- Method `calculateConfidenceIntervals`. -/
def EnhancedStatisticsCollector.calculateConfidenceIntervals (sqrt : ℚ → ℚ)
    (sc : EnhancedStatisticsCollector) : Option EnhancedStatisticsCollector :=
  if sc.waitTimes.length < 2 then
    some { sc with
      metrics := { sc.metrics with
        WaitTimeConfidence := (0, 0), SystemTimeConfidence := (0, 0) } }
  else
    match fdiv sc.metrics.WaitTimeVariance (sc.waitTimes.length : ℚ) with
    | none => none
    | some waitQuotient =>
      if sc.systemTimes.length ≥ 2 then
        match fdiv sc.metrics.SystemTimeVariance (sc.systemTimes.length : ℚ) with
        | none => none
        | some systemQuotient =>
          some { sc with
            metrics := { sc.metrics with
              WaitTimeConfidence :=
                (sc.metrics.AverageWaitTime - sqrt waitQuotient * 1.96,
                 sc.metrics.AverageWaitTime + sqrt waitQuotient * 1.96)
              SystemTimeConfidence :=
                (sc.metrics.AverageSystemTime - sqrt systemQuotient * 1.96,
                 sc.metrics.AverageSystemTime + sqrt systemQuotient * 1.96) } }
      else
        some { sc with
          metrics := { sc.metrics with
            WaitTimeConfidence :=
              (sc.metrics.AverageWaitTime - sqrt waitQuotient * 1.96,
               sc.metrics.AverageWaitTime + sqrt waitQuotient * 1.96) } }

/-- First block of `CalculateFinalMetrics`: the counters and maxima are copied
and the time averages are set under the test `state.Clock > 0`. -/
def metricsTimeAverages (sc : EnhancedStatisticsCollector) (state : SystemState) :
    Option ComprehensiveMetrics :=
  if state.Clock > 0 then
    match fdiv state.AreaUnderQ state.Clock, fdiv state.AreaUnderB state.Clock,
      fdiv (state.CustomersServed : ℚ) state.Clock with
    | some avgQueue, some utilization, some throughput =>
      some { sc.metrics with
        TotalCustomers := state.TotalCustomers
        RejectedCustomers := state.RejectedCustomers
        MaxQueueLength := sc.maxQueueLength
        MaxWaitTime := sc.maxWaitTime
        AverageQueueLength := avgQueue
        ServerUtilization := utilization
        ServerBusyTime := state.AreaUnderB
        ServerIdleTime := state.Clock - state.AreaUnderB
        Throughput := throughput }
    | _, _, _ => none
  else
    some { sc.metrics with
      TotalCustomers := state.TotalCustomers
      RejectedCustomers := state.RejectedCustomers
      MaxQueueLength := sc.maxQueueLength
      MaxWaitTime := sc.maxWaitTime
      AverageQueueLength := 0
      ServerUtilization := 0
      ServerBusyTime := 0
      ServerIdleTime := 0
      Throughput := 0 }

/-- Second block of `CalculateFinalMetrics`: `AverageWaitTime`. -/
def metricsWaitAverage (state : SystemState) (m : ComprehensiveMetrics) :
    Option ComprehensiveMetrics :=
  if state.CustomersServed > 0 then
    match fdiv state.TotalDelay (state.CustomersServed : ℚ) with
    | some avgWait => some { m with AverageWaitTime := avgWait }
    | none => none
  else some { m with AverageWaitTime := 0 }

/-- Third block of `CalculateFinalMetrics`: `AverageSystemTime` from the sum
accumulated over `customerStats`, then `AverageInSystem`. -/
def metricsSystemAverage (sc : EnhancedStatisticsCollector) (m : ComprehensiveMetrics) :
    Option ComprehensiveMetrics :=
  if sc.customerStats.length > 0 then
    match fdiv (sc.customerStats.foldl (fun acc stats => acc + stats.SystemTime) 0)
        (sc.customerStats.length : ℚ) with
    | some avgSystem =>
      some { m with
        AverageSystemTime := avgSystem
        AverageInSystem := m.AverageQueueLength + m.ServerUtilization }
    | none => none
  else
    some { m with
      AverageSystemTime := 0
      AverageInSystem := m.AverageQueueLength + m.ServerUtilization }

/-- Fourth block of `CalculateFinalMetrics`: `QueueProbability`. -/
def metricsQueueProbability (cfg : SimulationConfig) (state : SystemState)
    (m : ComprehensiveMetrics) : Option ComprehensiveMetrics :=
  if state.Clock > 0 ∧ cfg.MaxQueueSize > 0 then
    match fdiv state.AreaUnderQ state.Clock with
    | none => none
    | some perTime =>
      match fdiv perTime (cfg.MaxQueueSize : ℚ) with
      | none => none
      | some probability => some { m with QueueProbability := probability }
  else some { m with QueueProbability := 0 }

/-- Fifth block of `CalculateFinalMetrics`: `BlockingProbability`. -/
def metricsBlocking (state : SystemState) (m : ComprehensiveMetrics) :
    Option ComprehensiveMetrics :=
  if state.TotalCustomers > 0 then
    match fdiv (state.RejectedCustomers : ℚ) (state.TotalCustomers : ℚ) with
    | some blocking => some { m with BlockingProbability := blocking }
    | none => none
  else some { m with BlockingProbability := 0 }

/-- Method `CalculateFinalMetrics`: the five blocks, then the variances, the
percentiles and the confidence intervals; the returned metrics are the
`metrics` field of the returned collector. -/
def EnhancedStatisticsCollector.CalculateFinalMetrics (sqrt : ℚ → ℚ) (cfg : SimulationConfig)
    (sc : EnhancedStatisticsCollector) (state : SystemState) :
    Option EnhancedStatisticsCollector :=
  (((((((metricsTimeAverages sc state).bind (metricsWaitAverage state)).bind
    (metricsSystemAverage sc)).bind (metricsQueueProbability cfg state)).bind
    (metricsBlocking state)).bind
    (fun m => EnhancedStatisticsCollector.calculateVariances { sc with metrics := m })).bind
    EnhancedStatisticsCollector.calculatePercentiles).bind
    (EnhancedStatisticsCollector.calculateConfidenceIntervals sqrt)

/-! ## simulation/simulator.go -/

/-- The simulator (`DiscreteEventSimulator`). -/
structure DiscreteEventSimulator where
  state : SystemState
  events : EventManager
  stats : EnhancedStatisticsCollector
  customerID : Int
  eventLog : List EventLogEntry
deriving DecidableEq

/-- The state literal that `initializeState` stores. -/
def initialState : SystemState :=
  { Clock := 0, ServerBusy := false, Queue := [], NextArrivalTime := 0,
    NextDepartureTime := none, LastEventTime := 0, CustomersServed := 0,
    TotalCustomers := 0, TotalDelay := 0, AreaUnderQ := 0, AreaUnderB := 0,
    EventsProcessed := 0, RejectedCustomers := 0 }

/-- Method `initializeState`: the event manager is not touched. -/
def DiscreteEventSimulator.initializeState (sim : DiscreteEventSimulator) :
    DiscreteEventSimulator :=
  { sim with
    state := initialState, stats := NewStatisticsCollector, customerID := 1, eventLog := [] }

/-- Constructor `NewSimulator`. -/
def NewSimulator (src : Int → List ℚ) (now : Int) (cfg : SimulationConfig) :
    DiscreteEventSimulator :=
  DiscreteEventSimulator.initializeState
    { state := initialState, events := NewEventManager src now cfg,
      stats := NewStatisticsCollector, customerID := 1, eventLog := [] }

/-- Method `Initialize`. -/
def DiscreteEventSimulator.Initialize (ln : ℚ → ℚ) (cfg : SimulationConfig)
    (sim : DiscreteEventSimulator) : Option DiscreteEventSimulator :=
  match sim.initializeState.events.GetInterarrivalTime ln cfg with
  | none => none
  | some (firstArrivalTime, em) =>
    some { sim.initializeState with
      events := em.ScheduleEvent EventType.EventArrival firstArrivalTime none }

/-- Method `ShouldStop`. -/
def DiscreteEventSimulator.ShouldStop (cfg : SimulationConfig)
    (sim : DiscreteEventSimulator) : Bool :=
  decide (sim.state.Clock ≥ cfg.SimulationTime)

/-- The branch `if !ServerBusy ... else if len(Queue) < MaxQueueSize ... else`
of `processArrival`: the new customer starts service, waits, or is rejected. -/
def DiscreteEventSimulator.place (cfg : SimulationConfig) (sim : DiscreteEventSimulator)
    (customer : Customer) : DiscreteEventSimulator :=
  if !sim.state.ServerBusy then
    { sim with
      state := { sim.state with
        ServerBusy := true, CustomersServed := sim.state.CustomersServed + 1 }
      events := sim.events.ScheduleEvent EventType.EventDeparture
        (sim.state.Clock + customer.ServiceTime)
        (some { customer with
          ServiceStart := sim.state.Clock, Status := CustomerStatus.CustomerInService }) }
  else if (sim.state.Queue.length : Int) < cfg.MaxQueueSize then
    { sim with state := { sim.state with Queue := sim.state.Queue ++ [customer] } }
  else
    { sim with
      state := { sim.state with RejectedCustomers := sim.state.RejectedCustomers + 1 } }

/-- The last block of `processArrival`: draw the next interarrival time and
schedule the next arrival unless it lies beyond the horizon. -/
def DiscreteEventSimulator.scheduleNext (ln : ℚ → ℚ) (cfg : SimulationConfig)
    (sim : DiscreteEventSimulator) : Option DiscreteEventSimulator :=
  match sim.events.GetInterarrivalTime ln cfg with
  | none => none
  | some (interarrival, em) =>
    if sim.state.Clock + interarrival ≤ cfg.SimulationTime then
      some { sim with
        events := em.ScheduleEvent EventType.EventArrival
          (sim.state.Clock + interarrival) none }
    else some { sim with events := em }

/-- Method `processArrival`: draw the service time, create the customer, count
it, then the two blocks above. -/
def DiscreteEventSimulator.processArrival (ln : ℚ → ℚ) (cfg : SimulationConfig)
    (sim : DiscreteEventSimulator) : Option DiscreteEventSimulator :=
  match sim.events.GetServiceTime ln cfg with
  | none => none
  | some (serviceTime, em) =>
    DiscreteEventSimulator.scheduleNext ln cfg
      (DiscreteEventSimulator.place cfg
        { sim with
          events := em
          customerID := sim.customerID + 1
          state := { sim.state with TotalCustomers := sim.state.TotalCustomers + 1 } }
        { ID := sim.customerID, ArrivalTime := sim.state.Clock, ServiceTime := serviceTime,
          ServiceStart := 0, ExitTime := 0, Status := CustomerStatus.CustomerWaiting })

/-- Method `processDeparture`; `customer = none` is the nil pointer. -/
def DiscreteEventSimulator.processDeparture (sim : DiscreteEventSimulator)
    (customer : Option Customer) : DiscreteEventSimulator :=
  let sim1 : DiscreteEventSimulator :=
    match customer with
    | some c =>
      { sim with
        stats := sim.stats.RecordCustomerCompletion { c with ExitTime := sim.state.Clock } }
    | none => sim
  match sim1.state.Queue with
  | nextCustomer :: rest =>
    let delay := if sim1.state.Clock - nextCustomer.ArrivalTime < 0 then 0
      else sim1.state.Clock - nextCustomer.ArrivalTime
    { sim1 with
      state := { sim1.state with
        Queue := rest
        TotalDelay := sim1.state.TotalDelay + delay
        ServerBusy := true
        CustomersServed := sim1.state.CustomersServed + 1 }
      events := sim1.events.ScheduleEvent EventType.EventDeparture
        (sim1.state.Clock + nextCustomer.ServiceTime)
        (some { nextCustomer with
          ServiceStart := sim1.state.Clock, Status := CustomerStatus.CustomerInService }) }
  | [] => { sim1 with state := { sim1.state with ServerBusy := false } }

/-- Method `processEvent`: the `switch` has no case for a termination event. -/
def DiscreteEventSimulator.processEvent (ln : ℚ → ℚ) (cfg : SimulationConfig)
    (sim : DiscreteEventSimulator) (event : Event) : Option DiscreteEventSimulator :=
  match event.Kind with
  | EventType.EventArrival => sim.processArrival ln cfg
  | EventType.EventDeparture => some (sim.processDeparture event.Customer)
  | EventType.EventTermination => some sim

/-- Method `logEvent`. -/
def DiscreteEventSimulator.logEvent (sim : DiscreteEventSimulator) (event : Event) :
    DiscreteEventSimulator :=
  let eventType : String :=
    match event.Kind with
    | EventType.EventArrival => "ARRIVAL"
    | EventType.EventDeparture => "DEPARTURE"
    | EventType.EventTermination => ""
  let action : String :=
    match event.Kind with
    | EventType.EventArrival => "Customer arrived"
    | EventType.EventDeparture => "Customer departed"
    | EventType.EventTermination => ""
  let customerID : Int :=
    match event.Customer with
    | some c => c.ID
    | none => 0
  { sim with
    eventLog := sim.eventLog ++
      [{ Time := event.Timestamp, EventType := eventType, CustomerID := customerID,
         QueueSize := sim.state.Queue.length, ServerBusy := sim.state.ServerBusy,
         Action := action }] }

/-- The integral update guarded by `if timeDiff > 0`, as it is written in
`ProcessEvent`, in the loop and the final flush of `Run` and in the manual
driver. -/
def DiscreteEventSimulator.flush (sim : DiscreteEventSimulator) (timeDiff : ℚ) :
    DiscreteEventSimulator :=
  if timeDiff > 0 then
    { sim with
      stats := (sim.stats.UpdatePreEvent sim.state timeDiff).1
      state := (sim.stats.UpdatePreEvent sim.state timeDiff).2 }
  else sim

/-- Method `ProcessEvent` (the exported single step used by the manual driver). -/
def DiscreteEventSimulator.ProcessEvent (ln : ℚ → ℚ) (cfg : SimulationConfig)
    (sim : DiscreteEventSimulator) (event : Event) : Option DiscreteEventSimulator :=
  match (sim.flush (event.Timestamp - sim.state.LastEventTime)).processEvent ln cfg event with
  | none => none
  | some sim2 =>
    let sim3 := sim2.logEvent event
    some { sim3 with
      state := { sim3.state with
        Clock := event.Timestamp
        LastEventTime := event.Timestamp
        EventsProcessed := sim3.state.EventsProcessed + 1 } }

/-- One pass through the body of the `for` loop of `Run`, entered with the
peeked event `nextEvent` after both `break` tests; `none` when the draws run
out or a variate is not finite (or when `GetNextEvent` returns nil, which
cannot happen after a successful peek and would be a nil dereference in
Go). -/
def DiscreteEventSimulator.runBody (ln : ℚ → ℚ) (cfg : SimulationConfig)
    (sim : DiscreteEventSimulator) (nextEvent : Event) : Option DiscreteEventSimulator :=
  let sim1 := sim.flush (nextEvent.Timestamp - sim.state.LastEventTime)
  match sim1.events.GetNextEvent with
  | (none, _) => none
  | (some event, em) =>
    match DiscreteEventSimulator.processEvent ln cfg
      { sim1 with events := em, state := { sim1.state with Clock := event.Timestamp } }
      event with
    | none => none
    | some sim3 =>
      some { sim3 with
        state := { sim3.state with
          LastEventTime := sim3.state.Clock
          EventsProcessed := sim3.state.EventsProcessed + 1 } }

/-- The `for` loop of `Run`; `none` when the fuel or the draws run out or a
variate is not finite. -/
def DiscreteEventSimulator.runLoop (ln : ℚ → ℚ) (cfg : SimulationConfig) :
    Nat → DiscreteEventSimulator → Option DiscreteEventSimulator
  | 0, _ => none
  | fuel + 1, sim =>
    match sim.events.PeekNextEvent with
    | none => some sim
    | some nextEvent =>
      if nextEvent.Timestamp > cfg.SimulationTime then some sim
      else
        match sim.runBody ln cfg nextEvent with
        | none => none
        | some sim1 => DiscreteEventSimulator.runLoop ln cfg fuel sim1

/-- The statements of `Run` after the loop: the residual integral update and
the move of the clock to the horizon. -/
def DiscreteEventSimulator.runFinal (cfg : SimulationConfig)
    (sim : DiscreteEventSimulator) : DiscreteEventSimulator :=
  if sim.state.Clock < cfg.SimulationTime then
    let sim1 := sim.flush (cfg.SimulationTime - sim.state.LastEventTime)
    { sim1 with state := { sim1.state with Clock := cfg.SimulationTime } }
  else sim

/-- Method `Run` up to the computation of the metrics: the simulator as it is
when `CalculateFinalMetrics` is called. -/
def DiscreteEventSimulator.Run (ln : ℚ → ℚ) (cfg : SimulationConfig) (fuel : Nat)
    (sim : DiscreteEventSimulator) : Option DiscreteEventSimulator :=
  match DiscreteEventSimulator.runLoop ln cfg fuel sim with
  | none => none
  | some sim1 => some (sim1.runFinal cfg)

/-- Method `Run` in full: the loop, the final flush, the call of
`CalculateFinalMetrics` and the returned results. -/
def DiscreteEventSimulator.RunResults (ln sqrt : ℚ → ℚ) (cfg : SimulationConfig)
    (fuel : Nat) (sim : DiscreteEventSimulator) : Option SimulationResults :=
  match sim.Run ln cfg fuel with
  | none => none
  | some sim1 =>
    match sim1.stats.CalculateFinalMetrics sqrt cfg sim1.state with
    | none => none
    | some sc =>
      some { Config := cfg, Metrics := sc.metrics, State := sim1.state,
             EventLog := sim1.eventLog }

/-- The customer record as `processArrival` leaves it when it returns: in
service, waiting or rejected, by the branch that `place` takes. -/
def DiscreteEventSimulator.placedCustomer (cfg : SimulationConfig)
    (sim : DiscreteEventSimulator) (customer : Customer) : Customer :=
  if !sim.state.ServerBusy then
    { customer with
      ServiceStart := sim.state.Clock, Status := CustomerStatus.CustomerInService }
  else if (sim.state.Queue.length : Int) < cfg.MaxQueueSize then customer
  else { customer with Status := CustomerStatus.CustomerRejected }

/-- The customer that `processArrival` creates, as it is when `processArrival`
returns. -/
def DiscreteEventSimulator.arrivalCustomer (ln : ℚ → ℚ) (cfg : SimulationConfig)
    (sim : DiscreteEventSimulator) : Option Customer :=
  match sim.events.GetServiceTime ln cfg with
  | none => none
  | some (serviceTime, em) =>
    some (DiscreteEventSimulator.placedCustomer cfg
      { sim with
        events := em
        customerID := sim.customerID + 1
        state := { sim.state with TotalCustomers := sim.state.TotalCustomers + 1 } }
      { ID := sim.customerID, ArrivalTime := sim.state.Clock, ServiceTime := serviceTime,
        ServiceStart := 0, ExitTime := 0, Status := CustomerStatus.CustomerWaiting })

/-- The record of the departing customer as `processDeparture` leaves it: the
exit time is set, the status is not touched. -/
def DiscreteEventSimulator.departedCustomer (sim : DiscreteEventSimulator)
    (customer : Customer) : Customer :=
  { customer with ExitTime := sim.state.Clock }

/-! ## main.go: the manual driver -/

/-- One pass through the loop of `runManualSimulation` from the call of
`GetNextEvent` on (after the stop tests and the confirmation of the user);
`none` when `GetNextEvent` returns nil (the `break`) or the draws run out. -/
def runManualSimulation.step (ln : ℚ → ℚ) (cfg : SimulationConfig)
    (sim : DiscreteEventSimulator) : Option DiscreteEventSimulator :=
  match sim.events.GetNextEvent with
  | (none, _) => none
  | (some event, em) =>
    let sim1 : DiscreteEventSimulator := { sim with events := em }
    let sim2 := sim1.flush (event.Timestamp - sim1.state.LastEventTime)
    DiscreteEventSimulator.ProcessEvent ln cfg
      { sim2 with state := { sim2.state with Clock := event.Timestamp } } event

/-- One execution in automatic mode, as `main` performs it: `NewSimulator`,
`Initialize`, then `Run` (the second `Initialize` of `runAutomaticSimulation`
is skipped, an event being pending). -/
def runOnce (ln sqrt : ℚ → ℚ) (src : Int → List ℚ) (now : Int) (cfg : SimulationConfig)
    (fuel : Nat) : Option SimulationResults :=
  match (NewSimulator src now cfg).Initialize ln cfg with
  | none => none
  | some sim => sim.RunResults ln sqrt cfg fuel

/-! ## Specification vocabulary for the heap -/

/-- Timestamp stored at slot `k` among the first `n` slots of `h`; `⊤` for a
slot outside them. -/
def keyN (h : eventHeap) (n k : Nat) : WithTop ℚ :=
  if k < n then
    match h[k]? with
    | some e => (e.Timestamp : WithTop ℚ)
    | none => ⊤
  else ⊤

/-- Heap order on the first `n` slots: no slot is earlier than its parent. -/
def HeapN (h : eventHeap) (n : Nat) : Prop :=
  ∀ k, 0 < k → keyN h n ((k - 1) / 2) ≤ keyN h n k

/-- Heap order on the whole slice. -/
def IsHeap (h : eventHeap) : Prop := HeapN h h.length

/-- Exchange of the values at `i` and `j` of a slot-indexed function. -/
def swapF (f : Nat → WithTop ℚ) (i j : Nat) : Nat → WithTop ℚ :=
  fun k => if k = j then f i else if k = i then f j else f k

/-! ## Specification vocabulary for the event list -/

/-- Event lists that arise from `NewEventList` by calls of `Push` and `Pop`. -/
inductive EventList.Built : EventList → Prop
  | new : EventList.Built NewEventList
  | push (el : EventList) (e : Event) : EventList.Built el → EventList.Built (el.Push e)
  | pop (el : EventList) : EventList.Built el → EventList.Built el.Pop.2

/-- The list obtained by pushing the given events in order on a new list. -/
def pushAll (es : List Event) : EventList := es.foldl EventList.Push NewEventList

/-- The events that up to `k` successive calls of `Pop` return, in order. -/
def popAll : Nat → EventList → List Event
  | 0, _ => []
  | k + 1, el =>
    match el.Pop with
    | (some e, el1) => e :: popAll k el1
    | (none, _) => []

/-- Three events with the same timestamp, told apart by their `Priority` tag
(a field that the ordering never reads). -/
def tieA : Event := { Kind := EventType.EventArrival, Timestamp := 1, Customer := none, Priority := 1 }

/-- Second event of the tie. -/
def tieB : Event := { tieA with Priority := 2 }

/-- Third event of the tie. -/
def tieC : Event := { tieA with Priority := 3 }

/-! ## Specification vocabulary for the simulator -/

/-- Contract of `rand.Float64`: every draw lies in `[0, 1)`. -/
def ValidStream (rng : List ℚ) : Prop := ∀ u ∈ rng, 0 ≤ u ∧ u < 1

/-- The sign of `math.Log` on the open unit interval. -/
def LogNegative (ln : ℚ → ℚ) : Prop := ∀ x, 0 < x → x < 1 → ln x < 0

/-- The events pending in the event list of a simulator. -/
def pending (sim : DiscreteEventSimulator) : List Event := sim.events.eventList.events

/-- The departure events of a list of events. -/
def deps (l : List Event) : List Event :=
  l.filter (fun e => e.Kind = EventType.EventDeparture)

/-- The pending departure events. -/
def pendingDepartures (sim : DiscreteEventSimulator) : List Event := deps (pending sim)

/-- The customers in service: those attached, with status in-service, to a
pending departure event. -/
def inService (sim : DiscreteEventSimulator) : List Customer :=
  (pendingDepartures sim).filterMap (fun e =>
    match e.Customer with
    | some c => if c.Status = CustomerStatus.CustomerInService then some c else none
    | none => none)

/-- The loop of `Run` applies the event `e` in the state `s` and leaves `s1`:
`e` is the peeked event, it passes the horizon test, and the loop body maps
`s` to `s1`. -/
def Applies (ln : ℚ → ℚ) (cfg : SimulationConfig) (s : DiscreteEventSimulator) (e : Event)
    (s1 : DiscreteEventSimulator) : Prop :=
  s.events.PeekNextEvent = some e ∧ ¬ (e.Timestamp > cfg.SimulationTime) ∧
    s.runBody ln cfg e = some s1

/-- States reached from a new simulator by `Initialize` and then any number of
events applied by the loop of `Run`. -/
inductive Reachable (ln : ℚ → ℚ) (src : Int → List ℚ) (now : Int) (cfg : SimulationConfig) :
    DiscreteEventSimulator → Prop
  | init (s0 : DiscreteEventSimulator) :
      (NewSimulator src now cfg).Initialize ln cfg = some s0 → Reachable ln src now cfg s0
  | step (s s1 : DiscreteEventSimulator) (e : Event) :
      Reachable ln src now cfg s → Applies ln cfg s e s1 → Reachable ln src now cfg s1

/-- Bookkeeping invariant of the server: one pending departure exactly when the
server is busy, every pending departure carries a customer in service, and
the counters balance, `CustomersServed` counting the recorded completions plus
the customer in service. -/
def InvServe (s : DiscreteEventSimulator) : Prop :=
  (deps (pending s)).length = (if s.state.ServerBusy then 1 else 0) ∧
  (∀ e ∈ deps (pending s),
    ∃ c, e.Customer = some c ∧ c.Status = CustomerStatus.CustomerInService) ∧
  s.state.RejectedCustomers + s.state.CustomersServed + (s.state.Queue.length : Int)
    = s.state.TotalCustomers ∧
  s.state.CustomersServed
    = (s.stats.waitTimes.length : Int) + ((deps (pending s)).length : Int)

/-- The state after exactly `n` passes through the loop of `Run`; `none` when
the loop stops earlier, the draws run out or a variate is not finite. -/
def stepsFrom (ln : ℚ → ℚ) (cfg : SimulationConfig) :
    Nat → DiscreteEventSimulator → Option DiscreteEventSimulator
  | 0, s => some s
  | n + 1, s =>
    match s.events.PeekNextEvent with
    | none => none
    | some e =>
      if e.Timestamp > cfg.SimulationTime then none
      else
        match s.runBody ln cfg e with
        | none => none
        | some s1 => stepsFrom ln cfg n s1

/-! ## A small run used for the concrete instances -/

/-- A stand-in for `math.Log` that is negative on the open unit interval; with
it the exponential variate for the draw `u` is `u / rate`. -/
def demoLn : ℚ → ℚ := fun x => x - 1

/-- A stream of draws, the same for every seed. -/
def demoSrc : Int → List ℚ :=
  fun _ => [1 / 2, 1 / 4, 3 / 4, 0, 1 / 2, 1 / 4, 1 / 2, 3 / 4, 1 / 4, 1 / 2]

/-- A configuration with exponential variates. -/
def demoConfig : SimulationConfig :=
  { SimulationTime := 2, ArrivalRate := 1, ServiceRate := 1 / 2, MaxQueueSize := 1,
    MaxCustomers := 0, Random := { Seed := 42, Distribution := "exponential" } }

/-- The simulator after `NewSimulator` and `Initialize` (the new simulator
itself when `Initialize` yields `none`). -/
def initState (ln : ℚ → ℚ) (src : Int → List ℚ) (now : Int) (cfg : SimulationConfig) :
    DiscreteEventSimulator :=
  ((NewSimulator src now cfg).Initialize ln cfg).getD (NewSimulator src now cfg)

/-- The simulator after `Initialize` and `n` applied events. -/
def stateAfter (ln : ℚ → ℚ) (src : Int → List ℚ) (now : Int) (cfg : SimulationConfig)
    (n : Nat) : DiscreteEventSimulator :=
  (stepsFrom ln cfg n (initState ln src now cfg)).getD (initState ln src now cfg)

/-- The demo simulator after `NewSimulator` and `Initialize`. -/
def demoInit : DiscreteEventSimulator := initState demoLn demoSrc 0 demoConfig

/-- The demo simulator after `n` applied events. -/
def demoAfter (n : Nat) : DiscreteEventSimulator := stateAfter demoLn demoSrc 0 demoConfig n

/-- A configuration that the loader accepts although its service rate is
negative: with the constant distribution every service time is `-2`. -/
def badConfig : SimulationConfig :=
  { SimulationTime := 3 / 2, ArrivalRate := 1, ServiceRate := -1 / 2, MaxQueueSize := 1,
    MaxCustomers := 0, Random := { Seed := 42, Distribution := "constant" } }

/-- The simulator that `Run` leaves in the demo run. -/
def demoFinal : DiscreteEventSimulator :=
  (demoInit.Run demoLn demoConfig 10).getD demoInit

/-- The simulator when the manual driver enters its loop: `main` has called
`Initialize`, and `runManualSimulation` calls it once more. -/
def manualStart : DiscreteEventSimulator :=
  (demoInit.Initialize demoLn demoConfig).getD demoInit

/-- The simulator of the manual driver after its first step. -/
def manualAfter1 : DiscreteEventSimulator :=
  (runManualSimulation.step demoLn demoConfig manualStart).getD manualStart

/-- The event that is next after the first manual step: the arrival scheduled
by the first `Initialize`. -/
def manualNext : Event :=
  { Kind := EventType.EventArrival, Timestamp := 1 / 2, Customer := none, Priority := 0 }

/-- A stand-in for `math.Sqrt`; only the confidence intervals use it. -/
def demoSqrt : ℚ → ℚ := fun x => x

/-- A configuration with uniform variates: with the draws of `varSrc` every
interarrival time is `1/2` and every service time is `5/8`. -/
def varConfig : SimulationConfig :=
  { SimulationTime := 9 / 4, ArrivalRate := 1, ServiceRate := 1, MaxQueueSize := 5,
    MaxCustomers := 0, Random := { Seed := 42, Distribution := "uniform" } }

/-- The draws for `varConfig`: `0` for an interarrival time, `1/8` for a
service time. -/
def varSrc : Int → List ℚ := fun _ => [0, 1 / 8, 0, 1 / 8, 0, 1 / 8, 0, 1 / 8, 0]

/-- The simulator that `Run` leaves for `varConfig`. -/
def varFinal : DiscreteEventSimulator :=
  ((initState demoLn varSrc 0 varConfig).Run demoLn varConfig 10).getD
    (initState demoLn varSrc 0 varConfig)

/-- A pending event that respects the horizon policy: a departure (scheduled
without a horizon test), or an arrival that does not lie beyond the horizon. -/
def Admissible (cfg : SimulationConfig) (x : Event) : Prop :=
  x.Kind = EventType.EventDeparture ∨
    (x.Kind = EventType.EventArrival ∧ x.Timestamp ≤ cfg.SimulationTime)

/-- The simulator on which the loop of `Run` calls `processEvent` for the
peeked event `e`: after the integral update, the pop and the move of the
clock. -/
def atEvent (s : DiscreteEventSimulator) (e : Event) : DiscreteEventSimulator :=
  { s.flush (e.Timestamp - s.state.LastEventTime) with
    events := { s.events with eventList := s.events.eventList.Pop.2 }
    state := { (s.flush (e.Timestamp - s.state.LastEventTime)).state with
      Clock := e.Timestamp } }

/-- The demo configuration without waiting room. -/
def zeroConfig : SimulationConfig := { demoConfig with MaxQueueSize := 0 }

/-- The simulator of the run without waiting room after `n` applied events. -/
def zeroAfter (n : Nat) : DiscreteEventSimulator := stateAfter demoLn demoSrc 0 zeroConfig n

/-- The fourth event of the run without waiting room: an arrival at `3/2`,
while the customer that arrived at `5/4` is in service. -/
def zeroArrival : Event :=
  { Kind := EventType.EventArrival, Timestamp := 3 / 2, Customer := none, Priority := 0 }

/-- The first event of the demo run. -/
def demoFirst : Event :=
  { Kind := EventType.EventArrival, Timestamp := 1 / 2, Customer := none, Priority := 0 }

/-- A customer that waited `1/2` and left after `3/2`. -/
def sampleCustomer : Customer :=
  { ID := 9, ArrivalTime := 1, ServiceTime := 1, ServiceStart := 3 / 2, ExitTime := 5 / 2,
    Status := CustomerStatus.CustomerInService }

/-- A file content that violates every validity condition of the
specification: zero arrival rate, negative service rate, negative capacity
and an unknown distribution name. -/
def invalidYAML : YAMLConfig :=
  { SimulationTime := 2, ArrivalRate := 0, ServiceRate := -1, MaxQueueSize := -1,
    MaxCustomers := 0, Seed := 42, Distribution := "gamma" }

/-- The arrival that `processArrival` schedules for the interarrival time
`ia`: one event at `Clock + ia` if that time is within the horizon, none
otherwise. -/
def nextArrivals (cfg : SimulationConfig) (s : DiscreteEventSimulator) (ia : ℚ) : List Event :=
  if s.state.Clock + ia ≤ cfg.SimulationTime then
    [{ Kind := EventType.EventArrival, Timestamp := s.state.Clock + ia, Customer := none,
       Priority := 0 }]
  else []

/-- The simulator after `processArrival` for the first arrival of the demo
run. -/
def demoArrived : DiscreteEventSimulator :=
  ((atEvent demoInit demoFirst).processArrival demoLn demoConfig).getD demoInit

/-- The first customer of the demo run, in service from `1/2`. -/
def demoCustomer : Customer :=
  { ID := 1, ArrivalTime := 1 / 2, ServiceTime := 1 / 2, ServiceStart := 1 / 2, ExitTime := 0,
    Status := CustomerStatus.CustomerInService }

/-- The second event of the demo run: the departure of the first customer. -/
def demoDeparture : Event :=
  { Kind := EventType.EventDeparture, Timestamp := 1, Customer := some demoCustomer,
    Priority := 0 }

/-- The fourth event of the demo run: the arrival of the third customer. -/
def demoFourth : Event :=
  { Kind := EventType.EventArrival, Timestamp := 3 / 2, Customer := none, Priority := 0 }

/-- A configuration with constant variates: an arrival every time unit, served
in `3/2`, up to the horizon `9/2`. -/
def constConfig : SimulationConfig :=
  { SimulationTime := 9 / 2, ArrivalRate := 1, ServiceRate := 2 / 3, MaxQueueSize := 5,
    MaxCustomers := 0, Random := { Seed := 42, Distribution := "constant" } }

/-- Scheduling invariant: the pending events form a heap and none lies before
the clock, the remaining draws are valid, and every waiting customer has a
positive service time. -/
def InvSched (s : DiscreteEventSimulator) : Prop :=
  IsHeap (pending s) ∧ (∀ x ∈ pending s, s.state.Clock ≤ x.Timestamp) ∧
  ValidStream s.events.rng ∧ (∀ c ∈ s.state.Queue, 0 < c.ServiceTime)

/-- Invariant of the loop of `Run` between two events. -/
def InvTime (cfg : SimulationConfig) (s : DiscreteEventSimulator) : Prop :=
  InvSched s ∧ s.state.LastEventTime = s.state.Clock ∧
  0 ≤ s.state.AreaUnderB ∧ s.state.AreaUnderB ≤ s.state.Clock ∧
  (0 ≤ cfg.SimulationTime → s.state.Clock ≤ cfg.SimulationTime)

/-- Facts of the loop of `Run` that hold for every configuration: the busy
integral is non-negative and, for a non-negative horizon, the clock does not
pass the horizon. -/
def InvLite (cfg : SimulationConfig) (s : DiscreteEventSimulator) : Prop :=
  0 ≤ s.state.AreaUnderB ∧ (0 ≤ cfg.SimulationTime → s.state.Clock ≤ cfg.SimulationTime)

/-- The timestamps of the events that the first `n` passes of the loop of
`Run` pop and apply, in order. -/
def appliedTimestamps (ln : ℚ → ℚ) (cfg : SimulationConfig) :
    Nat → DiscreteEventSimulator → List ℚ
  | 0, _ => []
  | n + 1, s =>
    match s.events.PeekNextEvent with
    | none => []
    | some e =>
      if e.Timestamp > cfg.SimulationTime then []
      else
        match s.runBody ln cfg e with
        | none => []
        | some s1 => e.Timestamp :: appliedTimestamps ln cfg n s1

/-- One call of `UpdatePreEvent`, recorded as the time interval it covers and
the queue length and busy flag of the state it is given. -/
structure Interval where
  lo : ℚ
  hi : ℚ
  queueLength : Nat
  busy : Bool
deriving DecidableEq

/-- The call of `UpdatePreEvent` that the guarded update `flush` makes: none
when `timeDiff` is not positive, else the interval of length `timeDiff` that
starts at `LastEventTime`. -/
def flushArgs (s : DiscreteEventSimulator) (timeDiff : ℚ) : List Interval :=
  if timeDiff > 0 then
    [{ lo := s.state.LastEventTime, hi := s.state.LastEventTime + timeDiff,
       queueLength := s.state.Queue.length, busy := s.state.ServerBusy }]
  else []

/-- The calls of `UpdatePreEvent` made by the loop of `Run`, in order. -/
def loopIntervals (ln : ℚ → ℚ) (cfg : SimulationConfig) :
    Nat → DiscreteEventSimulator → List Interval
  | 0, _ => []
  | n + 1, s =>
    match s.events.PeekNextEvent with
    | none => []
    | some e =>
      if e.Timestamp > cfg.SimulationTime then []
      else
        match s.runBody ln cfg e with
        | none => []
        | some s1 =>
          flushArgs s (e.Timestamp - s.state.LastEventTime) ++ loopIntervals ln cfg n s1

/-- The call of `UpdatePreEvent` made by the final flush of `Run`. -/
def finalIntervals (cfg : SimulationConfig) (s : DiscreteEventSimulator) : List Interval :=
  if s.state.Clock < cfg.SimulationTime then
    flushArgs s (cfg.SimulationTime - s.state.LastEventTime)
  else []

/-- All calls of `UpdatePreEvent` made by `Run`, in order. -/
def runIntervals (ln : ℚ → ℚ) (cfg : SimulationConfig) (fuel : Nat)
    (s : DiscreteEventSimulator) : List Interval :=
  match DiscreteEventSimulator.runLoop ln cfg fuel s with
  | none => []
  | some s1 => loopIntervals ln cfg fuel s ++ finalIntervals cfg s1

/-- The intervals are non-empty, each starts where the one before ends, the
first starts at `a` and the last ends at `b`: they partition `[a, b]`. -/
def Covers : ℚ → ℚ → List Interval → Prop
  | a, b, [] => a = b
  | a, b, iv :: rest => iv.lo = a ∧ iv.lo < iv.hi ∧ Covers iv.hi b rest

/-- Total length of the intervals. -/
def totalLength (ivs : List Interval) : ℚ := (ivs.map (fun iv => iv.hi - iv.lo)).sum

/-- Integral of the recorded queue length over the intervals. -/
def integralQ (ivs : List Interval) : ℚ :=
  (ivs.map (fun iv => (iv.queueLength : ℚ) * (iv.hi - iv.lo))).sum

/-- Integral of the recorded busy indicator over the intervals. -/
def integralB (ivs : List Interval) : ℚ :=
  (ivs.map (fun iv => if iv.busy then iv.hi - iv.lo else 0)).sum

/-! ## Specification vocabulary for the metrics -/

/-- The rank `p * (n - 1)` at which a percentile of `n` samples is read. -/
def percentileRank (n : Nat) (p : ℚ) : ℚ := p * ((n : ℚ) - 1)

/-- The retained sample lists are the two columns of `customerStats`. -/
def EnhancedStatisticsCollector.Consistent (sc : EnhancedStatisticsCollector) : Prop :=
  sc.customerStats.map (fun st => st.WaitTime) = sc.waitTimes ∧
  sc.customerStats.map (fun st => st.SystemTime) = sc.systemTimes

/-- Collectors that arise from `NewStatisticsCollector` by calls of the methods
of the collector. -/
inductive EnhancedStatisticsCollector.Built (sqrt : ℚ → ℚ) (cfg : SimulationConfig) :
    EnhancedStatisticsCollector → Prop
  | new : EnhancedStatisticsCollector.Built sqrt cfg NewStatisticsCollector
  | update (sc : EnhancedStatisticsCollector) (state : SystemState) (dt : ℚ) :
      EnhancedStatisticsCollector.Built sqrt cfg sc →
      EnhancedStatisticsCollector.Built sqrt cfg (sc.UpdatePreEvent state dt).1
  | record (sc : EnhancedStatisticsCollector) (c : Customer) :
      EnhancedStatisticsCollector.Built sqrt cfg sc →
      EnhancedStatisticsCollector.Built sqrt cfg (sc.RecordCustomerCompletion c)
  | final (sc sc1 : EnhancedStatisticsCollector) (state : SystemState) :
      EnhancedStatisticsCollector.Built sqrt cfg sc →
      sc.CalculateFinalMetrics sqrt cfg state = some sc1 →
      EnhancedStatisticsCollector.Built sqrt cfg sc1

/-- Mean of a list of samples (`0` for the empty list). -/
def mean (l : List ℚ) : ℚ := l.sum / (l.length : ℚ)

/-- Population variance of a list of samples about their own mean. -/
def populationVariance (l : List ℚ) : ℚ :=
  (l.map (fun x => (x - mean l) * (x - mean l))).sum / (l.length : ℚ)

/-- Bounds kept by the loop of `Run` for a non-negative capacity: the queue
integral lies between `0` and `MaxQueueSize * Clock`, the queue and the
running maximum of its length do not exceed `MaxQueueSize`, and the count of
rejected customers is not negative. -/
def InvQueue (cfg : SimulationConfig) (s : DiscreteEventSimulator) : Prop :=
  0 ≤ s.state.AreaUnderQ ∧ s.state.AreaUnderQ ≤ (cfg.MaxQueueSize : ℚ) * s.state.Clock ∧
  (s.state.Queue.length : Int) ≤ cfg.MaxQueueSize ∧
  s.stats.maxQueueLength ≤ cfg.MaxQueueSize ∧ 0 ≤ s.state.RejectedCustomers

/-- The arrival events of a list of events. -/
def arrs (l : List Event) : List Event :=
  l.filter (fun e => e.Kind = EventType.EventArrival)

/-- The timestamps of the arrival events that the first `n` passes of the loop
of `Run` pop and apply, in order. -/
def appliedArrivals (ln : ℚ → ℚ) (cfg : SimulationConfig) :
    Nat → DiscreteEventSimulator → List ℚ
  | 0, _ => []
  | n + 1, s =>
    match s.events.PeekNextEvent with
    | none => []
    | some e =>
      if e.Timestamp > cfg.SimulationTime then []
      else
        match s.runBody ln cfg e with
        | none => []
        | some s1 =>
          if e.Kind = EventType.EventArrival then
            e.Timestamp :: appliedArrivals ln cfg n s1
          else appliedArrivals ln cfg n s1

/-- Invariant of the loop of `Run` for the constant distribution: the only
pending arrival is the one of customer `TotalCustomers + 1`, at time
`(TotalCustomers + 1) / ArrivalRate`, or there is none because that time lies
beyond the horizon; the last arrival applied lies within the horizon; every
applied event is an arrival or a recorded departure; the pending events are
arrivals and departures; no counter of rejections is negative. -/
def InvConst (cfg : SimulationConfig) (s : DiscreteEventSimulator) : Prop :=
  (arrs (pending s)
      = [{ Kind := EventType.EventArrival,
           Timestamp := ((s.state.TotalCustomers : ℚ) + 1) / cfg.ArrivalRate,
           Customer := none, Priority := 0 }] ∨
    (arrs (pending s) = [] ∧
      cfg.SimulationTime < ((s.state.TotalCustomers : ℚ) + 1) / cfg.ArrivalRate)) ∧
  (s.state.TotalCustomers : ℚ) / cfg.ArrivalRate ≤ cfg.SimulationTime ∧
  s.state.EventsProcessed = s.state.TotalCustomers + (s.stats.waitTimes.length : Int) ∧
  (∀ x ∈ pending s,
    x.Kind = EventType.EventArrival ∨ x.Kind = EventType.EventDeparture) ∧
  0 ≤ s.state.RejectedCustomers ∧ 0 ≤ s.state.TotalCustomers

/-! # Theorems -/

/-! ## The heap of pending events -/

theorem Swap_length (h : eventHeap) (i j : Nat) :
    (eventHeap.Swap h i j).length = h.length := by
  unfold eventHeap.Swap
  split <;> simp

theorem Swap_getElem? (h : eventHeap) (i j k : Nat) (hi : i < h.length) (hj : j < h.length) :
    (eventHeap.Swap h i j)[k]? = if k = j then h[i]? else if k = i then h[j]? else h[k]? := by
  unfold eventHeap.Swap
  rw [List.getElem?_eq_getElem hi, List.getElem?_eq_getElem hj]
  simp only [List.getElem?_set, List.length_set]
  by_cases hkj : k = j
  · subst hkj
    simp [hj]
  · by_cases hki : k = i
    · subst hki
      simp [hkj, hi, Ne.symm hkj]
    · simp [hkj, hki, Ne.symm hkj, Ne.symm hki]

theorem cons_set_perm (x b : Event) :
    ∀ (t : List Event) (j : Nat), t[j]? = some b → (b :: t.set j x).Perm (x :: t) := by
  intro t
  induction t with
  | nil => intro j hj; simp at hj
  | cons y t ih =>
    intro j hj
    cases j with
    | zero =>
      simp at hj
      subst hj
      simpa using List.Perm.swap x y t
    | succ j =>
      simp at hj
      have h1 := ih j hj
      have h2 : (b :: y :: t.set j x).Perm (x :: y :: t) :=
        (List.Perm.swap y b _).trans ((List.Perm.cons y h1).trans (List.Perm.swap x y t))
      simpa using h2

theorem set_set_perm :
    ∀ (l : List Event) (i j : Nat) (a b : Event), l[i]? = some a → l[j]? = some b →
      ((l.set i b).set j a).Perm l := by
  intro l
  induction l with
  | nil => intro i j a b hi; simp at hi
  | cons x t ih =>
    intro i j a b hi hj
    cases i with
    | zero =>
      simp at hi
      subst hi
      cases j with
      | zero =>
        simp at hj
        subst hj
        simp
      | succ j =>
        simp at hj
        simpa using cons_set_perm x b t j hj
    | succ i =>
      simp at hi
      cases j with
      | zero =>
        simp at hj
        subst hj
        simpa using cons_set_perm x a t i hi
      | succ j =>
        simp at hj
        simpa using ih i j a b hi hj

theorem Swap_perm (h : eventHeap) (i j : Nat) : (eventHeap.Swap h i j).Perm h := by
  unfold eventHeap.Swap
  split
  · next a b ha hb => exact set_set_perm h i j a b ha hb
  · exact List.Perm.refl h

theorem keyN_Swap (h : eventHeap) (n i j : Nat) (hi : i < n) (hj : j < n)
    (hn : n ≤ h.length) :
    keyN (eventHeap.Swap h i j) n = swapF (keyN h n) i j := by
  funext k
  unfold keyN swapF
  rw [Swap_getElem? h i j k (by omega) (by omega)]
  by_cases hkj : k = j
  · subst hkj
    simp [hi, hj]
  · by_cases hki : k = i
    · subst hki
      simp [hkj, hi, hj]
    · simp [hkj, hki]

theorem Less_iff_keyN (h : eventHeap) (n i j : Nat) (hi : i < n) (hj : j < n)
    (hn : n ≤ h.length) :
    eventHeap.Less h i j = true ↔ keyN h n i < keyN h n j := by
  unfold eventHeap.Less keyN
  rw [List.getElem?_eq_getElem (by omega : i < h.length),
    List.getElem?_eq_getElem (by omega : j < h.length)]
  simp [hi, hj]

theorem up_step (f : Nat → WithTop ℚ) (i j : Nat) (hi : i = (j - 1) / 2) (hij : i ≠ j)
    (hlt : f j < f i)
    (h1 : ∀ k, 0 < k → k ≠ j → f ((k - 1) / 2) ≤ f k)
    (h2 : ∀ k, 0 < k → (k - 1) / 2 = j → f ((j - 1) / 2) ≤ f k) :
    (∀ k, 0 < k → k ≠ i → swapF f i j ((k - 1) / 2) ≤ swapF f i j k) ∧
    (∀ k, 0 < k → (k - 1) / 2 = i → swapF f i j ((i - 1) / 2) ≤ swapF f i j k) := by
  have gj : swapF f i j j = f i := by simp [swapF]
  have gi : swapF f i j i = f j := by simp [swapF, hij]
  have go : ∀ k, k ≠ i → k ≠ j → swapF f i j k = f k := by
    intro k hk1 hk2; simp [swapF, hk1, hk2]
  constructor
  · intro k hk hki
    by_cases hkj : k = j
    · subst hkj
      rw [← hi, gi, gj]
      exact le_of_lt hlt
    · rw [go k hki hkj]
      by_cases hq : (k - 1) / 2 = j
      · rw [hq, gj]
        have := h2 k hk hq
        rwa [← hi] at this
      · by_cases hq2 : (k - 1) / 2 = i
        · rw [hq2, gi]
          have := h1 k hk hkj
          rw [hq2] at this
          exact le_trans (le_of_lt hlt) this
        · rw [go _ hq2 hq]
          exact h1 k hk hkj
  · intro k hk hpk
    have hfik : k ≠ j → f i ≤ f k := by
      intro hkj
      have := h1 k hk hkj
      rwa [hpk] at this
    have hpi : swapF f i j ((i - 1) / 2) ≤ f i := by
      by_cases hp : (i - 1) / 2 = i
      · rw [hp, gi]
        exact le_of_lt hlt
      · rw [go _ hp (by omega)]
        exact h1 i (by omega) hij
    by_cases hkj : k = j
    · subst hkj
      rw [gj]
      exact hpi
    · rw [go k (by omega) hkj]
      exact le_trans hpi (hfik hkj)

theorem down_step (f : Nat → WithTop ℚ) (i j : Nat) (hi : (j - 1) / 2 = i) (hj : 0 < j)
    (hlt : f j < f i)
    (hmin : ∀ k, 0 < k → (k - 1) / 2 = i → f j ≤ f k)
    (d1 : ∀ k, 0 < k → (k - 1) / 2 ≠ i → f ((k - 1) / 2) ≤ f k)
    (d2 : ∀ k, 0 < k → (k - 1) / 2 = i → 0 < i → f ((i - 1) / 2) ≤ f k) :
    (∀ k, 0 < k → (k - 1) / 2 ≠ j → swapF f i j ((k - 1) / 2) ≤ swapF f i j k) ∧
    (∀ k, 0 < k → (k - 1) / 2 = j → 0 < j →
      swapF f i j ((j - 1) / 2) ≤ swapF f i j k) := by
  have hij : i ≠ j := by omega
  have gj : swapF f i j j = f i := by simp [swapF]
  have gi : swapF f i j i = f j := by simp [swapF, hij]
  have go : ∀ k, k ≠ i → k ≠ j → swapF f i j k = f k := by
    intro k hk1 hk2; simp [swapF, hk1, hk2]
  constructor
  · intro k hk hq
    by_cases hkj : k = j
    · subst hkj
      rw [hi, gi, gj]
      exact le_of_lt hlt
    · by_cases hki : k = i
      · subst hki
        rw [gi, go _ (by omega) hq]
        exact d2 j hj hi hk
      · rw [go k hki hkj]
        by_cases hq2 : (k - 1) / 2 = i
        · rw [hq2, gi]
          exact hmin k hk hq2
        · rw [go _ hq2 hq]
          exact d1 k hk hq2
  · intro k hk hq _
    rw [hi, gi, go k (by omega) (by omega)]
    have := d1 k hk (by omega)
    rwa [hq] at this

theorem up_perm (j : Nat) : ∀ h : eventHeap, (heap.up h j).Perm h := by
  induction j using Nat.strong_induction_on with
  | _ j ih =>
    intro h
    rw [heap.up]
    split
    · exact List.Perm.refl h
    · split
      · exact (ih ((j - 1) / 2) (by omega) _).trans (Swap_perm h _ _)
      · exact List.Perm.refl h

theorem up_heap (j : Nat) : ∀ h : eventHeap, j < h.length →
    (∀ k, 0 < k → k ≠ j → keyN h h.length ((k - 1) / 2) ≤ keyN h h.length k) →
    (∀ k, 0 < k → (k - 1) / 2 = j →
      keyN h h.length ((j - 1) / 2) ≤ keyN h h.length k) →
    IsHeap (heap.up h j) := by
  induction j using Nat.strong_induction_on with
  | _ j ih =>
    intro h hj h1 h2
    rw [heap.up]
    split
    · next he =>
      intro k hk
      exact h1 k hk (by omega)
    · next hne =>
      split
      · next hless =>
        have hlt := (Less_iff_keyN h h.length j ((j - 1) / 2) hj (by omega) le_rfl).1 hless
        have hs := up_step (keyN h h.length) ((j - 1) / 2) j rfl hne hlt h1 h2
        rw [← keyN_Swap h h.length _ _ (by omega) hj le_rfl] at hs
        have hl := Swap_length h ((j - 1) / 2) j
        apply ih ((j - 1) / 2) (by omega) (eventHeap.Swap h ((j - 1) / 2) j)
          (by rw [hl]; omega)
        · rw [hl]; exact hs.1
        · rw [hl]; exact hs.2
      · next hless =>
        have hle : keyN h h.length ((j - 1) / 2) ≤ keyN h h.length j :=
          not_lt.1 (fun hc =>
            hless ((Less_iff_keyN h h.length j ((j - 1) / 2) hj (by omega) le_rfl).2 hc))
        intro k hk
        by_cases hkj : k = j
        · subst hkj; exact hle
        · exact h1 k hk hkj

theorem down_perm : ∀ (m : Nat) (h : eventHeap) (i n : Nat), n - i = m →
    (heap.down h i n).Perm h := by
  intro m
  induction m using Nat.strong_induction_on with
  | _ m ih =>
    intro h i n hm
    rw [heap.down]
    split
    · exact List.Perm.refl h
    · split
      · split
        · exact (ih (n - (2 * i + 2)) (by omega) _ _ _ rfl).trans (Swap_perm h _ _)
        · exact List.Perm.refl h
      · split
        · exact (ih (n - (2 * i + 1)) (by omega) _ _ _ rfl).trans (Swap_perm h _ _)
        · exact List.Perm.refl h

theorem down_frame : ∀ (m : Nat) (h : eventHeap) (i n : Nat), n - i = m → n ≤ h.length →
    ∀ k, n ≤ k → (heap.down h i n)[k]? = h[k]? := by
  intro m
  induction m using Nat.strong_induction_on with
  | _ m ih =>
    intro h i n hm hn k hk
    rw [heap.down]
    split
    · rfl
    · split
      · next hc =>
        split
        · rw [ih (n - (2 * i + 2)) (by omega) _ _ _ rfl (by rw [Swap_length]; exact hn) k hk,
            Swap_getElem? h _ _ k (by omega) (by omega)]
          simp [show k ≠ 2 * i + 2 by omega, show k ≠ i by omega]
        · rfl
      · split
        · rw [ih (n - (2 * i + 1)) (by omega) _ _ _ rfl (by rw [Swap_length]; exact hn) k hk,
            Swap_getElem? h _ _ k (by omega) (by omega)]
          simp [show k ≠ 2 * i + 1 by omega, show k ≠ i by omega]
        · rfl

theorem down_stop (f : Nat → WithTop ℚ) (i : Nat)
    (hloc : ∀ k, 0 < k → (k - 1) / 2 = i → f i ≤ f k)
    (d1 : ∀ k, 0 < k → (k - 1) / 2 ≠ i → f ((k - 1) / 2) ≤ f k) :
    ∀ k, 0 < k → f ((k - 1) / 2) ≤ f k := by
  intro k hk
  by_cases hq : (k - 1) / 2 = i
  · rw [hq]; exact hloc k hk hq
  · exact d1 k hk hq

theorem down_heap : ∀ (m : Nat) (h : eventHeap) (i n : Nat), n - i = m → n ≤ h.length →
    (∀ k, 0 < k → (k - 1) / 2 ≠ i → keyN h n ((k - 1) / 2) ≤ keyN h n k) →
    (∀ k, 0 < k → (k - 1) / 2 = i → 0 < i → keyN h n ((i - 1) / 2) ≤ keyN h n k) →
    HeapN (heap.down h i n) n := by
  intro m
  induction m using Nat.strong_induction_on with
  | _ m ih =>
    intro h i n hm hn d1 d2
    have htop : ∀ k, n ≤ k → keyN h n k = ⊤ := by
      intro k hk
      simp [keyN, Nat.not_lt.2 hk]
    have child : ∀ k, 0 < k → (k - 1) / 2 = i → k = 2 * i + 1 ∨ k = 2 * i + 2 := by
      intro k hk hq; omega
    rw [heap.down]
    split
    · next hbrk =>
      apply down_stop (keyN h n) i _ d1
      intro k hk hq
      rw [htop k (by omega)]
      exact le_top
    · next hin =>
      have hLess : ∀ a b, a < n → b < n →
          (eventHeap.Less h a b = true ↔ keyN h n a < keyN h n b) :=
        fun a b ha hb => Less_iff_keyN h n a b ha hb hn
      split
      · next hc =>
        have h21 := (hLess _ _ hc.1 (by omega)).1 hc.2
        have hmin : ∀ k, 0 < k → (k - 1) / 2 = i → keyN h n (2 * i + 2) ≤ keyN h n k := by
          intro k hk hq
          rcases child k hk hq with rfl | rfl
          · exact le_of_lt h21
          · exact le_rfl
        split
        · next hless =>
          have hlt := (hLess _ _ hc.1 (by omega)).1 hless
          have hs := down_step (keyN h n) i (2 * i + 2) (by omega) (by omega) hlt hmin d1 d2
          rw [← keyN_Swap h n _ _ (by omega) hc.1 hn] at hs
          exact ih (n - (2 * i + 2)) (by omega) _ _ _ rfl (by rw [Swap_length]; exact hn)
            hs.1 (fun k hk hq => hs.2 k hk hq)
        · next hless =>
          have hle : keyN h n i ≤ keyN h n (2 * i + 2) :=
            not_lt.1 (fun hc2 => hless ((hLess _ _ hc.1 (by omega)).2 hc2))
          exact down_stop (keyN h n) i (fun k hk hq => le_trans hle (hmin k hk hq)) d1
      · next hc =>
        have h12 : keyN h n (2 * i + 1) ≤ keyN h n (2 * i + 2) := by
          by_cases h2 : 2 * i + 2 < n
          · exact not_lt.1 (fun hc2 => hc ⟨h2, (hLess _ _ h2 (by omega)).2 hc2⟩)
          · rw [htop (2 * i + 2) (by omega)]
            exact le_top
        have hmin : ∀ k, 0 < k → (k - 1) / 2 = i → keyN h n (2 * i + 1) ≤ keyN h n k := by
          intro k hk hq
          rcases child k hk hq with rfl | rfl
          · exact le_rfl
          · exact h12
        split
        · next hless =>
          have hlt := (hLess _ _ (by omega) (by omega)).1 hless
          have hs := down_step (keyN h n) i (2 * i + 1) (by omega) (by omega) hlt hmin d1 d2
          rw [← keyN_Swap h n _ _ (by omega) (by omega) hn] at hs
          exact ih (n - (2 * i + 1)) (by omega) _ _ _ rfl (by rw [Swap_length]; exact hn)
            hs.1 (fun k hk hq => hs.2 k hk hq)
        · next hless =>
          have hle : keyN h n i ≤ keyN h n (2 * i + 1) :=
            not_lt.1 (fun hc2 => hless ((hLess _ _ (by omega) (by omega)).2 hc2))
          exact down_stop (keyN h n) i (fun k hk hq => le_trans hle (hmin k hk hq)) d1

theorem heap_root_le (h : eventHeap) (n : Nat) (hh : HeapN h n) :
    ∀ k, keyN h n 0 ≤ keyN h n k := by
  intro k
  induction k using Nat.strong_induction_on with
  | _ k ih =>
    by_cases hk : k = 0
    · subst hk; exact le_rfl
    · exact le_trans (ih ((k - 1) / 2) (by omega)) (hh k (by omega))

theorem heap_Init_nil : heap.Init [] = [] := by
  simp [heap.Init, eventHeap.Len, heap.initLoop]

theorem isHeap_nil : IsHeap [] := by
  intro k _
  simp [keyN]

theorem heap_Push_perm (h : eventHeap) (x : Event) : (heap.Push h x).Perm (x :: h) := by
  unfold heap.Push
  refine (up_perm _ _).trans ?_
  unfold eventHeap.Push
  exact List.perm_append_comm

theorem heap_Push_length (h : eventHeap) (x : Event) :
    (heap.Push h x).length = h.length + 1 := by
  simpa using (heap_Push_perm h x).length_eq

theorem keyN_append (h : eventHeap) (x : Event) (k : Nat) (hk : k ≠ h.length) :
    keyN (h ++ [x]) (h.length + 1) k = keyN h h.length k := by
  unfold keyN
  by_cases h1 : k < h.length
  · rw [List.getElem?_append_left h1]
    simp [h1, Nat.lt_succ_of_lt h1]
  · simp [h1, show ¬ k < h.length + 1 by omega]

theorem heap_Push_heap (h : eventHeap) (x : Event) (hh : IsHeap h) :
    IsHeap (heap.Push h x) := by
  unfold heap.Push eventHeap.Push eventHeap.Len
  have hl : (h ++ [x]).length = h.length + 1 := by simp
  apply up_heap
  · omega
  · intro k hk hne
    rw [hl] at hne ⊢
    have hne2 : k ≠ h.length := by omega
    by_cases hp : (k - 1) / 2 = h.length
    · have hk2 : ¬ k < h.length + 1 := by omega
      simp [keyN, hk2]
    · rw [keyN_append h x k hne2, keyN_append h x _ hp]
      exact hh k hk
  · intro k hk hp
    rw [hl] at hp ⊢
    have hk2 : ¬ k < h.length + 1 := by omega
    simp [keyN, hk2]

theorem heap_Pop_fst (h : eventHeap) (hne : h ≠ []) : (heap.Pop h).1 = h[0]? := by
  have hpos : 0 < h.length := List.length_pos.2 hne
  unfold heap.Pop eventHeap.Pop eventHeap.Len
  simp only
  rw [List.getLast?_eq_getElem?, (down_perm _ _ _ _ rfl).length_eq, Swap_length,
    down_frame _ _ _ _ rfl (by rw [Swap_length]; omega) _ le_rfl,
    Swap_getElem? h _ _ _ hpos (by omega)]
  simp

theorem heap_Pop_perm (h : eventHeap) (e : Event) (he : (heap.Pop h).1 = some e) :
    h.Perm (e :: (heap.Pop h).2) := by
  unfold heap.Pop eventHeap.Pop at he ⊢
  simp only at he ⊢
  have h1 := List.dropLast_append_getLast? e (by simpa using he)
  have h2 : (heap.down (eventHeap.Swap h 0 (eventHeap.Len h - 1)) 0
      (eventHeap.Len h - 1)).Perm h :=
    (down_perm _ _ _ _ rfl).trans (Swap_perm h _ _)
  rw [← h1] at h2
  exact (h2.symm).trans List.perm_append_comm

theorem heap_Pop_heap (h : eventHeap) (hh : IsHeap h) : IsHeap (heap.Pop h).2 := by
  by_cases hne : h = []
  · subst hne
    unfold heap.Pop eventHeap.Pop eventHeap.Len
    rw [heap.down]
    simpa [eventHeap.Swap] using isHeap_nil
  have hpos : 0 < h.length := List.length_pos.2 hne
  unfold heap.Pop eventHeap.Pop eventHeap.Len
  simp only
  have hl1 : (eventHeap.Swap h 0 (h.length - 1)).length = h.length := Swap_length _ _ _
  have hl2 : (heap.down (eventHeap.Swap h 0 (h.length - 1)) 0 (h.length - 1)).length
      = h.length := by
    rw [(down_perm _ _ _ _ rfl).length_eq, hl1]
  have hd : HeapN (heap.down (eventHeap.Swap h 0 (h.length - 1)) 0 (h.length - 1))
      (h.length - 1) := by
    apply down_heap _ _ _ _ rfl (by rw [hl1]; omega)
    · intro k hk hp
      by_cases hkn : k < h.length - 1
      · have e1 : keyN (eventHeap.Swap h 0 (h.length - 1)) (h.length - 1) k
            = keyN h h.length k := by
          unfold keyN
          rw [Swap_getElem? h _ _ k hpos (by omega)]
          simp [hkn, show k < h.length by omega, show k ≠ h.length - 1 by omega,
            show k ≠ 0 by omega]
        have e2 : keyN (eventHeap.Swap h 0 (h.length - 1)) (h.length - 1) ((k - 1) / 2)
            = keyN h h.length ((k - 1) / 2) := by
          unfold keyN
          rw [Swap_getElem? h _ _ _ hpos (by omega)]
          simp [show (k - 1) / 2 < h.length - 1 by omega,
            show (k - 1) / 2 < h.length by omega,
            show (k - 1) / 2 ≠ h.length - 1 by omega, hp]
        rw [e1, e2]
        exact hh k hk
      · simp [keyN, hkn]
    · intro k _ _ h0
      exact absurd h0 (lt_irrefl 0)
  rw [List.dropLast_eq_take, hl2]
  intro k hk
  have hlen : (List.take (h.length - 1)
      (heap.down (eventHeap.Swap h 0 (h.length - 1)) 0 (h.length - 1))).length
      = h.length - 1 := by
    rw [List.length_take, hl2]; omega
  have e : ∀ k, keyN (List.take (h.length - 1)
      (heap.down (eventHeap.Swap h 0 (h.length - 1)) 0 (h.length - 1))) (h.length - 1) k
      = keyN (heap.down (eventHeap.Swap h 0 (h.length - 1)) 0 (h.length - 1))
        (h.length - 1) k := by
    intro k
    unfold keyN
    by_cases hkn : k < h.length - 1
    · simp [hkn, List.getElem?_take]
    · simp [hkn]
  rw [hlen, e, e]
  exact hd k hk

theorem heap_root_min (h : eventHeap) (hh : IsHeap h) (e : Event) (he : h[0]? = some e) :
    ∀ x ∈ h, e.Timestamp ≤ x.Timestamp := by
  intro x hx
  obtain ⟨k, hk⟩ := List.mem_iff_getElem?.1 hx
  have hkl : k < h.length := (List.getElem?_eq_some.1 hk).1
  have h0l : 0 < h.length := (List.getElem?_eq_some.1 he).1
  have := heap_root_le h h.length hh k
  simp only [keyN, hkl, h0l, if_true, he, hk] at this
  exact WithTop.coe_le_coe.1 this

/-! ## The event list -/

theorem Built_isHeap (el : EventList) (hb : EventList.Built el) : IsHeap el.events := by
  induction hb with
  | new =>
    show IsHeap (heap.Init [])
    rw [heap_Init_nil]
    exact isHeap_nil
  | push el e _ ih => exact heap_Push_heap el.events e ih
  | pop el _ ih =>
    unfold EventList.Pop
    split
    · exact ih
    · exact heap_Pop_heap el.events ih

theorem EventList_Pop_some (el : EventList) (hne : el.events ≠ []) :
    ∃ e, el.events[0]? = some e ∧ el.Pop.1 = some e ∧ el.Peek = some e ∧
      el.events.Perm (e :: el.Pop.2.events) := by
  have hpos : 0 < el.events.length := List.length_pos.2 hne
  have hemp : el.IsEmpty = false := by
    simp [EventList.IsEmpty, hne]
  have h0 : el.events[0]? = some el.events[0] := List.getElem?_eq_getElem hpos
  have h1 : el.Pop.1 = some el.events[0] := by
    simp only [EventList.Pop, hemp]
    rw [← h0]
    exact heap_Pop_fst el.events hne
  refine ⟨el.events[0], h0, h1, ?_, ?_⟩
  · simp only [EventList.Peek, hemp]
    exact h0
  · simp only [EventList.Pop, hemp] at h1 ⊢
    exact heap_Pop_perm el.events _ h1

theorem EventList_Pop_nil (el : EventList) (h : el.events = []) : el.Pop = (none, el) := by
  simp [EventList.Pop, EventList.IsEmpty, h]

/-- C1. On a non-empty event list built by pushes and pops, `Pop` returns a
pending event whose timestamp is at most that of every pending event, the
events left are the earlier multiset with that one event removed, and `Size`
drops by one. -/
theorem EventList_Pop_earliest (el : EventList) (hb : EventList.Built el)
    (hne : el.IsEmpty = false) :
    ∃ e, el.Pop.1 = some e ∧ e ∈ el.events ∧
      (∀ x ∈ el.events, e.Timestamp ≤ x.Timestamp) ∧
      Multiset.ofList el.Pop.2.events = (Multiset.ofList el.events).erase e ∧
      el.Pop.2.Size + 1 = el.Size := by
  have hne2 : el.events ≠ [] := by
    intro h
    simp [EventList.IsEmpty, h] at hne
  obtain ⟨e, h0, h1, _, hp⟩ := EventList_Pop_some el hne2
  refine ⟨e, h1, hp.symm.subset (List.mem_cons_self _ _), ?_, ?_, ?_⟩
  · exact heap_root_min el.events (Built_isHeap el hb) e h0
  · have : Multiset.ofList el.events = e ::ₘ Multiset.ofList el.Pop.2.events := by
      rw [Multiset.cons_coe]
      exact Multiset.coe_eq_coe.2 hp
    rw [this, Multiset.erase_cons_head]
  · have := hp.length_eq
    simp only [List.length_cons] at this
    simp only [EventList.Size]
    omega

/-- Witness of C1 on the list built by pushing the timestamps 3, 1, 2. -/
theorem EventList_Pop_earliest_witness :
    ∃ e, (pushAll [{ tieA with Timestamp := 3 }, tieB, { tieC with Timestamp := 2 }]).Pop.1
        = some e ∧
      e ∈ (pushAll [{ tieA with Timestamp := 3 }, tieB, { tieC with Timestamp := 2 }]).events ∧
      (∀ x ∈ (pushAll [{ tieA with Timestamp := 3 }, tieB,
          { tieC with Timestamp := 2 }]).events, e.Timestamp ≤ x.Timestamp) ∧
      Multiset.ofList
          (pushAll [{ tieA with Timestamp := 3 }, tieB, { tieC with Timestamp := 2 }]).Pop.2.events
        = (Multiset.ofList
          (pushAll [{ tieA with Timestamp := 3 }, tieB,
            { tieC with Timestamp := 2 }]).events).erase e ∧
      (pushAll [{ tieA with Timestamp := 3 }, tieB, { tieC with Timestamp := 2 }]).Pop.2.Size + 1
        = (pushAll [{ tieA with Timestamp := 3 }, tieB, { tieC with Timestamp := 2 }]).Size :=
  EventList_Pop_earliest _
    (EventList.Built.push _ _ (EventList.Built.push _ _
      (EventList.Built.push _ _ EventList.Built.new)))
    (by decide!)

/-- C3. On an empty event list `Pop` and `Peek` return the nil event and the
list stays empty; on a non-empty list `Peek`, which reads slot 0 and writes
nothing, returns the event that the following `Pop` returns. -/
theorem EventList_Pop_Peek (el : EventList) :
    (el.IsEmpty = true →
      el.Pop.1 = none ∧ el.Peek = none ∧ el.Pop.2 = el ∧ el.Pop.2.IsEmpty = true ∧
        el.Pop.2.Size = 0) ∧
    (el.IsEmpty = false →
      ∃ e, el.Peek = some e ∧ el.Pop.1 = some e ∧ el.Pop.2.Size + 1 = el.Size) := by
  constructor
  · intro h
    have h2 : el.events = [] := by
      simpa [EventList.IsEmpty] using h
    rw [EventList_Pop_nil el h2]
    simp [EventList.Peek, EventList.IsEmpty, EventList.Size, h2]
  · intro h
    have hne2 : el.events ≠ [] := by
      intro h2
      simp [EventList.IsEmpty, h2] at h
    obtain ⟨e, _, h1, h3, hp⟩ := EventList_Pop_some el hne2
    refine ⟨e, h3, h1, ?_⟩
    have := hp.length_eq
    simp only [List.length_cons] at this
    simp only [EventList.Size]
    omega

theorem EventList_Pop_isHeap (el : EventList) (hh : IsHeap el.events) :
    IsHeap el.Pop.2.events := by
  unfold EventList.Pop
  split
  · exact hh
  · exact heap_Pop_heap el.events hh

theorem EventList_Push_isHeap (el : EventList) (e : Event) (hh : IsHeap el.events) :
    IsHeap (el.Push e).events :=
  heap_Push_heap el.events e hh

theorem EventList_Push_perm (el : EventList) (e : Event) :
    (el.Push e).events.Perm (e :: el.events) :=
  heap_Push_perm el.events e

theorem foldl_Push_spec (es : List Event) :
    ∀ el : EventList, IsHeap el.events →
      IsHeap (es.foldl EventList.Push el).events ∧
      (es.foldl EventList.Push el).events.Perm (es ++ el.events) := by
  induction es with
  | nil => intro el hh; exact ⟨hh, List.Perm.refl _⟩
  | cons e es ih =>
    intro el hh
    obtain ⟨h1, h2⟩ := ih (el.Push e) (EventList_Push_isHeap el e hh)
    refine ⟨h1, h2.trans ?_⟩
    have h3 : (es ++ (el.Push e).events).Perm (es ++ e :: el.events) :=
      List.Perm.append_left es (EventList_Push_perm el e)
    exact h3.trans (by simp)

theorem pushAll_spec (es : List Event) :
    IsHeap (pushAll es).events ∧ (pushAll es).events.Perm es := by
  have h0 : IsHeap NewEventList.events := by
    show IsHeap (heap.Init [])
    rw [heap_Init_nil]
    exact isHeap_nil
  have h := foldl_Push_spec es NewEventList h0
  have h1 : NewEventList.events = [] := heap_Init_nil
  rw [h1, List.append_nil] at h
  exact h

theorem popAll_spec : ∀ (k : Nat) (el : EventList), IsHeap el.events → el.events.length = k →
    (popAll k el).Perm el.events ∧
    List.Pairwise (fun a b : Event => a.Timestamp ≤ b.Timestamp) (popAll k el) := by
  intro k
  induction k with
  | zero =>
    intro el _ hl
    have : el.events = [] := List.length_eq_zero.1 hl
    simp [popAll, this]
  | succ k ih =>
    intro el hh hl
    have hne : el.events ≠ [] := by
      intro h
      simp [h] at hl
    obtain ⟨e, h0, h1, _, hp⟩ := EventList_Pop_some el hne
    have hl2 : el.Pop.2.events.length = k := by
      have := hp.length_eq
      simp only [List.length_cons] at this
      omega
    obtain ⟨ih1, ih2⟩ := ih el.Pop.2 (EventList_Pop_isHeap el hh) hl2
    have hpop : popAll (k + 1) el = e :: popAll k el.Pop.2 := by
      have : el.Pop = (some e, el.Pop.2) := Prod.ext h1 rfl
      rw [popAll, this]
    rw [hpop]
    refine ⟨(List.Perm.cons e ih1).trans hp.symm, List.pairwise_cons.2 ⟨?_, ih2⟩⟩
    intro x hx
    have hx2 : x ∈ el.events := hp.symm.subset (List.mem_cons_of_mem _ (ih1.subset hx))
    exact heap_root_min el.events hh e h0 x hx2

/-- C4, as the code has it. The order of the event list is the timestamp
alone: popping a list filled by any sequence of pushes returns every pushed
event once, in non-decreasing timestamp order; nothing is promised about the
relative order of events with equal timestamps. -/
theorem popAll_pushAll_sorted (es : List Event) :
    (popAll es.length (pushAll es)).Perm es ∧
    List.Pairwise (fun a b : Event => a.Timestamp ≤ b.Timestamp)
      (popAll es.length (pushAll es)) := by
  obtain ⟨h1, h2⟩ := pushAll_spec es
  obtain ⟨h3, h4⟩ := popAll_spec es.length (pushAll es) h1 h2.length_eq
  exact ⟨h3.trans h2, h4⟩

/-- C4, counterexample. Three events with one timestamp pushed in the order
a, b, c are popped in the order a, c, b. -/
theorem equal_timestamps_not_fifo :
    tieA.Timestamp = tieB.Timestamp ∧ tieB.Timestamp = tieC.Timestamp ∧
    popAll 3 (pushAll [tieA, tieB, tieC]) = [tieA, tieC, tieB] ∧
    decide ([tieA, tieC, tieB] = [tieA, tieB, tieC]) = false := by
  decide!

/-! ## Variates -/

theorem resample_spec : ∀ (r : List ℚ) (u u1 : ℚ) (r1 : List ℚ),
    resample u r = some (u1, r1) → ValidStream (u :: r) →
      0 < u1 ∧ u1 < 1 ∧ ValidStream r1 := by
  intro r
  induction r with
  | nil =>
    intro u u1 r1 h hv
    simp only [resample] at h
    split at h
    · simp at h
    · next hne =>
      simp only [Option.some.injEq, Prod.mk.injEq] at h
      obtain ⟨rfl, rfl⟩ := h
      have := hv u (List.mem_cons_self _ _)
      refine ⟨lt_of_le_of_ne this.1 (fun h0 => hne (Or.inl h0.symm)), this.2, ?_⟩
      intro x hx
      simp at hx
  | cons v r ih =>
    intro u u1 r1 h hv
    simp only [resample] at h
    split at h
    · exact ih v u1 r1 h (fun x hx => hv x (List.mem_cons_of_mem _ hx))
    · next hne =>
      simp only [Option.some.injEq, Prod.mk.injEq] at h
      obtain ⟨rfl, rfl⟩ := h
      have := hv u (List.mem_cons_self _ _)
      exact ⟨lt_of_le_of_ne this.1 (fun h0 => hne (Or.inl h0.symm)), this.2,
        fun x hx => hv x (List.mem_cons_of_mem _ hx)⟩

theorem GenerateExponential_eventList (ln : ℚ → ℚ) (em em1 : EventManager) (rate t : ℚ)
    (h : em.GenerateExponential ln rate = some (t, em1)) : em1.eventList = em.eventList := by
  unfold EventManager.GenerateExponential at h
  split at h
  · simp only [Option.some.injEq, Prod.mk.injEq] at h
    rw [← h.2]
  · split at h
    · simp at h
    · split at h
      · simp at h
      · simp only [Option.some.injEq, Prod.mk.injEq] at h
        rw [← h.2]

theorem GenerateExponential_pos (ln : ℚ → ℚ) (em em1 : EventManager) (rate t : ℚ)
    (h : em.GenerateExponential ln rate = some (t, em1)) (hr : 0 < rate)
    (hln : LogNegative ln) (hv : ValidStream em.rng) : 0 < t ∧ ValidStream em1.rng := by
  unfold EventManager.GenerateExponential at h
  rw [if_neg (not_le.2 hr)] at h
  split at h
  · simp at h
  · next u0 r0 hrng =>
    split at h
    · simp at h
    · next u r hres =>
      simp only [Option.some.injEq, Prod.mk.injEq] at h
      obtain ⟨rfl, rfl⟩ := h
      rw [hrng] at hv
      obtain ⟨h0, h1, hv1⟩ := resample_spec r0 u0 u r hres hv
      refine ⟨?_, hv1⟩
      have : ln (1 - u) < 0 := hln (1 - u) (by linarith) (by linarith)
      exact div_pos (by linarith) hr

theorem GenerateUniform_eventList (em em1 : EventManager) (a b t : ℚ)
    (h : em.GenerateUniform a b = some (t, em1)) : em1.eventList = em.eventList := by
  unfold EventManager.GenerateUniform at h
  split at h
  · simp at h
  · simp only [Option.some.injEq, Prod.mk.injEq] at h
    rw [← h.2]

theorem GenerateUniform_pos (em em1 : EventManager) (rate t : ℚ)
    (h : em.GenerateUniform (0.5 / rate) (1.5 / rate) = some (t, em1)) (hr : 0 < rate)
    (hv : ValidStream em.rng) : 0 < t ∧ ValidStream em1.rng := by
  unfold EventManager.GenerateUniform at h
  split at h
  · simp at h
  · next u r hrng =>
    simp only [Option.some.injEq, Prod.mk.injEq] at h
    obtain ⟨rfl, rfl⟩ := h
    rw [hrng] at hv
    have hu := hv u (List.mem_cons_self _ _)
    refine ⟨?_, fun x hx => hv x (List.mem_cons_of_mem _ hx)⟩
    have e : (0.5 / rate + u * (1.5 / rate - 0.5 / rate) : ℚ) = (1 / 2 + u) / rate := by
      field_simp
      ring
    rw [e]
    exact div_pos (by linarith [hu.1]) hr

theorem fdiv_some (a b : ℚ) (hb : b ≠ 0) : fdiv a b = some (a / b) := by
  unfold fdiv
  rw [if_neg hb]

theorem fdiv_zero (a : ℚ) : fdiv a 0 = none := by
  unfold fdiv
  rw [if_pos rfl]

theorem GetInterarrivalTime_unfold (ln : ℚ → ℚ) (cfg : SimulationConfig) (em : EventManager)
    (hr : cfg.ArrivalRate ≠ 0) :
    em.GetInterarrivalTime ln cfg =
      if cfg.Random.Distribution = "uniform" then
        em.GenerateUniform (0.5 / cfg.ArrivalRate) (1.5 / cfg.ArrivalRate)
      else if cfg.Random.Distribution = "constant" then some (1 / cfg.ArrivalRate, em)
      else em.GenerateExponential ln cfg.ArrivalRate := by
  unfold EventManager.GetInterarrivalTime
  simp only [fdiv_some _ _ hr]

theorem GetInterarrivalTime_zero (ln : ℚ → ℚ) (cfg : SimulationConfig) (em : EventManager)
    (hr : cfg.ArrivalRate = 0) :
    em.GetInterarrivalTime ln cfg =
      if cfg.Random.Distribution = "uniform" then none
      else if cfg.Random.Distribution = "constant" then none
      else em.GenerateExponential ln cfg.ArrivalRate := by
  unfold EventManager.GetInterarrivalTime
  simp only [hr, fdiv_zero]

theorem GetServiceTime_unfold (ln : ℚ → ℚ) (cfg : SimulationConfig) (em : EventManager)
    (hr : cfg.ServiceRate ≠ 0) :
    em.GetServiceTime ln cfg =
      if cfg.Random.Distribution = "uniform" then
        em.GenerateUniform (0.5 / cfg.ServiceRate) (1.5 / cfg.ServiceRate)
      else if cfg.Random.Distribution = "constant" then some (1 / cfg.ServiceRate, em)
      else em.GenerateExponential ln cfg.ServiceRate := by
  unfold EventManager.GetServiceTime
  simp only [fdiv_some _ _ hr]

theorem GetServiceTime_zero (ln : ℚ → ℚ) (cfg : SimulationConfig) (em : EventManager)
    (hr : cfg.ServiceRate = 0) :
    em.GetServiceTime ln cfg =
      if cfg.Random.Distribution = "uniform" then none
      else if cfg.Random.Distribution = "constant" then none
      else em.GenerateExponential ln cfg.ServiceRate := by
  unfold EventManager.GetServiceTime
  simp only [hr, fdiv_zero]

theorem GetInterarrivalTime_eventList (ln : ℚ → ℚ) (cfg : SimulationConfig)
    (em em1 : EventManager) (t : ℚ) (h : em.GetInterarrivalTime ln cfg = some (t, em1)) :
    em1.eventList = em.eventList := by
  by_cases hr0 : cfg.ArrivalRate = 0
  · rw [GetInterarrivalTime_zero ln cfg em hr0] at h
    split at h
    · simp at h
    · split at h
      · simp at h
      · exact GenerateExponential_eventList ln em em1 _ t h
  · rw [GetInterarrivalTime_unfold ln cfg em hr0] at h
    split at h
    · exact GenerateUniform_eventList em em1 _ _ t h
    · split at h
      · simp only [Option.some.injEq, Prod.mk.injEq] at h
        rw [← h.2]
      · exact GenerateExponential_eventList ln em em1 _ t h

theorem GetServiceTime_eventList (ln : ℚ → ℚ) (cfg : SimulationConfig)
    (em em1 : EventManager) (t : ℚ) (h : em.GetServiceTime ln cfg = some (t, em1)) :
    em1.eventList = em.eventList := by
  by_cases hr0 : cfg.ServiceRate = 0
  · rw [GetServiceTime_zero ln cfg em hr0] at h
    split at h
    · simp at h
    · split at h
      · simp at h
      · exact GenerateExponential_eventList ln em em1 _ t h
  · rw [GetServiceTime_unfold ln cfg em hr0] at h
    split at h
    · exact GenerateUniform_eventList em em1 _ _ t h
    · split at h
      · simp only [Option.some.injEq, Prod.mk.injEq] at h
        rw [← h.2]
      · exact GenerateExponential_eventList ln em em1 _ t h

theorem GetInterarrivalTime_pos (ln : ℚ → ℚ) (cfg : SimulationConfig)
    (em em1 : EventManager) (t : ℚ) (h : em.GetInterarrivalTime ln cfg = some (t, em1))
    (hr : 0 < cfg.ArrivalRate) (hln : LogNegative ln) (hv : ValidStream em.rng) :
    0 < t ∧ ValidStream em1.rng := by
  rw [GetInterarrivalTime_unfold ln cfg em (ne_of_gt hr)] at h
  split at h
  · exact GenerateUniform_pos em em1 _ t h hr hv
  · split at h
    · simp only [Option.some.injEq, Prod.mk.injEq] at h
      obtain ⟨rfl, rfl⟩ := h
      exact ⟨by positivity, hv⟩
    · exact GenerateExponential_pos ln em em1 _ t h hr hln hv

theorem GetServiceTime_pos (ln : ℚ → ℚ) (cfg : SimulationConfig)
    (em em1 : EventManager) (t : ℚ) (h : em.GetServiceTime ln cfg = some (t, em1))
    (hr : 0 < cfg.ServiceRate) (hln : LogNegative ln) (hv : ValidStream em.rng) :
    0 < t ∧ ValidStream em1.rng := by
  rw [GetServiceTime_unfold ln cfg em (ne_of_gt hr)] at h
  split at h
  · exact GenerateUniform_pos em em1 _ t h hr hv
  · split at h
    · simp only [Option.some.injEq, Prod.mk.injEq] at h
      obtain ⟨rfl, rfl⟩ := h
      exact ⟨by positivity, hv⟩
    · exact GenerateExponential_pos ln em em1 _ t h hr hln hv

/-! ## Effects of the building blocks on the simulator -/

theorem flush_state (s : DiscreteEventSimulator) (dt : ℚ) :
    (s.flush dt).state =
      { s.state with
        AreaUnderQ := s.state.AreaUnderQ + (if dt > 0 then (s.state.Queue.length : ℚ) * dt else 0)
        AreaUnderB := s.state.AreaUnderB +
          (if dt > 0 ∧ s.state.ServerBusy = true then dt else 0) } := by
  unfold DiscreteEventSimulator.flush EnhancedStatisticsCollector.UpdatePreEvent
  by_cases h : dt > 0
  · have h2 : ¬ dt ≤ 0 := not_le.2 h
    by_cases hb : s.state.ServerBusy = true
    · simp [h, h2, hb]
    · simp [h, h2, hb]
  · simp [h]

theorem flush_events (s : DiscreteEventSimulator) (dt : ℚ) : (s.flush dt).events = s.events := by
  unfold DiscreteEventSimulator.flush
  split <;> rfl

theorem flush_customerID (s : DiscreteEventSimulator) (dt : ℚ) :
    (s.flush dt).customerID = s.customerID := by
  unfold DiscreteEventSimulator.flush
  split <;> rfl

theorem flush_samples (s : DiscreteEventSimulator) (dt : ℚ) :
    (s.flush dt).stats.waitTimes = s.stats.waitTimes := by
  unfold DiscreteEventSimulator.flush EnhancedStatisticsCollector.UpdatePreEvent
  split
  · simp only
    split
    · rfl
    · simp only
      split <;> rfl
  · rfl

theorem ScheduleEvent_perm (em : EventManager) (k : EventType) (t : ℚ) (c : Option Customer) :
    (em.ScheduleEvent k t c).eventList.events.Perm
      ({ Kind := k, Timestamp := t, Customer := c, Priority := 0 } :: em.eventList.events) :=
  EventList_Push_perm em.eventList _

theorem ScheduleEvent_isHeap (em : EventManager) (k : EventType) (t : ℚ) (c : Option Customer)
    (hh : IsHeap em.eventList.events) : IsHeap (em.ScheduleEvent k t c).eventList.events :=
  EventList_Push_isHeap em.eventList _ hh

theorem ScheduleEvent_rng (em : EventManager) (k : EventType) (t : ℚ) (c : Option Customer) :
    (em.ScheduleEvent k t c).rng = em.rng := rfl

theorem Peek_some (el : EventList) (e : Event) (h : el.Peek = some e) :
    el.Pop.1 = some e ∧ el.events.Perm (e :: el.Pop.2.events) ∧ el.events[0]? = some e := by
  have hne : el.events ≠ [] := by
    intro h0
    simp [EventList.Peek, EventList.IsEmpty, h0] at h
  obtain ⟨e1, h0, h1, h2, hp⟩ := EventList_Pop_some el hne
  rw [h] at h2
  cases h2
  exact ⟨h1, hp, h0⟩

theorem Applies_unfold (ln : ℚ → ℚ) (cfg : SimulationConfig) (s s1 : DiscreteEventSimulator)
    (e : Event) (h : Applies ln cfg s e s1) :
    ∃ s3,
      DiscreteEventSimulator.processEvent ln cfg
        { s.flush (e.Timestamp - s.state.LastEventTime) with
          events := { s.events with eventList := s.events.eventList.Pop.2 }
          state := { (s.flush (e.Timestamp - s.state.LastEventTime)).state with
            Clock := e.Timestamp } } e = some s3 ∧
      s1 = { s3 with
        state := { s3.state with
          LastEventTime := s3.state.Clock
          EventsProcessed := s3.state.EventsProcessed + 1 } } ∧
      (pending s).Perm (e :: s.events.eventList.Pop.2.events) ∧
      (pending s)[0]? = some e := by
  obtain ⟨hpeek, _, hbody⟩ := h
  obtain ⟨hpop, hperm, h0⟩ := Peek_some s.events.eventList e hpeek
  unfold DiscreteEventSimulator.runBody at hbody
  simp only [flush_events, EventManager.GetNextEvent, hpop] at hbody
  split at hbody
  · simp at hbody
  · next s3 hs3 =>
    simp only [Option.some.injEq] at hbody
    exact ⟨s3, hs3, hbody.symm, hperm, h0⟩

theorem scheduleNext_spec (ln : ℚ → ℚ) (cfg : SimulationConfig)
    (s s1 : DiscreteEventSimulator) (h : s.scheduleNext ln cfg = some s1) :
    ∃ ia em, s.events.GetInterarrivalTime ln cfg = some (ia, em) ∧
      s1.state = s.state ∧ s1.stats = s.stats ∧ s1.customerID = s.customerID ∧
      s1.eventLog = s.eventLog ∧
      ((s.state.Clock + ia ≤ cfg.SimulationTime ∧
          s1.events = em.ScheduleEvent EventType.EventArrival (s.state.Clock + ia) none) ∨
        (¬ s.state.Clock + ia ≤ cfg.SimulationTime ∧ s1.events = em)) := by
  unfold DiscreteEventSimulator.scheduleNext at h
  split at h
  · simp at h
  · next ia em hia =>
    refine ⟨ia, em, hia, ?_⟩
    split at h
    · next hle =>
      simp only [Option.some.injEq] at h
      subst h
      exact ⟨rfl, rfl, rfl, rfl, Or.inl ⟨hle, rfl⟩⟩
    · next hle =>
      simp only [Option.some.injEq] at h
      subst h
      exact ⟨rfl, rfl, rfl, rfl, Or.inr ⟨hle, rfl⟩⟩

theorem processArrival_spec (ln : ℚ → ℚ) (cfg : SimulationConfig)
    (s s1 : DiscreteEventSimulator) (h : s.processArrival ln cfg = some s1) :
    ∃ st em, s.events.GetServiceTime ln cfg = some (st, em) ∧
      DiscreteEventSimulator.scheduleNext ln cfg
        (DiscreteEventSimulator.place cfg
          { s with
            events := em
            customerID := s.customerID + 1
            state := { s.state with TotalCustomers := s.state.TotalCustomers + 1 } }
          { ID := s.customerID, ArrivalTime := s.state.Clock, ServiceTime := st,
            ServiceStart := 0, ExitTime := 0, Status := CustomerStatus.CustomerWaiting })
        = some s1 := by
  unfold DiscreteEventSimulator.processArrival at h
  split at h
  · simp at h
  · next st em hst => exact ⟨st, em, hst, h⟩

/-! ## Queue capacity -/

theorem place_queue_le (cfg : SimulationConfig) (s : DiscreteEventSimulator) (c : Customer)
    (hq : (s.state.Queue.length : Int) ≤ cfg.MaxQueueSize) :
    ((s.place cfg c).state.Queue.length : Int) ≤ cfg.MaxQueueSize := by
  unfold DiscreteEventSimulator.place
  split
  · exact hq
  · split
    · next hlt =>
      simp only [List.length_append, List.length_singleton]
      push_cast
      omega
    · exact hq

theorem processDeparture_queue_le (s : DiscreteEventSimulator) (c : Option Customer) :
    (s.processDeparture c).state.Queue.length ≤ s.state.Queue.length := by
  unfold DiscreteEventSimulator.processDeparture
  cases c <;> cases hq : s.state.Queue <;> simp [hq]

theorem processEvent_queue_le (ln : ℚ → ℚ) (cfg : SimulationConfig)
    (s s1 : DiscreteEventSimulator) (e : Event)
    (h : s.processEvent ln cfg e = some s1)
    (hq : (s.state.Queue.length : Int) ≤ cfg.MaxQueueSize) :
    (s1.state.Queue.length : Int) ≤ cfg.MaxQueueSize := by
  unfold DiscreteEventSimulator.processEvent at h
  split at h
  · obtain ⟨st, em, _, h2⟩ := processArrival_spec ln cfg s s1 h
    obtain ⟨ia, em2, _, hst, _⟩ := scheduleNext_spec ln cfg _ s1 h2
    rw [hst]
    exact place_queue_le cfg _ _ hq
  · simp only [Option.some.injEq] at h
    subst h
    have := processDeparture_queue_le s e.Customer
    omega
  · simp only [Option.some.injEq] at h
    subst h
    exact hq

theorem Applies_queue_le (ln : ℚ → ℚ) (cfg : SimulationConfig)
    (s s1 : DiscreteEventSimulator) (e : Event) (h : Applies ln cfg s e s1)
    (hq : (s.state.Queue.length : Int) ≤ cfg.MaxQueueSize) :
    (s1.state.Queue.length : Int) ≤ cfg.MaxQueueSize := by
  obtain ⟨s3, hs3, rfl, _, _⟩ := Applies_unfold ln cfg s s1 e h
  refine processEvent_queue_le ln cfg _ s3 e hs3 ?_
  simp only [flush_state]
  exact hq

theorem Initialize_spec (ln : ℚ → ℚ) (cfg : SimulationConfig)
    (s s0 : DiscreteEventSimulator) (h : s.Initialize ln cfg = some s0) :
    ∃ t em, s.events.GetInterarrivalTime ln cfg = some (t, em) ∧
      s0.state = initialState ∧ s0.stats = NewStatisticsCollector ∧ s0.customerID = 1 ∧
      s0.eventLog = [] ∧
      s0.events = em.ScheduleEvent EventType.EventArrival t none := by
  unfold DiscreteEventSimulator.Initialize at h
  split at h
  · simp at h
  · next t em ht =>
    simp only [Option.some.injEq] at h
    subst h
    exact ⟨t, em, ht, rfl, rfl, rfl, rfl, rfl⟩

/-- C5. With a non-negative `MaxQueueSize`, in every state reached from
`Initialize` by applied events the queue holds at most `MaxQueueSize`
customers. -/
theorem queue_length_le_max (ln : ℚ → ℚ) (src : Int → List ℚ) (now : Int)
    (cfg : SimulationConfig) (s : DiscreteEventSimulator)
    (hmax : 0 ≤ cfg.MaxQueueSize) (hr : Reachable ln src now cfg s) :
    (s.state.Queue.length : Int) ≤ cfg.MaxQueueSize := by
  induction hr with
  | init s0 h0 =>
    obtain ⟨_, _, _, hst, _⟩ := Initialize_spec ln cfg _ s0 h0
    rw [hst]
    simpa [initialState] using hmax
  | step s s1 e _ hstep ih => exact Applies_queue_le ln cfg s s1 e hstep ih

theorem place_spec (cfg : SimulationConfig) (s : DiscreteEventSimulator) (c : Customer) :
    (s.place cfg c).stats = s.stats ∧ (s.place cfg c).customerID = s.customerID ∧
    (s.place cfg c).eventLog = s.eventLog ∧
    ((s.state.ServerBusy = false ∧
        (s.place cfg c).state = { s.state with
          ServerBusy := true, CustomersServed := s.state.CustomersServed + 1 } ∧
        (s.place cfg c).events = s.events.ScheduleEvent EventType.EventDeparture
          (s.state.Clock + c.ServiceTime)
          (some { c with
            ServiceStart := s.state.Clock, Status := CustomerStatus.CustomerInService })) ∨
      (s.state.ServerBusy = true ∧ (s.state.Queue.length : Int) < cfg.MaxQueueSize ∧
        (s.place cfg c).state = { s.state with Queue := s.state.Queue ++ [c] } ∧
        (s.place cfg c).events = s.events) ∨
      (s.state.ServerBusy = true ∧ ¬ (s.state.Queue.length : Int) < cfg.MaxQueueSize ∧
        (s.place cfg c).state = { s.state with
          RejectedCustomers := s.state.RejectedCustomers + 1 } ∧
        (s.place cfg c).events = s.events)) := by
  unfold DiscreteEventSimulator.place
  cases hb : s.state.ServerBusy
  · simp
  · by_cases hq : (s.state.Queue.length : Int) < cfg.MaxQueueSize
    · simp [hq]
    · simp [hq]

theorem processDeparture_spec (s : DiscreteEventSimulator) (c : Option Customer) :
    (s.processDeparture c).customerID = s.customerID ∧
    (s.processDeparture c).eventLog = s.eventLog ∧
    (s.processDeparture c).stats =
      (match c with
        | some c1 => s.stats.RecordCustomerCompletion { c1 with ExitTime := s.state.Clock }
        | none => s.stats) ∧
    ((∃ n rest, s.state.Queue = n :: rest ∧
        (s.processDeparture c).state = { s.state with
          Queue := rest
          TotalDelay := s.state.TotalDelay +
            (if s.state.Clock - n.ArrivalTime < 0 then 0 else s.state.Clock - n.ArrivalTime)
          ServerBusy := true
          CustomersServed := s.state.CustomersServed + 1 } ∧
        (s.processDeparture c).events = s.events.ScheduleEvent EventType.EventDeparture
          (s.state.Clock + n.ServiceTime)
          (some { n with
            ServiceStart := s.state.Clock, Status := CustomerStatus.CustomerInService })) ∨
      (s.state.Queue = [] ∧
        (s.processDeparture c).state = { s.state with ServerBusy := false } ∧
        (s.processDeparture c).events = s.events)) := by
  unfold DiscreteEventSimulator.processDeparture
  cases c <;> cases hq : s.state.Queue <;> simp [hq] <;>
    exact ⟨_, _, ⟨rfl, rfl⟩, ⟨rfl, rfl⟩, rfl⟩

theorem deps_perm (l1 l2 : List Event) (h : l1.Perm l2) : (deps l1).Perm (deps l2) :=
  List.Perm.filter _ h

theorem deps_cons_dep (e : Event) (l : List Event) (h : e.Kind = EventType.EventDeparture) :
    deps (e :: l) = e :: deps l := by
  simp [deps, h]

theorem deps_cons_other (e : Event) (l : List Event) (h : e.Kind ≠ EventType.EventDeparture) :
    deps (e :: l) = deps l := by
  simp [deps, h]

theorem deps_schedule_dep (em : EventManager) (t : ℚ) (c : Option Customer) :
    (deps (em.ScheduleEvent EventType.EventDeparture t c).eventList.events).Perm
      ({ Kind := EventType.EventDeparture, Timestamp := t, Customer := c, Priority := 0 } ::
        deps em.eventList.events) := by
  have := deps_perm _ _ (ScheduleEvent_perm em EventType.EventDeparture t c)
  rwa [deps_cons_dep _ _ rfl] at this

theorem deps_schedule_arr (em : EventManager) (t : ℚ) (c : Option Customer) :
    (deps (em.ScheduleEvent EventType.EventArrival t c).eventList.events).Perm
      (deps em.eventList.events) := by
  have := deps_perm _ _ (ScheduleEvent_perm em EventType.EventArrival t c)
  rwa [deps_cons_other _ _ (by simp)] at this

/-! ## Server bookkeeping -/

theorem InvServe_congr (s s1 : DiscreteEventSimulator)
    (hp : (deps (pending s1)).Perm (deps (pending s))) (hst : s1.state = s.state)
    (hw : s1.stats.waitTimes = s.stats.waitTimes) (h : InvServe s) : InvServe s1 := by
  obtain ⟨h1, h2, h3, h4⟩ := h
  refine ⟨?_, ?_, ?_, ?_⟩
  · rw [hp.length_eq, hst]; exact h1
  · intro e he
    exact h2 e (hp.mem_iff.1 he)
  · rw [hst]; exact h3
  · rw [hp.length_eq, hst, hw]; exact h4

theorem scheduleNext_deps (ln : ℚ → ℚ) (cfg : SimulationConfig)
    (s s1 : DiscreteEventSimulator) (h : s.scheduleNext ln cfg = some s1) :
    (deps (pending s1)).Perm (deps (pending s)) := by
  obtain ⟨ia, em, hia, _, _, _, _, hev⟩ := scheduleNext_spec ln cfg s s1 h
  have hel := GetInterarrivalTime_eventList ln cfg s.events em ia hia
  unfold pending
  rcases hev with ⟨_, hev⟩ | ⟨_, hev⟩
  · rw [hev, ← hel]
    exact deps_schedule_arr em _ _
  · rw [hev, hel]

theorem place_invServe (cfg : SimulationConfig) (s : DiscreteEventSimulator) (st : ℚ)
    (h : InvServe s) :
    InvServe (DiscreteEventSimulator.place cfg
      { s with
        customerID := s.customerID + 1
        state := { s.state with TotalCustomers := s.state.TotalCustomers + 1 } }
      { ID := s.customerID, ArrivalTime := s.state.Clock, ServiceTime := st,
        ServiceStart := 0, ExitTime := 0, Status := CustomerStatus.CustomerWaiting }) := by
  obtain ⟨h1, h2, h3, h4⟩ := h
  obtain ⟨hs, _, _, hc⟩ := place_spec cfg
    { s with
      customerID := s.customerID + 1
      state := { s.state with TotalCustomers := s.state.TotalCustomers + 1 } }
    { ID := s.customerID, ArrivalTime := s.state.Clock, ServiceTime := st,
      ServiceStart := 0, ExitTime := 0, Status := CustomerStatus.CustomerWaiting }
  rcases hc with ⟨hb, hstate, hev⟩ | ⟨hb, _, hstate, hev⟩ | ⟨hb, _, hstate, hev⟩
  · simp only at hb
    have hp := deps_schedule_dep s.events (s.state.Clock + st)
      (some
        { ID := s.customerID, ArrivalTime := s.state.Clock, ServiceTime := st,
          ServiceStart := s.state.Clock, ExitTime := 0,
          Status := CustomerStatus.CustomerInService })
    simp only [hb, Bool.false_eq_true, if_false] at h1
    unfold InvServe pending
    rw [hstate, hev, hs]
    simp only at hp ⊢
    refine ⟨?_, ?_, ?_, ?_⟩
    · rw [hp.length_eq]
      simp only [List.length_cons]
      unfold pending at h1
      simp [h1]
    · intro e he
      rcases List.mem_cons.1 (hp.mem_iff.1 he) with rfl | he2
      · exact ⟨_, rfl, rfl⟩
      · exact h2 e he2
    · omega
    · rw [hp.length_eq]
      simp only [List.length_cons]
      unfold pending at h4
      push_cast
      omega
  · simp only at hb
    simp only [hb, if_true] at h1
    unfold InvServe pending
    rw [hstate, hev, hs]
    simp only [hb, if_true, List.length_append, List.length_singleton]
    refine ⟨h1, h2, ?_, h4⟩
    push_cast
    omega
  · simp only at hb
    simp only [hb, if_true] at h1
    unfold InvServe pending
    rw [hstate, hev, hs]
    simp only [hb, if_true]
    refine ⟨h1, h2, ?_, h4⟩
    omega

theorem processArrival_invServe (ln : ℚ → ℚ) (cfg : SimulationConfig)
    (s s1 : DiscreteEventSimulator) (h : s.processArrival ln cfg = some s1)
    (hinv : InvServe s) : InvServe s1 := by
  obtain ⟨st, em, hst, h2⟩ := processArrival_spec ln cfg s s1 h
  have hel := GetServiceTime_eventList ln cfg s.events em st hst
  have h0 : InvServe { s with events := em } :=
    InvServe_congr s _ (by unfold pending; rw [hel]) rfl rfl hinv
  have h3 := place_invServe cfg { s with events := em } st h0
  obtain ⟨_, _, _, hstate, hstats, _⟩ := scheduleNext_spec ln cfg _ s1 h2
  exact InvServe_congr _ s1 (scheduleNext_deps ln cfg _ s1 h2) hstate (by rw [hstats]) h3

theorem processDeparture_invServe (s : DiscreteEventSimulator) (c : Customer)
    (hd : deps (pending s) = [])
    (hcount : s.state.RejectedCustomers + s.state.CustomersServed
      + (s.state.Queue.length : Int) = s.state.TotalCustomers)
    (hserved : s.state.CustomersServed = (s.stats.waitTimes.length : Int) + 1) :
    InvServe (s.processDeparture (some c)) := by
  obtain ⟨_, _, hstats, hc⟩ := processDeparture_spec s (some c)
  have hw : (s.processDeparture (some c)).stats.waitTimes.length
      = s.stats.waitTimes.length + 1 := by
    rw [hstats]
    simp [EnhancedStatisticsCollector.RecordCustomerCompletion]
  rcases hc with ⟨n, rest, hq, hstate, hev⟩ | ⟨hq, hstate, hev⟩
  · have hp := deps_schedule_dep s.events (s.state.Clock + n.ServiceTime)
      (some
        { n with
          ServiceStart := s.state.Clock, Status := CustomerStatus.CustomerInService })
    unfold pending at hd
    rw [hd] at hp
    unfold InvServe pending
    rw [hstate, hev, hw]
    simp only [if_true]
    refine ⟨?_, ?_, ?_, ?_⟩
    · rw [hp.length_eq]; rfl
    · intro e he
      rcases List.mem_cons.1 (hp.mem_iff.1 he) with rfl | he2
      · exact ⟨_, rfl, rfl⟩
      · simp at he2
    · rw [hq] at hcount
      simp only [List.length_cons] at hcount
      push_cast at hcount
      omega
    · rw [hp.length_eq]
      simp only [List.length_cons, List.length_nil]
      push_cast
      omega
  · unfold InvServe pending
    unfold pending at hd
    rw [hstate, hev, hw, hd]
    simp only [Bool.false_eq_true, if_false, List.length_nil]
    refine ⟨trivial, ?_, hcount, ?_⟩
    · intro e he
      simp at he
    · push_cast
      omega

theorem Applies_invServe (ln : ℚ → ℚ) (cfg : SimulationConfig)
    (s s1 : DiscreteEventSimulator) (e : Event) (h : Applies ln cfg s e s1)
    (hinv : InvServe s) :
    InvServe s1 ∧ (e.Kind = EventType.EventDeparture → s.state.ServerBusy = true) := by
  obtain ⟨s3, hs3, rfl, hperm, _⟩ := Applies_unfold ln cfg s s1 e h
  have hfin : ∀ t : DiscreteEventSimulator, InvServe t →
      InvServe { t with
        state := { t.state with
          LastEventTime := t.state.Clock
          EventsProcessed := t.state.EventsProcessed + 1 } } := fun t ht => ht
  obtain ⟨h1, h2, h3, h4⟩ := hinv
  have hdp := deps_perm _ _ hperm
  by_cases hk : e.Kind = EventType.EventDeparture
  · rw [deps_cons_dep e _ hk] at hdp
    have hlen := hdp.length_eq
    simp only [List.length_cons] at hlen
    have hbusy : s.state.ServerBusy = true := by
      by_contra hb
      simp only [hb, Bool.false_eq_true, if_false] at h1
      omega
    simp only [hbusy, if_true] at h1
    have hrest : deps s.events.eventList.Pop.2.events = [] :=
      List.length_eq_zero.1 (by omega)
    obtain ⟨c, hc, _⟩ := h2 e (hdp.mem_iff.2 (List.mem_cons_self _ _))
    refine ⟨?_, fun _ => hbusy⟩
    apply hfin
    unfold DiscreteEventSimulator.processEvent at hs3
    rw [hk, hc] at hs3
    simp only [Option.some.injEq] at hs3
    rw [← hs3]
    apply processDeparture_invServe
    · exact hrest
    · simp only [flush_state]
      exact h3
    · simp only [flush_state, flush_samples]
      rw [h4, h1]
      rfl
  · rw [deps_cons_other e _ hk] at hdp
    refine ⟨?_, fun hk2 => absurd hk2 hk⟩
    apply hfin
    have hpre : InvServe
        { s.flush (e.Timestamp - s.state.LastEventTime) with
          events := { s.events with eventList := s.events.eventList.Pop.2 }
          state := { (s.flush (e.Timestamp - s.state.LastEventTime)).state with
            Clock := e.Timestamp } } := by
      unfold InvServe pending
      simp only [flush_state, flush_samples]
      refine ⟨?_, ?_, h3, ?_⟩
      · rw [← hdp.length_eq]; exact h1
      · intro x hx
        exact h2 x (hdp.mem_iff.2 hx)
      · rw [← hdp.length_eq]; exact h4
    unfold DiscreteEventSimulator.processEvent at hs3
    split at hs3
    · exact processArrival_invServe ln cfg _ s3 hs3 hpre
    · next hk2 => exact absurd hk2 hk
    · simp only [Option.some.injEq] at hs3
      rw [← hs3]
      exact hpre

theorem Initialize_invServe (ln : ℚ → ℚ) (cfg : SimulationConfig)
    (s s0 : DiscreteEventSimulator) (hs : deps (pending s) = [])
    (h : s.Initialize ln cfg = some s0) : InvServe s0 := by
  obtain ⟨t, em, ht, hst, hstats, _, _, hev⟩ := Initialize_spec ln cfg s s0 h
  have hel := GetInterarrivalTime_eventList ln cfg s.events em t ht
  have hp := deps_schedule_arr em t none
  rw [hel] at hp
  unfold pending at hs
  rw [hs] at hp
  have hnil : deps (pending s0) = [] := by
    unfold pending
    rw [hev]
    exact List.Perm.eq_nil hp
  unfold InvServe
  rw [hnil, hst, hstats]
  simp [initialState, NewStatisticsCollector]

theorem NewSimulator_pending (src : Int → List ℚ) (now : Int) (cfg : SimulationConfig) :
    pending (NewSimulator src now cfg) = [] := heap_Init_nil

theorem Reachable_invServe (ln : ℚ → ℚ) (src : Int → List ℚ) (now : Int)
    (cfg : SimulationConfig) (s : DiscreteEventSimulator)
    (hr : Reachable ln src now cfg s) : InvServe s := by
  induction hr with
  | init s0 h0 =>
    refine Initialize_invServe ln cfg _ s0 ?_ h0
    rw [NewSimulator_pending]
    rfl
  | step s s1 e _ hstep ih => exact (Applies_invServe ln cfg s s1 e hstep ih).1

theorem stepsFrom_reachable (ln : ℚ → ℚ) (src : Int → List ℚ) (now : Int)
    (cfg : SimulationConfig) :
    ∀ (n : Nat) (s s1 : DiscreteEventSimulator), Reachable ln src now cfg s →
      stepsFrom ln cfg n s = some s1 → Reachable ln src now cfg s1 := by
  intro n
  induction n with
  | zero =>
    intro s s1 hr h
    simp only [stepsFrom, Option.some.injEq] at h
    rw [← h]
    exact hr
  | succ n ih =>
    intro s s1 hr h
    simp only [stepsFrom] at h
    split at h
    · simp at h
    · next e he =>
      split at h
      · simp at h
      · next hT =>
        split at h
        · simp at h
        · next s2 hs2 =>
          exact ih s2 s1 (Reachable.step s s2 e hr ⟨he, hT, hs2⟩) h

theorem stateAfter_reachable (ln : ℚ → ℚ) (src : Int → List ℚ) (now : Int)
    (cfg : SimulationConfig) (n : Nat)
    (h0 : ((NewSimulator src now cfg).Initialize ln cfg).isSome = true)
    (h : (stepsFrom ln cfg n (initState ln src now cfg)).isSome = true) :
    Reachable ln src now cfg (stateAfter ln src now cfg n) := by
  obtain ⟨s0, hs0⟩ := Option.isSome_iff_exists.1 h0
  obtain ⟨s1, hs1⟩ := Option.isSome_iff_exists.1 h
  have e0 : initState ln src now cfg = s0 := by
    unfold initState
    rw [hs0]
    rfl
  have e1 : stateAfter ln src now cfg n = s1 := by
    unfold stateAfter
    rw [hs1]
    rfl
  rw [e1]
  rw [e0] at hs1
  exact stepsFrom_reachable ln src now cfg n s0 s1 (Reachable.init s0 hs0) hs1

theorem demoInit_eq :
    (NewSimulator demoSrc 0 demoConfig).Initialize demoLn demoConfig = some demoInit := by
  decide!

theorem demoAfter_reachable (n : Nat)
    (h : (stepsFrom demoLn demoConfig n demoInit).isSome = true) :
    Reachable demoLn demoSrc 0 demoConfig (demoAfter n) :=
  stateAfter_reachable demoLn demoSrc 0 demoConfig n (by decide!) h

theorem inService_length (l : List Event)
    (h : ∀ e ∈ l, ∃ c, e.Customer = some c ∧ c.Status = CustomerStatus.CustomerInService) :
    (l.filterMap (fun e =>
      match e.Customer with
      | some c => if c.Status = CustomerStatus.CustomerInService then some c else none
      | none => none)).length = l.length := by
  induction l with
  | nil => rfl
  | cons e l ih =>
    obtain ⟨c, hc, hs⟩ := h e (List.mem_cons_self _ _)
    have ih2 := ih (fun x hx => h x (List.mem_cons_of_mem _ hx))
    rw [List.filterMap_cons]
    simp only [hc, hs, if_true, List.length_cons]
    rw [ih2]

/-- C6. In every state reached from a new simulator by `Initialize` and
applied events, the server is busy exactly when one customer is in service
(a customer that has started service and whose departure is pending); when
the server is idle no departure is pending; and a departure is only ever
applied in a state where the server is busy. -/
theorem busy_iff_one_in_service (ln : ℚ → ℚ) (src : Int → List ℚ) (now : Int)
    (cfg : SimulationConfig) (s : DiscreteEventSimulator)
    (hr : Reachable ln src now cfg s) :
    (s.state.ServerBusy = true ↔ (inService s).length = 1) ∧
    (pendingDepartures s).length = (inService s).length ∧
    (s.state.ServerBusy = false → pendingDepartures s = [] ∧ inService s = []) ∧
    (∀ e s1, Applies ln cfg s e s1 → e.Kind = EventType.EventDeparture →
      s.state.ServerBusy = true) := by
  have hinv := Reachable_invServe ln src now cfg s hr
  have h1 := hinv.1
  have h2 := hinv.2.1
  have hlen : (inService s).length = (deps (pending s)).length :=
    inService_length (deps (pending s)) h2
  refine ⟨?_, hlen.symm, ?_, ?_⟩
  · rw [hlen, h1]
    cases s.state.ServerBusy <;> simp
  · intro hb
    rw [hb] at h1
    have h0 : deps (pending s) = [] := List.length_eq_zero.1 (by simpa using h1)
    refine ⟨h0, ?_⟩
    unfold inService pendingDepartures
    rw [h0]
    rfl
  · intro e s1 hstep hk
    exact (Applies_invServe ln cfg s s1 e hstep hinv).2 hk

/-- Witness of C6: the demo run after four applied events (server busy, one
customer waiting). -/
theorem busy_iff_one_in_service_witness :
    ((demoAfter 4).state.ServerBusy = true ↔ (inService (demoAfter 4)).length = 1) ∧
    (pendingDepartures (demoAfter 4)).length = (inService (demoAfter 4)).length ∧
    ((demoAfter 4).state.ServerBusy = false →
      pendingDepartures (demoAfter 4) = [] ∧ inService (demoAfter 4) = []) ∧
    (∀ e s1, Applies demoLn demoConfig (demoAfter 4) e s1 →
      e.Kind = EventType.EventDeparture → (demoAfter 4).state.ServerBusy = true) :=
  busy_iff_one_in_service demoLn demoSrc 0 demoConfig (demoAfter 4)
    (demoAfter_reachable 4 (by decide!))

/-- C7, as the code has it. In every reachable state rejected + served +
queued equals the number of arrivals, where `CustomersServed` counts every
customer whose service has started: the completed ones, one recorded sample
each, and the customer in service. -/
theorem counters_balance (ln : ℚ → ℚ) (src : Int → List ℚ) (now : Int)
    (cfg : SimulationConfig) (s : DiscreteEventSimulator)
    (hr : Reachable ln src now cfg s) :
    s.state.RejectedCustomers + s.state.CustomersServed + (s.state.Queue.length : Int)
      = s.state.TotalCustomers ∧
    s.state.CustomersServed
      = (s.stats.waitTimes.length : Int) + ((inService s).length : Int) := by
  obtain ⟨_, h2, h3, h4⟩ := Reachable_invServe ln src now cfg s hr
  refine ⟨h3, ?_⟩
  have hlen : (inService s).length = (deps (pending s)).length :=
    inService_length (deps (pending s)) h2
  rw [hlen]
  exact h4

/-- Witness of C7 as amended, on the demo run after four applied events. -/
theorem counters_balance_witness :
    (demoAfter 4).state.RejectedCustomers + (demoAfter 4).state.CustomersServed
        + ((demoAfter 4).state.Queue.length : Int)
      = (demoAfter 4).state.TotalCustomers ∧
    (demoAfter 4).state.CustomersServed
      = ((demoAfter 4).stats.waitTimes.length : Int)
        + ((inService (demoAfter 4)).length : Int) :=
  counters_balance demoLn demoSrc 0 demoConfig (demoAfter 4)
    (demoAfter_reachable 4 (by decide!))

/-- C7, counterexample. After the first arrival of the demo run one customer
is in service and has already been counted in `CustomersServed`: rejected +
served + (queued + in service) is 2 while one customer has arrived. -/
theorem counters_overcount :
    Reachable demoLn demoSrc 0 demoConfig (demoAfter 1) ∧
    (demoAfter 1).state.TotalCustomers = 1 ∧
    (demoAfter 1).state.RejectedCustomers + (demoAfter 1).state.CustomersServed
      + (((demoAfter 1).state.Queue.length : Int) + ((inService (demoAfter 1)).length : Int))
      = 2 :=
  ⟨demoAfter_reachable 1 (by decide!), by decide!, by decide!⟩

/-- Witness of C5 on the demo run after four applied events. -/
theorem queue_length_le_max_witness :
    (((demoAfter 4).state.Queue.length : Int) ≤ demoConfig.MaxQueueSize) :=
  queue_length_le_max demoLn demoSrc 0 demoConfig (demoAfter 4) (by decide)
    (demoAfter_reachable 4 (by decide!))

/-! ## Simulated time -/

theorem ScheduleEvent_sched (em : EventManager) (clock : ℚ) (k : EventType) (t : ℚ)
    (c : Option Customer) (hh : IsHeap em.eventList.events)
    (hm : ∀ x ∈ em.eventList.events, clock ≤ x.Timestamp) (ht : clock ≤ t) :
    IsHeap (em.ScheduleEvent k t c).eventList.events ∧
    ∀ x ∈ (em.ScheduleEvent k t c).eventList.events, clock ≤ x.Timestamp := by
  refine ⟨ScheduleEvent_isHeap em k t c hh, ?_⟩
  intro x hx
  rcases List.mem_cons.1 ((ScheduleEvent_perm em k t c).mem_iff.1 hx) with rfl | hx2
  · exact ht
  · exact hm x hx2

theorem place_invSched (cfg : SimulationConfig) (s : DiscreteEventSimulator) (c : Customer)
    (h : InvSched s) (hc : 0 < c.ServiceTime) :
    InvSched (s.place cfg c) ∧ (s.place cfg c).state.Clock = s.state.Clock ∧
    (s.place cfg c).state.LastEventTime = s.state.LastEventTime ∧
    (s.place cfg c).state.AreaUnderQ = s.state.AreaUnderQ ∧
    (s.place cfg c).state.AreaUnderB = s.state.AreaUnderB := by
  obtain ⟨h1, h2, h3, h4⟩ := h
  unfold pending at h1 h2
  obtain ⟨_, _, _, hcase⟩ := place_spec cfg s c
  unfold InvSched pending
  rcases hcase with ⟨_, hstate, hev⟩ | ⟨_, _, hstate, hev⟩ | ⟨_, _, hstate, hev⟩
  · rw [hstate, hev]
    obtain ⟨a, b⟩ := ScheduleEvent_sched s.events s.state.Clock EventType.EventDeparture
      (s.state.Clock + c.ServiceTime)
      (some { c with
        ServiceStart := s.state.Clock, Status := CustomerStatus.CustomerInService })
      h1 h2 (by linarith)
    exact ⟨⟨a, b, h3, h4⟩, rfl, rfl, rfl, rfl⟩
  · rw [hstate, hev]
    refine ⟨⟨h1, h2, h3, ?_⟩, rfl, rfl, rfl, rfl⟩
    intro x hx
    rcases List.mem_append.1 hx with hx1 | hx1
    · exact h4 x hx1
    · rw [List.mem_singleton.1 hx1]
      exact hc
  · rw [hstate, hev]
    exact ⟨⟨h1, h2, h3, h4⟩, rfl, rfl, rfl, rfl⟩

theorem scheduleNext_invSched (ln : ℚ → ℚ) (cfg : SimulationConfig)
    (s s1 : DiscreteEventSimulator) (hr : 0 < cfg.ArrivalRate) (hln : LogNegative ln)
    (h : InvSched s) (hs : s.scheduleNext ln cfg = some s1) :
    InvSched s1 ∧ s1.state = s.state := by
  obtain ⟨h1, h2, h3, h4⟩ := h
  unfold pending at h1 h2
  obtain ⟨ia, em, hia, hstate, _, _, _, hev⟩ := scheduleNext_spec ln cfg s s1 hs
  have hel := GetInterarrivalTime_eventList ln cfg s.events em ia hia
  obtain ⟨hpos, hv⟩ := GetInterarrivalTime_pos ln cfg s.events em ia hia hr hln h3
  refine ⟨?_, hstate⟩
  unfold InvSched pending
  rw [hstate]
  rcases hev with ⟨_, hev⟩ | ⟨_, hev⟩
  · rw [hev]
    rw [← hel] at h1 h2
    obtain ⟨a, b⟩ := ScheduleEvent_sched em s.state.Clock EventType.EventArrival
      (s.state.Clock + ia) none h1 h2 (by linarith)
    exact ⟨a, b, hv, h4⟩
  · rw [hev, hel]
    exact ⟨h1, h2, hv, h4⟩

theorem processArrival_invSched (ln : ℚ → ℚ) (cfg : SimulationConfig)
    (s s1 : DiscreteEventSimulator) (hr : 0 < cfg.ArrivalRate) (hm : 0 < cfg.ServiceRate)
    (hln : LogNegative ln) (h : InvSched s) (hs : s.processArrival ln cfg = some s1) :
    InvSched s1 ∧ s1.state.Clock = s.state.Clock ∧
    s1.state.LastEventTime = s.state.LastEventTime ∧
    s1.state.AreaUnderQ = s.state.AreaUnderQ ∧ s1.state.AreaUnderB = s.state.AreaUnderB := by
  obtain ⟨st, em, hst, h2⟩ := processArrival_spec ln cfg s s1 hs
  have hel := GetServiceTime_eventList ln cfg s.events em st hst
  obtain ⟨hpos, hv⟩ := GetServiceTime_pos ln cfg s.events em st hst hm hln h.2.2.1
  have h0 : InvSched
      { s with
        events := em
        customerID := s.customerID + 1
        state := { s.state with TotalCustomers := s.state.TotalCustomers + 1 } } := by
    obtain ⟨a, b, _, d⟩ := h
    unfold pending at a b
    unfold InvSched pending
    simp only
    rw [hel]
    exact ⟨a, b, hv, d⟩
  obtain ⟨p1, p2, p3, p4, p5⟩ := place_invSched cfg _
    { ID := s.customerID, ArrivalTime := s.state.Clock, ServiceTime := st,
      ServiceStart := 0, ExitTime := 0, Status := CustomerStatus.CustomerWaiting } h0 hpos
  obtain ⟨q1, q2⟩ := scheduleNext_invSched ln cfg _ s1 hr hln p1 h2
  rw [q2]
  exact ⟨q1, p2, p3, p4, p5⟩

theorem processDeparture_invSched (s : DiscreteEventSimulator) (c : Option Customer)
    (h : InvSched s) :
    InvSched (s.processDeparture c) ∧ (s.processDeparture c).state.Clock = s.state.Clock ∧
    (s.processDeparture c).state.LastEventTime = s.state.LastEventTime ∧
    (s.processDeparture c).state.AreaUnderQ = s.state.AreaUnderQ ∧
    (s.processDeparture c).state.AreaUnderB = s.state.AreaUnderB := by
  obtain ⟨h1, h2, h3, h4⟩ := h
  unfold pending at h1 h2
  obtain ⟨_, _, _, hcase⟩ := processDeparture_spec s c
  unfold InvSched pending
  rcases hcase with ⟨n, rest, hq, hstate, hev⟩ | ⟨hq, hstate, hev⟩
  · rw [hstate, hev]
    have hn : 0 < n.ServiceTime := h4 n (by rw [hq]; exact List.mem_cons_self _ _)
    obtain ⟨a, b⟩ := ScheduleEvent_sched s.events s.state.Clock EventType.EventDeparture
      (s.state.Clock + n.ServiceTime)
      (some { n with
        ServiceStart := s.state.Clock, Status := CustomerStatus.CustomerInService })
      h1 h2 (by linarith)
    refine ⟨⟨a, b, h3, ?_⟩, rfl, rfl, rfl, rfl⟩
    intro x hx
    exact h4 x (by rw [hq]; exact List.mem_cons_of_mem _ hx)
  · rw [hstate, hev]
    exact ⟨⟨h1, h2, h3, h4⟩, rfl, rfl, rfl, rfl⟩

theorem processEvent_invSched (ln : ℚ → ℚ) (cfg : SimulationConfig)
    (s s1 : DiscreteEventSimulator) (e : Event) (hr : 0 < cfg.ArrivalRate)
    (hm : 0 < cfg.ServiceRate) (hln : LogNegative ln) (h : InvSched s)
    (hs : s.processEvent ln cfg e = some s1) :
    InvSched s1 ∧ s1.state.Clock = s.state.Clock ∧
    s1.state.LastEventTime = s.state.LastEventTime ∧
    s1.state.AreaUnderQ = s.state.AreaUnderQ ∧ s1.state.AreaUnderB = s.state.AreaUnderB := by
  unfold DiscreteEventSimulator.processEvent at hs
  split at hs
  · exact processArrival_invSched ln cfg s s1 hr hm hln h hs
  · simp only [Option.some.injEq] at hs
    rw [← hs]
    exact processDeparture_invSched s e.Customer h
  · simp only [Option.some.injEq] at hs
    rw [← hs]
    exact ⟨h, rfl, rfl, rfl, rfl⟩

theorem integralQ_flushArgs (s : DiscreteEventSimulator) (dt : ℚ) :
    integralQ (flushArgs s dt) = if dt > 0 then (s.state.Queue.length : ℚ) * dt else 0 := by
  unfold integralQ flushArgs
  split <;> simp

theorem integralB_flushArgs (s : DiscreteEventSimulator) (dt : ℚ) :
    integralB (flushArgs s dt) = if dt > 0 ∧ s.state.ServerBusy = true then dt else 0 := by
  unfold integralB flushArgs
  by_cases h : dt > 0
  · cases hb : s.state.ServerBusy <;> simp [h]
  · simp [h]

theorem Covers_flushArgs (s : DiscreteEventSimulator) (t : ℚ)
    (h : s.state.LastEventTime ≤ t) :
    Covers s.state.LastEventTime t (flushArgs s (t - s.state.LastEventTime)) := by
  unfold flushArgs
  split
  · next hpos =>
    simp only [Covers]
    refine ⟨trivial, by linarith, by ring⟩
  · next hneg =>
    simp only [Covers]
    linarith

theorem Applies_invTime (ln : ℚ → ℚ) (cfg : SimulationConfig)
    (s s1 : DiscreteEventSimulator) (e : Event) (hr : 0 < cfg.ArrivalRate)
    (hm : 0 < cfg.ServiceRate) (hln : LogNegative ln) (hinv : InvTime cfg s)
    (h : Applies ln cfg s e s1) :
    InvTime cfg s1 ∧ s.state.Clock ≤ e.Timestamp ∧ s1.state.Clock = e.Timestamp ∧
    s1.state.AreaUnderQ = s.state.AreaUnderQ
      + integralQ (flushArgs s (e.Timestamp - s.state.LastEventTime)) ∧
    s1.state.AreaUnderB = s.state.AreaUnderB
      + integralB (flushArgs s (e.Timestamp - s.state.LastEventTime)) ∧
    Covers s.state.Clock s1.state.Clock
      (flushArgs s (e.Timestamp - s.state.LastEventTime)) := by
  obtain ⟨s3, hs3, rfl, hperm, h0⟩ := Applies_unfold ln cfg s s1 e h
  obtain ⟨⟨i1, i2, i3, i4⟩, hlast, hb0, hb1, _⟩ := hinv
  have hT : e.Timestamp ≤ cfg.SimulationTime := not_lt.1 h.2.1
  have hclock : s.state.Clock ≤ e.Timestamp :=
    i2 e (hperm.symm.subset (List.mem_cons_self _ _))
  have hpre : InvSched
      { s.flush (e.Timestamp - s.state.LastEventTime) with
        events := { s.events with eventList := s.events.eventList.Pop.2 }
        state := { (s.flush (e.Timestamp - s.state.LastEventTime)).state with
          Clock := e.Timestamp } } := by
    unfold InvSched pending
    simp only [flush_state]
    refine ⟨EventList_Pop_isHeap _ i1, ?_, i3, i4⟩
    intro x hx
    exact heap_root_min _ i1 e h0 x (hperm.symm.subset (List.mem_cons_of_mem _ hx))
  obtain ⟨q1, q2, q3, q4, q5⟩ := processEvent_invSched ln cfg _ s3 e hr hm hln hpre hs3
  simp only [flush_state] at q2 q3 q4 q5
  rw [integralQ_flushArgs, integralB_flushArgs]
  have hcov := Covers_flushArgs s e.Timestamp (by rw [hlast]; exact hclock)
  rw [hlast] at hcov
  refine ⟨⟨q1, ?_, ?_, ?_, ?_⟩, hclock, q2, q4, q5, ?_⟩
  · rfl
  · show 0 ≤ s3.state.AreaUnderB
    rw [q5]
    split
    · next hc => linarith [hc.1]
    · linarith
  · show s3.state.AreaUnderB ≤ s3.state.Clock
    rw [q5, q2]
    split
    · linarith
    · linarith
  · intro _
    show s3.state.Clock ≤ cfg.SimulationTime
    rw [q2]
    exact hT
  · show Covers s.state.Clock s3.state.Clock _
    rw [q2, hlast]
    exact hcov

theorem Initialize_invTime (ln : ℚ → ℚ) (src : Int → List ℚ) (now : Int)
    (cfg : SimulationConfig) (s0 : DiscreteEventSimulator) (hr : 0 < cfg.ArrivalRate)
    (hln : LogNegative ln) (hsrc : ∀ seed, ValidStream (src seed))
    (h : (NewSimulator src now cfg).Initialize ln cfg = some s0) : InvTime cfg s0 := by
  obtain ⟨t, em, ht, hst, _, _, _, hev⟩ := Initialize_spec ln cfg _ s0 h
  have hel := GetInterarrivalTime_eventList ln cfg _ em t ht
  have hv0 : ValidStream (NewSimulator src now cfg).events.rng := hsrc _
  obtain ⟨hpos, hv⟩ := GetInterarrivalTime_pos ln cfg _ em t ht hr hln hv0
  have hnil : em.eventList.events = [] := by
    rw [hel]
    exact NewSimulator_pending src now cfg
  obtain ⟨a, b⟩ := ScheduleEvent_sched em 0 EventType.EventArrival t none
    (by rw [hnil]; exact isHeap_nil) (by rw [hnil]; intro x hx; simp at hx) (le_of_lt hpos)
  unfold InvTime InvSched pending
  rw [hst, hev]
  refine ⟨⟨a, b, hv, ?_⟩, rfl, le_refl _, le_refl _, fun h0 => h0⟩
  intro c hc
  simp [initialState] at hc

theorem Reachable_invTime (ln : ℚ → ℚ) (src : Int → List ℚ) (now : Int)
    (cfg : SimulationConfig) (s : DiscreteEventSimulator) (hr : 0 < cfg.ArrivalRate)
    (hm : 0 < cfg.ServiceRate) (hln : LogNegative ln) (hsrc : ∀ seed, ValidStream (src seed))
    (h : Reachable ln src now cfg s) : InvTime cfg s := by
  induction h with
  | init s0 h0 => exact Initialize_invTime ln src now cfg s0 hr hln hsrc h0
  | step s s1 e _ hstep ih => exact (Applies_invTime ln cfg s s1 e hr hm hln ih hstep).1

theorem appliedTimestamps_sorted (ln : ℚ → ℚ) (cfg : SimulationConfig)
    (hr : 0 < cfg.ArrivalRate) (hm : 0 < cfg.ServiceRate) (hln : LogNegative ln) :
    ∀ (n : Nat) (s : DiscreteEventSimulator), InvTime cfg s →
      List.Pairwise (fun a b : ℚ => a ≤ b) (appliedTimestamps ln cfg n s) ∧
      ∀ t ∈ appliedTimestamps ln cfg n s, s.state.Clock ≤ t := by
  intro n
  induction n with
  | zero =>
    intro s _
    simp [appliedTimestamps]
  | succ n ih =>
    intro s hinv
    simp only [appliedTimestamps]
    split
    · simp
    · next e he =>
      split
      · simp
      · next hT =>
        split
        · simp
        · next s1 hs1 =>
          obtain ⟨i1, i2, i3, _⟩ := Applies_invTime ln cfg s s1 e hr hm hln hinv ⟨he, hT, hs1⟩
          obtain ⟨j1, j2⟩ := ih s1 i1
          rw [i3] at j2
          refine ⟨List.pairwise_cons.2 ⟨j2, j1⟩, ?_⟩
          intro t ht
          rcases List.mem_cons.1 ht with rfl | ht2
          · exact i2
          · exact le_trans i2 (j2 t ht2)

theorem demoLn_negative : LogNegative demoLn := by
  intro x _ h1
  simp only [demoLn]
  linarith

theorem demoSrc_valid : ∀ seed, ValidStream (demoSrc seed) := by
  intro seed u hu
  simp only [demoSrc, List.mem_cons, List.mem_singleton, List.not_mem_nil, or_false] at hu
  rcases hu with h | h | h | h | h | h | h | h | h | h <;> rw [h] <;> norm_num

/-- C2. With positive arrival and service rates, for every stream of draws
(each in `[0, 1)`, as `rand.Float64` returns them), the timestamps of the
events that `Run` pops and applies after `Initialize` are non-decreasing;
equivalently every applied event sets the clock to its timestamp and the clock
never decreases from one applied event to the next. -/
theorem applied_timestamps_nondecreasing (ln : ℚ → ℚ) (src : Int → List ℚ) (now : Int)
    (cfg : SimulationConfig) (hr : 0 < cfg.ArrivalRate) (hm : 0 < cfg.ServiceRate)
    (hln : LogNegative ln) (hsrc : ∀ seed, ValidStream (src seed)) :
    (∀ s0, (NewSimulator src now cfg).Initialize ln cfg = some s0 →
      ∀ n, List.Pairwise (fun a b : ℚ => a ≤ b) (appliedTimestamps ln cfg n s0)) ∧
    (∀ s e s1, Reachable ln src now cfg s → Applies ln cfg s e s1 →
      s1.state.Clock = e.Timestamp ∧ s.state.Clock ≤ s1.state.Clock) := by
  constructor
  · intro s0 h0 n
    exact (appliedTimestamps_sorted ln cfg hr hm hln n s0
      (Initialize_invTime ln src now cfg s0 hr hln hsrc h0)).1
  · intro s e s1 hreach hstep
    obtain ⟨_, i2, i3, _⟩ := Applies_invTime ln cfg s s1 e hr hm hln
      (Reachable_invTime ln src now cfg s hr hm hln hsrc hreach) hstep
    exact ⟨i3, by rw [i3]; exact i2⟩

/-- Witness of C2: the four events applied in the demo run. -/
theorem applied_timestamps_nondecreasing_witness :
    0 < demoConfig.ArrivalRate ∧ 0 < demoConfig.ServiceRate ∧
    appliedTimestamps demoLn demoConfig 10 demoInit = [1 / 2, 1, 5 / 4, 3 / 2] ∧
    List.Pairwise (fun a b : ℚ => a ≤ b) (appliedTimestamps demoLn demoConfig 10 demoInit) :=
  ⟨by decide!, by decide!, by decide!,
    (applied_timestamps_nondecreasing demoLn demoSrc 0 demoConfig (by decide!) (by decide!)
      demoLn_negative demoSrc_valid).1 demoInit demoInit_eq 10⟩

/-! ## The time integrals -/

theorem Covers_append : ∀ (l1 l2 : List Interval) (a b c : ℚ),
    Covers a b l1 → Covers b c l2 → Covers a c (l1 ++ l2) := by
  intro l1
  induction l1 with
  | nil =>
    intro l2 a b c h1 h2
    simp only [Covers] at h1
    rw [h1]
    exact h2
  | cons iv l1 ih =>
    intro l2 a b c h1 h2
    simp only [Covers, List.cons_append] at h1 ⊢
    exact ⟨h1.1, h1.2.1, ih l2 _ b c h1.2.2 h2⟩

theorem Covers_le : ∀ (l : List Interval) (a b : ℚ), Covers a b l →
    a ≤ b ∧ ∀ iv ∈ l, a ≤ iv.lo ∧ iv.hi ≤ b := by
  intro l
  induction l with
  | nil =>
    intro a b h
    simp only [Covers] at h
    exact ⟨le_of_eq h, fun iv hiv => by simp at hiv⟩
  | cons iv l ih =>
    intro a b h
    simp only [Covers] at h
    obtain ⟨h1, h2, h3⟩ := h
    obtain ⟨i1, i2⟩ := ih _ b h3
    refine ⟨by linarith, ?_⟩
    intro x hx
    rcases List.mem_cons.1 hx with rfl | hx2
    · exact ⟨by linarith, i1⟩
    · obtain ⟨j1, j2⟩ := i2 x hx2
      exact ⟨by linarith, j2⟩

theorem Covers_disjoint : ∀ (l : List Interval) (a b : ℚ), Covers a b l →
    List.Pairwise (fun x y : Interval => x.hi ≤ y.lo) l := by
  intro l
  induction l with
  | nil => intro a b _; exact List.Pairwise.nil
  | cons iv l ih =>
    intro a b h
    simp only [Covers] at h
    exact List.pairwise_cons.2
      ⟨fun y hy => ((Covers_le l _ b h.2.2).2 y hy).1, ih _ b h.2.2⟩

theorem Covers_totalLength : ∀ (l : List Interval) (a b : ℚ), Covers a b l →
    totalLength l = b - a := by
  intro l
  induction l with
  | nil =>
    intro a b h
    simp only [Covers] at h
    simp [totalLength, h]
  | cons iv l ih =>
    intro a b h
    simp only [Covers] at h
    have := ih _ b h.2.2
    unfold totalLength at this ⊢
    simp only [List.map_cons, List.sum_cons]
    rw [this, h.1]
    ring

theorem integralQ_append (l1 l2 : List Interval) :
    integralQ (l1 ++ l2) = integralQ l1 + integralQ l2 := by
  simp [integralQ]

theorem integralB_append (l1 l2 : List Interval) :
    integralB (l1 ++ l2) = integralB l1 + integralB l2 := by
  simp [integralB]

theorem integralQ_nonneg (l : List Interval) (h : ∀ iv ∈ l, iv.lo ≤ iv.hi) :
    0 ≤ integralQ l := by
  unfold integralQ
  apply List.sum_nonneg
  intro x hx
  obtain ⟨iv, hiv, rfl⟩ := List.mem_map.1 hx
  exact mul_nonneg (Nat.cast_nonneg _) (by linarith [h iv hiv])

theorem integralB_nonneg (l : List Interval) (h : ∀ iv ∈ l, iv.lo ≤ iv.hi) :
    0 ≤ integralB l := by
  unfold integralB
  apply List.sum_nonneg
  intro x hx
  obtain ⟨iv, hiv, rfl⟩ := List.mem_map.1 hx
  have := h iv hiv
  split
  · exact sub_nonneg.2 this
  · exact le_refl _

theorem flushArgs_ordered (s : DiscreteEventSimulator) (dt : ℚ) :
    ∀ iv ∈ flushArgs s dt, iv.lo ≤ iv.hi := by
  intro iv hiv
  unfold flushArgs at hiv
  split at hiv
  · rw [List.mem_singleton.1 hiv]
    simp only
    linarith
  · simp at hiv

theorem runLoop_invTime (ln : ℚ → ℚ) (src : Int → List ℚ) (now : Int)
    (cfg : SimulationConfig) (hr : 0 < cfg.ArrivalRate) (hm : 0 < cfg.ServiceRate)
    (hln : LogNegative ln) :
    ∀ (fuel : Nat) (s s1 : DiscreteEventSimulator), InvTime cfg s →
      Reachable ln src now cfg s →
      DiscreteEventSimulator.runLoop ln cfg fuel s = some s1 →
      InvTime cfg s1 ∧ Reachable ln src now cfg s1 ∧
      Covers s.state.Clock s1.state.Clock (loopIntervals ln cfg fuel s) ∧
      s1.state.AreaUnderQ = s.state.AreaUnderQ + integralQ (loopIntervals ln cfg fuel s) ∧
      s1.state.AreaUnderB = s.state.AreaUnderB + integralB (loopIntervals ln cfg fuel s) := by
  intro fuel
  induction fuel with
  | zero =>
    intro s s1 _ _ h
    simp [DiscreteEventSimulator.runLoop] at h
  | succ fuel ih =>
    intro s s1 hinv hreach h
    simp only [DiscreteEventSimulator.runLoop] at h
    simp only [loopIntervals]
    cases he : s.events.PeekNextEvent with
    | none =>
      simp only [he, Option.some.injEq] at h ⊢
      subst h
      simp [Covers, integralQ, integralB, hinv, hreach]
    | some e =>
      simp only [he] at h ⊢
      by_cases hT : e.Timestamp > cfg.SimulationTime
      · simp only [hT, if_true, Option.some.injEq] at h ⊢
        subst h
        simp [Covers, integralQ, integralB, hinv, hreach]
      · simp only [hT, if_false] at h ⊢
        cases hs2 : s.runBody ln cfg e with
        | none => simp [hs2] at h
        | some s2 =>
          simp only [hs2] at h ⊢
          obtain ⟨i1, _, _, i4, i5, i6⟩ :=
            Applies_invTime ln cfg s s2 e hr hm hln hinv ⟨he, hT, hs2⟩
          obtain ⟨j1, j2, j3, j4, j5⟩ :=
            ih s2 s1 i1 (Reachable.step s s2 e hreach ⟨he, hT, hs2⟩) h
          refine ⟨j1, j2, Covers_append _ _ _ _ _ i6 j3, ?_, ?_⟩
          · rw [j4, i4, integralQ_append]; ring
          · rw [j5, i5, integralB_append]; ring

theorem runFinal_spec (cfg : SimulationConfig) (s : DiscreteEventSimulator)
    (hinv : InvTime cfg s) :
    (s.runFinal cfg).state.AreaUnderQ = s.state.AreaUnderQ + integralQ (finalIntervals cfg s) ∧
    (s.runFinal cfg).state.AreaUnderB = s.state.AreaUnderB + integralB (finalIntervals cfg s) ∧
    0 ≤ (s.runFinal cfg).state.AreaUnderB ∧
    (s.runFinal cfg).state.AreaUnderB ≤ (s.runFinal cfg).state.Clock ∧
    (0 ≤ cfg.SimulationTime →
      (s.runFinal cfg).state.Clock = cfg.SimulationTime ∧
      Covers s.state.Clock cfg.SimulationTime (finalIntervals cfg s)) := by
  obtain ⟨_, hlast, hb0, hb1, hT⟩ := hinv
  unfold DiscreteEventSimulator.runFinal finalIntervals
  split
  · next hlt =>
    have hcov : Covers s.state.Clock cfg.SimulationTime
        (flushArgs s (cfg.SimulationTime - s.state.LastEventTime)) := by
      have h1 := Covers_flushArgs s cfg.SimulationTime (by rw [hlast]; exact le_of_lt hlt)
      rw [hlast] at h1 ⊢
      exact h1
    rw [integralQ_flushArgs, integralB_flushArgs]
    refine ⟨?_, ?_, ?_, ?_, fun _ => ⟨rfl, hcov⟩⟩
    · simp only [flush_state]
    · simp only [flush_state]
    · simp only [flush_state]
      split
      · next hc => linarith [hc.1]
      · linarith
    · simp only [flush_state]
      rw [hlast]
      split
      · linarith
      · linarith
  · next hge =>
    refine ⟨by simp [integralQ], by simp [integralB], hb0, hb1, fun h0 => ?_⟩
    have : s.state.Clock = cfg.SimulationTime := le_antisymm (hT h0) (not_lt.1 hge)
    exact ⟨this, by simp only [Covers]; exact this⟩

theorem processEvent_frame (ln : ℚ → ℚ) (cfg : SimulationConfig)
    (s s1 : DiscreteEventSimulator) (e : Event) (hs : s.processEvent ln cfg e = some s1) :
    s1.state.Clock = s.state.Clock ∧ s1.state.LastEventTime = s.state.LastEventTime ∧
    s1.state.AreaUnderQ = s.state.AreaUnderQ ∧ s1.state.AreaUnderB = s.state.AreaUnderB := by
  unfold DiscreteEventSimulator.processEvent at hs
  split at hs
  · obtain ⟨st, em, _, h2⟩ := processArrival_spec ln cfg s s1 hs
    obtain ⟨_, _, _, hstate, _⟩ := scheduleNext_spec ln cfg _ s1 h2
    rw [hstate]
    obtain ⟨_, _, _, hcase⟩ := place_spec cfg
      { s with
        events := em
        customerID := s.customerID + 1
        state := { s.state with TotalCustomers := s.state.TotalCustomers + 1 } }
      { ID := s.customerID, ArrivalTime := s.state.Clock, ServiceTime := st,
        ServiceStart := 0, ExitTime := 0, Status := CustomerStatus.CustomerWaiting }
    rcases hcase with ⟨_, h3, _⟩ | ⟨_, _, h3, _⟩ | ⟨_, _, h3, _⟩ <;> rw [h3] <;>
      exact ⟨rfl, rfl, rfl, rfl⟩
  · simp only [Option.some.injEq] at hs
    rw [← hs]
    obtain ⟨_, _, _, hcase⟩ := processDeparture_spec s e.Customer
    rcases hcase with ⟨n, rest, _, h3, _⟩ | ⟨_, h3, _⟩ <;> rw [h3] <;>
      exact ⟨rfl, rfl, rfl, rfl⟩
  · simp only [Option.some.injEq] at hs
    rw [← hs]
    exact ⟨rfl, rfl, rfl, rfl⟩

theorem Applies_areas (ln : ℚ → ℚ) (cfg : SimulationConfig)
    (s s1 : DiscreteEventSimulator) (e : Event) (h : Applies ln cfg s e s1) :
    s1.state.Clock = e.Timestamp ∧
    s1.state.AreaUnderQ = s.state.AreaUnderQ
      + integralQ (flushArgs s (e.Timestamp - s.state.LastEventTime)) ∧
    s1.state.AreaUnderB = s.state.AreaUnderB
      + integralB (flushArgs s (e.Timestamp - s.state.LastEventTime)) := by
  obtain ⟨s3, hs3, rfl, _, _⟩ := Applies_unfold ln cfg s s1 e h
  obtain ⟨q2, _, q4, q5⟩ := processEvent_frame ln cfg _ s3 e hs3
  simp only [flush_state] at q2 q4 q5
  rw [integralQ_flushArgs, integralB_flushArgs]
  exact ⟨q2, q4, q5⟩

theorem Applies_invLite (ln : ℚ → ℚ) (cfg : SimulationConfig)
    (s s1 : DiscreteEventSimulator) (e : Event) (h : Applies ln cfg s e s1)
    (hinv : InvLite cfg s) : InvLite cfg s1 := by
  obtain ⟨a1, _, a3⟩ := Applies_areas ln cfg s s1 e h
  have hb := integralB_nonneg _ (flushArgs_ordered s (e.Timestamp - s.state.LastEventTime))
  refine ⟨by rw [a3]; linarith [hinv.1], fun _ => ?_⟩
  rw [a1]
  exact not_lt.1 h.2.1

theorem Reachable_invLite (ln : ℚ → ℚ) (src : Int → List ℚ) (now : Int)
    (cfg : SimulationConfig) (s : DiscreteEventSimulator)
    (h : Reachable ln src now cfg s) : InvLite cfg s := by
  induction h with
  | init s0 h0 =>
    obtain ⟨_, _, _, hst, _⟩ := Initialize_spec ln cfg _ s0 h0
    unfold InvLite
    rw [hst]
    exact ⟨le_refl _, fun h => h⟩
  | step s s1 e _ hstep ih => exact Applies_invLite ln cfg s s1 e hstep ih

theorem runLoop_areas (ln : ℚ → ℚ) (src : Int → List ℚ) (now : Int)
    (cfg : SimulationConfig) :
    ∀ (fuel : Nat) (s s1 : DiscreteEventSimulator), Reachable ln src now cfg s →
      DiscreteEventSimulator.runLoop ln cfg fuel s = some s1 →
      Reachable ln src now cfg s1 ∧
      s1.state.AreaUnderQ = s.state.AreaUnderQ + integralQ (loopIntervals ln cfg fuel s) ∧
      s1.state.AreaUnderB = s.state.AreaUnderB + integralB (loopIntervals ln cfg fuel s) := by
  intro fuel
  induction fuel with
  | zero =>
    intro s s1 _ h
    simp [DiscreteEventSimulator.runLoop] at h
  | succ fuel ih =>
    intro s s1 hreach h
    simp only [DiscreteEventSimulator.runLoop] at h
    simp only [loopIntervals]
    cases he : s.events.PeekNextEvent with
    | none =>
      simp only [he, Option.some.injEq] at h ⊢
      subst h
      simp [integralQ, integralB, hreach]
    | some e =>
      simp only [he] at h ⊢
      by_cases hT : e.Timestamp > cfg.SimulationTime
      · simp only [hT, if_true, Option.some.injEq] at h ⊢
        subst h
        simp [integralQ, integralB, hreach]
      · simp only [hT, if_false] at h ⊢
        cases hs2 : s.runBody ln cfg e with
        | none => simp [hs2] at h
        | some s2 =>
          simp only [hs2] at h ⊢
          obtain ⟨_, i4, i5⟩ := Applies_areas ln cfg s s2 e ⟨he, hT, hs2⟩
          obtain ⟨j2, j4, j5⟩ := ih s2 s1 (Reachable.step s s2 e hreach ⟨he, hT, hs2⟩) h
          refine ⟨j2, ?_, ?_⟩
          · rw [j4, i4, integralQ_append]; ring
          · rw [j5, i5, integralB_append]; ring

theorem finalIntervals_ordered (cfg : SimulationConfig) (s : DiscreteEventSimulator) :
    ∀ iv ∈ finalIntervals cfg s, iv.lo ≤ iv.hi := by
  intro iv hiv
  unfold finalIntervals at hiv
  split at hiv
  · exact flushArgs_ordered _ _ iv hiv
  · simp at hiv

theorem runFinal_areas (cfg : SimulationConfig) (s : DiscreteEventSimulator) :
    (s.runFinal cfg).state.AreaUnderQ = s.state.AreaUnderQ + integralQ (finalIntervals cfg s) ∧
    (s.runFinal cfg).state.AreaUnderB = s.state.AreaUnderB + integralB (finalIntervals cfg s) ∧
    (InvLite cfg s → 0 ≤ cfg.SimulationTime →
      (s.runFinal cfg).state.Clock = cfg.SimulationTime) := by
  unfold DiscreteEventSimulator.runFinal finalIntervals
  split
  · rw [integralQ_flushArgs, integralB_flushArgs]
    refine ⟨?_, ?_, fun _ _ => rfl⟩
    · simp only [flush_state]
    · simp only [flush_state]
  · next hge =>
    refine ⟨by simp [integralQ], by simp [integralB], fun hinv h0 => ?_⟩
    exact le_antisymm (hinv.2 h0) (not_lt.1 hge)

/-- C8, as the code has it. Along every execution of `Run` after `Initialize`
both integrals never decrease from one applied event to the next or in the
final flush, and `AreaUnderB` is never negative; for a configuration with
positive arrival and service rates, moreover `AreaUnderB ≤ Clock` after every
applied event and when `Run` returns. -/
theorem areas_nondecreasing_bounded (ln : ℚ → ℚ) (src : Int → List ℚ) (now : Int)
    (cfg : SimulationConfig) :
    (∀ s, Reachable ln src now cfg s →
      0 ≤ s.state.AreaUnderB ∧
      (∀ e s1, Applies ln cfg s e s1 →
        s.state.AreaUnderQ ≤ s1.state.AreaUnderQ ∧
        s.state.AreaUnderB ≤ s1.state.AreaUnderB) ∧
      s.state.AreaUnderQ ≤ (s.runFinal cfg).state.AreaUnderQ ∧
      s.state.AreaUnderB ≤ (s.runFinal cfg).state.AreaUnderB) ∧
    (0 < cfg.ArrivalRate → 0 < cfg.ServiceRate → LogNegative ln →
      (∀ seed, ValidStream (src seed)) →
      (∀ s, Reachable ln src now cfg s → s.state.AreaUnderB ≤ s.state.Clock) ∧
      (∀ s0 fuel sF, (NewSimulator src now cfg).Initialize ln cfg = some s0 →
        s0.Run ln cfg fuel = some sF →
        0 ≤ sF.state.AreaUnderB ∧ sF.state.AreaUnderB ≤ sF.state.Clock)) := by
  constructor
  · intro s hreach
    refine ⟨(Reachable_invLite ln src now cfg s hreach).1, ?_, ?_⟩
    · intro e s1 hstep
      obtain ⟨_, i4, i5⟩ := Applies_areas ln cfg s s1 e hstep
      have h1 := integralQ_nonneg _ (flushArgs_ordered s (e.Timestamp - s.state.LastEventTime))
      have h2 := integralB_nonneg _ (flushArgs_ordered s (e.Timestamp - s.state.LastEventTime))
      exact ⟨by linarith, by linarith⟩
    · obtain ⟨f1, f2, _⟩ := runFinal_areas cfg s
      have h1 := integralQ_nonneg _ (finalIntervals_ordered cfg s)
      have h2 := integralB_nonneg _ (finalIntervals_ordered cfg s)
      exact ⟨by linarith, by linarith⟩
  · intro hr hm hln hsrc
    constructor
    · intro s hreach
      exact (Reachable_invTime ln src now cfg s hr hm hln hsrc hreach).2.2.2.1
    · intro s0 fuel sF h0 hrun
      unfold DiscreteEventSimulator.Run at hrun
      split at hrun
      · simp at hrun
      · next s1 hs1 =>
        simp only [Option.some.injEq] at hrun
        subst hrun
        obtain ⟨j1, _⟩ := runLoop_invTime ln src now cfg hr hm hln fuel s0 s1
          (Initialize_invTime ln src now cfg s0 hr hln hsrc h0) (Reachable.init s0 h0) hs1
        obtain ⟨_, _, f3, f4, _⟩ := runFinal_spec cfg s1 j1
        exact ⟨f3, f4⟩

/-- Witness of C8 as amended: the demo run at its return. -/
theorem areas_nondecreasing_bounded_witness :
    0 < demoConfig.ArrivalRate ∧ 0 < demoConfig.ServiceRate ∧
    demoFinal.state.AreaUnderB = 5 / 4 ∧ demoFinal.state.Clock = 2 ∧
    0 ≤ demoFinal.state.AreaUnderB ∧ demoFinal.state.AreaUnderB ≤ demoFinal.state.Clock :=
  ⟨by decide!, by decide!, by decide!, by decide!,
    ((areas_nondecreasing_bounded demoLn demoSrc 0 demoConfig).2 (by decide!) (by decide!)
      demoLn_negative demoSrc_valid).2 demoInit 10 demoFinal demoInit_eq (by decide!)⟩

/-- C8, counterexample. With the negative service rate of `badConfig` the
departure of the first customer is scheduled at `-1`; once it is applied the
clock is `-1` while `AreaUnderB` is `0`. -/
theorem area_exceeds_clock :
    Reachable demoLn demoSrc 0 badConfig (stateAfter demoLn demoSrc 0 badConfig 2) ∧
    (stateAfter demoLn demoSrc 0 badConfig 2).state.Clock = -1 ∧
    (stateAfter demoLn demoSrc 0 badConfig 2).state.AreaUnderB = 0 ∧
    (stateAfter demoLn demoSrc 0 badConfig 2).state.Clock
      < (stateAfter demoLn demoSrc 0 badConfig 2).state.AreaUnderB :=
  ⟨stateAfter_reachable demoLn demoSrc 0 badConfig 2 (by decide!) (by decide!),
    by decide!, by decide!, by decide!⟩

/-- C9, counterexample. With the negative service rate of `badConfig` and
horizon `3/2`, `Run` returns after passing the intervals `[0, 1]` and
`[-1, 3/2]` to the integral update: they overlap and their lengths sum to
`7/2`. -/
theorem run_intervals_overlap :
    0 < badConfig.SimulationTime ∧
    ((initState demoLn demoSrc 0 badConfig).Run demoLn badConfig 10).isSome = true ∧
    runIntervals demoLn badConfig 10 (initState demoLn demoSrc 0 badConfig) =
      [{ lo := 0, hi := 1, queueLength := 0, busy := false },
       { lo := -1, hi := 3 / 2, queueLength := 0, busy := false }] ∧
    totalLength (runIntervals demoLn badConfig 10 (initState demoLn demoSrc 0 badConfig))
      = 7 / 2 ∧
    badConfig.SimulationTime = 3 / 2 := by
  decide!

/-- C10, the code at the failing input. After the first step of the manual
driver the server is busy since time `1/4` and the next event is the arrival
at time `1/2`. The loop body of `Run` and the manual step leave the same clock
and the same pending events, but the loop body adds `1/4` to `AreaUnderB` and
the manual step adds it twice. -/
theorem manual_step_counts_twice :
    manualAfter1.events.PeekNextEvent = some manualNext ∧
    manualNext.Timestamp ≤ demoConfig.SimulationTime ∧
    manualAfter1.state.ServerBusy = true ∧ manualAfter1.state.LastEventTime = 1 / 4 ∧
    manualAfter1.state.AreaUnderB = 0 ∧
    (manualAfter1.runBody demoLn demoConfig manualNext).map
      (fun s => s.state.AreaUnderB) = some (1 / 4) ∧
    (runManualSimulation.step demoLn demoConfig manualAfter1).map
      (fun s => s.state.AreaUnderB) = some (1 / 2) ∧
    (manualAfter1.runBody demoLn demoConfig manualNext).map
      (fun s => (s.state.Clock, s.events, s.state.Queue)) =
    (runManualSimulation.step demoLn demoConfig manualAfter1).map
      (fun s => (s.state.Clock, s.events, s.state.Queue)) := by
  decide!

/-! ## The integral update -/

/-- C20. `UpdatePreEvent` with a positive `dt` adds `len(Queue) * dt` to
`AreaUnderQ`, adds `dt` to `AreaUnderB` exactly when the server is busy,
raises the running maximum queue length to the larger of its old value and
`len(Queue)`, and leaves every other field of the state and of the collector
as it was; with `dt ≤ 0` it changes nothing. -/
theorem UpdatePreEvent_effect (sc : EnhancedStatisticsCollector) (state : SystemState)
    (dt : ℚ) :
    (0 < dt →
      (sc.UpdatePreEvent state dt).2 =
        { state with
          AreaUnderQ := state.AreaUnderQ + (state.Queue.length : ℚ) * dt
          AreaUnderB := if state.ServerBusy then state.AreaUnderB + dt
            else state.AreaUnderB } ∧
      (sc.UpdatePreEvent state dt).1 =
        { sc with maxQueueLength := max sc.maxQueueLength (state.Queue.length : Int) } ∧
      (state.Queue.length : Int) ≤ (sc.UpdatePreEvent state dt).1.maxQueueLength) ∧
    (dt ≤ 0 → sc.UpdatePreEvent state dt = (sc, state)) := by
  constructor
  · intro hdt
    have hn : ¬ dt ≤ 0 := not_le.2 hdt
    unfold EnhancedStatisticsCollector.UpdatePreEvent
    simp only [hn, if_false]
    refine ⟨?_, ?_, ?_⟩
    · cases hb : state.ServerBusy <;> simp
    · by_cases hq : (state.Queue.length : Int) > sc.maxQueueLength
      · simp only [hq, if_true]
        rw [max_eq_right (le_of_lt hq)]
      · simp only [hq, if_false]
        rw [max_eq_left (not_lt.1 hq)]
    · by_cases hq : (state.Queue.length : Int) > sc.maxQueueLength
      · simp only [hq, if_true]
        exact le_refl _
      · simp only [hq, if_false]
        exact not_lt.1 hq
  · intro hdt
    unfold EnhancedStatisticsCollector.UpdatePreEvent
    simp only [hdt, if_true]

/-! ## Percentiles -/

theorem sliceAt_inRange (data : List ℚ) (i : Int) (h0 : 0 ≤ i) (h1 : i < (data.length : Int)) :
    ∃ v, sliceAt data i = some v ∧ data[i.toNat]? = some v ∧ v ∈ data := by
  have hlt : i.toNat < data.length := (Int.toNat_lt h0).2 h1
  refine ⟨data[i.toNat], ?_, List.getElem?_eq_getElem hlt, List.getElem_mem _⟩
  unfold sliceAt
  rw [if_neg (not_lt.2 h0)]
  exact List.getElem?_eq_getElem hlt

theorem sorted_getElem?_le (data : List ℚ) (hs : List.Sorted (fun a b : ℚ => a ≤ b) data)
    (i j : Nat) (a b : ℚ) (hij : i ≤ j) (ha : data[i]? = some a) (hb : data[j]? = some b) :
    a ≤ b := by
  obtain ⟨hi, rfl⟩ := List.getElem?_eq_some.1 ha
  obtain ⟨hj, rfl⟩ := List.getElem?_eq_some.1 hb
  rcases Nat.lt_or_ge i j with hlt | hge
  · exact (List.pairwise_iff_getElem.1 hs) i j hi hj hlt
  · have : i = j := le_antisymm hij hge
    subst this
    exact le_refl _

theorem rank_bounds (n : Nat) (p : ℚ) (hn : 0 < n) (hp0 : 0 ≤ p) (hp1 : p ≤ 1) :
    p * (((n : Int) - 1 : Int) : ℚ) = percentileRank n p ∧
    0 ≤ ⌊percentileRank n p⌋ ∧ ⌊percentileRank n p⌋ ≤ ⌈percentileRank n p⌉ ∧
    ⌈percentileRank n p⌉ < (n : Int) := by
  have hn1 : (1 : ℚ) ≤ (n : ℚ) := by exact_mod_cast hn
  have e : p * (((n : Int) - 1 : Int) : ℚ) = percentileRank n p := by
    unfold percentileRank
    push_cast
    ring
  have h0 : 0 ≤ percentileRank n p := by
    unfold percentileRank
    exact mul_nonneg hp0 (by linarith)
  have h1 : percentileRank n p ≤ (((n : Int) - 1 : Int) : ℚ) := by
    unfold percentileRank
    push_cast
    nlinarith
  refine ⟨e, Int.floor_nonneg.2 h0, Int.floor_le_ceil _, ?_⟩
  have := Int.ceil_le.2 h1
  omega

theorem calculatePercentile_spec (data : List ℚ) (p : ℚ) (hne : data ≠ [])
    (hp0 : 0 ≤ p) (hp1 : p ≤ 1) :
    ∃ lo hi v,
      sliceAt data ⌊percentileRank data.length p⌋ = some lo ∧
      sliceAt data ⌈percentileRank data.length p⌉ = some hi ∧
      data[⌊percentileRank data.length p⌋.toNat]? = some lo ∧
      data[⌈percentileRank data.length p⌉.toNat]? = some hi ∧
      calculatePercentile data p = some v ∧
      ((⌊percentileRank data.length p⌋ : ℚ) = percentileRank data.length p → v = lo) ∧
      ((⌊percentileRank data.length p⌋ : ℚ) ≠ percentileRank data.length p →
        v = lo * (1 - (percentileRank data.length p - ⌊percentileRank data.length p⌋))
          + hi * (percentileRank data.length p - ⌊percentileRank data.length p⌋)) := by
  have hpos : 0 < data.length := List.length_pos.2 hne
  obtain ⟨e, hf0, hfc, hcn⟩ := rank_bounds data.length p hpos hp0 hp1
  obtain ⟨lo, hlo, hlo2, _⟩ := sliceAt_inRange data ⌊percentileRank data.length p⌋ hf0
    (by omega)
  obtain ⟨hi, hhi, hhi2, _⟩ := sliceAt_inRange data ⌈percentileRank data.length p⌉
    (by omega) hcn
  have hint : ⌊percentileRank data.length p⌋ = ⌈percentileRank data.length p⌉ ↔
      (⌊percentileRank data.length p⌋ : ℚ) = percentileRank data.length p := by
    constructor
    · intro h
      apply le_antisymm (Int.floor_le _)
      rw [h]
      exact Int.le_ceil _
    · intro h
      rw [← h, Int.ceil_intCast, Int.floor_intCast]
  unfold calculatePercentile
  rw [if_neg (by omega), e]
  by_cases hi0 : ⌊percentileRank data.length p⌋ = ⌈percentileRank data.length p⌉
  · rw [if_pos hi0]
    exact ⟨lo, hi, lo, hlo, hhi, hlo2, hhi2, hlo, fun _ => rfl,
      fun hc => absurd (hint.1 hi0) hc⟩
  · rw [if_neg hi0, hlo, hhi]
    exact ⟨lo, hi, _, rfl, rfl, hlo2, hhi2, rfl, fun hc => absurd (hint.2 hc) hi0,
      fun _ => rfl⟩

/-- C16. On a non-empty ascending list and a fraction `p` in `[0, 1]`,
`calculatePercentile` reads two slots that are in range, `floor r` and
`ceil r` for the rank `r = p * (n - 1)`, and returns the value of slot
`floor r` when `r` is an integer, else the linear interpolation with weight
`r - floor r`; the result lies between the two slot values, it is the
minimum for `p = 0` and the maximum for `p = 1`. -/
theorem calculatePercentile_interpolates (data : List ℚ) (p : ℚ) (hne : data ≠ [])
    (hs : List.Sorted (fun a b : ℚ => a ≤ b) data) (hp0 : 0 ≤ p) (hp1 : p ≤ 1) :
    ∃ lo hi v,
      sliceAt data ⌊percentileRank data.length p⌋ = some lo ∧
      sliceAt data ⌈percentileRank data.length p⌉ = some hi ∧
      calculatePercentile data p = some v ∧
      ((⌊percentileRank data.length p⌋ : ℚ) = percentileRank data.length p → v = lo) ∧
      ((⌊percentileRank data.length p⌋ : ℚ) ≠ percentileRank data.length p →
        v = lo * (1 - (percentileRank data.length p - ⌊percentileRank data.length p⌋))
          + hi * (percentileRank data.length p - ⌊percentileRank data.length p⌋)) ∧
      lo ≤ v ∧ v ≤ hi ∧
      (p = 0 → v ∈ data ∧ ∀ x ∈ data, v ≤ x) ∧
      (p = 1 → v ∈ data ∧ ∀ x ∈ data, x ≤ v) := by
  obtain ⟨lo, hi, v, h1, h2, h3, h4, h5, h6, h7⟩ := calculatePercentile_spec data p hne hp0 hp1
  have hpos : 0 < data.length := List.length_pos.2 hne
  obtain ⟨_, hf0, hfc, hcn⟩ := rank_bounds data.length p hpos hp0 hp1
  have hlohi : lo ≤ hi :=
    sorted_getElem?_le data hs _ _ lo hi (Int.toNat_le_toNat hfc) h3 h4
  have hw0 : 0 ≤ percentileRank data.length p - ⌊percentileRank data.length p⌋ := by
    linarith [Int.floor_le (percentileRank data.length p)]
  have hw1 : percentileRank data.length p - ⌊percentileRank data.length p⌋ ≤ 1 := by
    linarith [Int.lt_floor_add_one (percentileRank data.length p)]
  have hbetween : lo ≤ v ∧ v ≤ hi := by
    by_cases hi0 : (⌊percentileRank data.length p⌋ : ℚ) = percentileRank data.length p
    · rw [h6 hi0]
      exact ⟨le_refl _, hlohi⟩
    · rw [h7 hi0]
      constructor <;> nlinarith
  have hmemlo : lo ∈ data := List.mem_iff_getElem?.2 ⟨_, h3⟩
  refine ⟨lo, hi, v, h1, h2, h5, h6, h7, hbetween.1, hbetween.2, ?_, ?_⟩
  · intro hp
    have hr : percentileRank data.length p = 0 := by
      unfold percentileRank
      rw [hp, zero_mul]
    have hv : v = lo := h6 (by rw [hr]; simp)
    have hidx : ⌊percentileRank data.length p⌋.toNat = 0 := by
      rw [hr]
      simp
    rw [hidx] at h3
    rw [hv]
    refine ⟨hmemlo, ?_⟩
    intro x hx
    obtain ⟨k, hk⟩ := List.mem_iff_getElem?.1 hx
    exact sorted_getElem?_le data hs 0 k lo x (Nat.zero_le k) h3 hk
  · intro hp
    have hr : percentileRank data.length p = (((data.length : Int) - 1 : Int) : ℚ) := by
      unfold percentileRank
      rw [hp, one_mul]
      push_cast
      ring
    have hv : v = lo := h6 (by rw [hr, Int.floor_intCast])
    have hidx : ⌊percentileRank data.length p⌋.toNat = data.length - 1 := by
      rw [hr, Int.floor_intCast]
      omega
    rw [hidx] at h3
    rw [hv]
    refine ⟨hmemlo, ?_⟩
    intro x hx
    obtain ⟨k, hk⟩ := List.mem_iff_getElem?.1 hx
    have hkl : k < data.length := (List.getElem?_eq_some.1 hk).1
    exact sorted_getElem?_le data hs k (data.length - 1) x lo (by omega) hk h3

/-- Witness of C16: the samples `[1, 2, 3, 4]`, whose 50th percentile is
`5/2`, whose percentile at `p = 0` is `1` and at `p = 1` is `4`. -/
theorem calculatePercentile_interpolates_witness :
    calculatePercentile [1, 2, 3, 4] (1 / 2) = some (5 / 2) ∧
    calculatePercentile [1, 2, 3, 4] 0 = some 1 ∧
    calculatePercentile [1, 2, 3, 4] 1 = some 4 ∧
    ∃ lo hi v,
      sliceAt [1, 2, 3, 4] ⌊percentileRank [(1 : ℚ), 2, 3, 4].length (1 / 2)⌋ = some lo ∧
      sliceAt [1, 2, 3, 4] ⌈percentileRank [(1 : ℚ), 2, 3, 4].length (1 / 2)⌉ = some hi ∧
      calculatePercentile [1, 2, 3, 4] (1 / 2) = some v ∧
      ((⌊percentileRank [(1 : ℚ), 2, 3, 4].length (1 / 2)⌋ : ℚ)
          = percentileRank [(1 : ℚ), 2, 3, 4].length (1 / 2) → v = lo) ∧
      ((⌊percentileRank [(1 : ℚ), 2, 3, 4].length (1 / 2)⌋ : ℚ)
          ≠ percentileRank [(1 : ℚ), 2, 3, 4].length (1 / 2) →
        v = lo * (1 - (percentileRank [(1 : ℚ), 2, 3, 4].length (1 / 2)
              - ⌊percentileRank [(1 : ℚ), 2, 3, 4].length (1 / 2)⌋))
          + hi * (percentileRank [(1 : ℚ), 2, 3, 4].length (1 / 2)
              - ⌊percentileRank [(1 : ℚ), 2, 3, 4].length (1 / 2)⌋)) ∧
      lo ≤ v ∧ v ≤ hi ∧
      ((1 / 2 : ℚ) = 0 → v ∈ [(1 : ℚ), 2, 3, 4] ∧ ∀ x ∈ [(1 : ℚ), 2, 3, 4], v ≤ x) ∧
      ((1 / 2 : ℚ) = 1 → v ∈ [(1 : ℚ), 2, 3, 4] ∧ ∀ x ∈ [(1 : ℚ), 2, 3, 4], x ≤ v) :=
  ⟨by decide!, by decide!, by decide!,
    calculatePercentile_interpolates [1, 2, 3, 4] (1 / 2) (by decide) (by decide!)
      (by decide!) (by decide!)⟩

/-! ## The final metrics -/

theorem foldl_add_eq_sum {α : Type} (f : α → ℚ) :
    ∀ (l : List α) (a : ℚ), l.foldl (fun acc x => acc + f x) a = a + (l.map f).sum := by
  intro l
  induction l with
  | nil => intro a; simp
  | cons x l ih =>
    intro a
    simp only [List.foldl_cons, List.map_cons, List.sum_cons]
    rw [ih]
    ring

theorem metricsTimeAverages_spec (sc : EnhancedStatisticsCollector) (state : SystemState) :
    ∃ m, metricsTimeAverages sc state = some m ∧
      m.AverageQueueLength = (if state.Clock > 0 then state.AreaUnderQ / state.Clock else 0) ∧
      m.ServerUtilization = (if state.Clock > 0 then state.AreaUnderB / state.Clock else 0) ∧
      m.Throughput
        = (if state.Clock > 0 then (state.CustomersServed : ℚ) / state.Clock else 0) ∧
      m.ServerBusyTime = (if state.Clock > 0 then state.AreaUnderB else 0) ∧
      m.ServerIdleTime = (if state.Clock > 0 then state.Clock - state.AreaUnderB else 0) ∧
      m.TotalCustomers = state.TotalCustomers ∧
      m.RejectedCustomers = state.RejectedCustomers ∧
      m.MaxQueueLength = sc.maxQueueLength ∧ m.MaxWaitTime = sc.maxWaitTime ∧
      m.WaitTimePercentiles = sc.metrics.WaitTimePercentiles ∧
      m.SystemTimePercentiles = sc.metrics.SystemTimePercentiles ∧
      m.SystemTimeConfidence = sc.metrics.SystemTimeConfidence := by
  unfold metricsTimeAverages
  by_cases h : state.Clock > 0
  · have hne : state.Clock ≠ 0 := ne_of_gt h
    simp only [h, if_true, fdiv_some _ _ hne]
    exact ⟨_, rfl, rfl, rfl, rfl, rfl, rfl, rfl, rfl, rfl, rfl, rfl, rfl, rfl⟩
  · simp only [h, if_false]
    exact ⟨_, rfl, rfl, rfl, rfl, rfl, rfl, rfl, rfl, rfl, rfl, rfl, rfl, rfl⟩

theorem metricsWaitAverage_spec (state : SystemState) (m : ComprehensiveMetrics) :
    metricsWaitAverage state m =
      some { m with
        AverageWaitTime := if state.CustomersServed > 0
          then state.TotalDelay / (state.CustomersServed : ℚ) else 0 } := by
  unfold metricsWaitAverage
  by_cases h : state.CustomersServed > 0
  · have hne : (state.CustomersServed : ℚ) ≠ 0 := by
      have : (0 : ℚ) < (state.CustomersServed : ℚ) := by exact_mod_cast h
      exact ne_of_gt this
    simp only [h, if_true, fdiv_some _ _ hne]
  · simp only [h, if_false]

theorem metricsSystemAverage_spec (sc : EnhancedStatisticsCollector)
    (m : ComprehensiveMetrics) :
    metricsSystemAverage sc m =
      some { m with
        AverageSystemTime := if sc.customerStats.length > 0
          then (sc.customerStats.map (fun st => st.SystemTime)).sum
            / (sc.customerStats.length : ℚ)
          else 0
        AverageInSystem := m.AverageQueueLength + m.ServerUtilization } := by
  unfold metricsSystemAverage
  by_cases h : sc.customerStats.length > 0
  · have hne : (sc.customerStats.length : ℚ) ≠ 0 := by
      have : (0 : ℚ) < (sc.customerStats.length : ℚ) := by exact_mod_cast h
      exact ne_of_gt this
    simp only [h, if_true, fdiv_some _ _ hne, foldl_add_eq_sum, zero_add]
  · simp only [h, if_false]

theorem metricsQueueProbability_spec (cfg : SimulationConfig) (state : SystemState)
    (m : ComprehensiveMetrics) :
    metricsQueueProbability cfg state m =
      some { m with
        QueueProbability := if state.Clock > 0 ∧ cfg.MaxQueueSize > 0
          then state.AreaUnderQ / state.Clock / (cfg.MaxQueueSize : ℚ) else 0 } := by
  unfold metricsQueueProbability
  by_cases h : state.Clock > 0 ∧ cfg.MaxQueueSize > 0
  · have hne : state.Clock ≠ 0 := ne_of_gt h.1
    have hne2 : (cfg.MaxQueueSize : ℚ) ≠ 0 := by
      have : (0 : ℚ) < (cfg.MaxQueueSize : ℚ) := by exact_mod_cast h.2
      exact ne_of_gt this
    simp only [h, and_self, if_true, fdiv_some _ _ hne, fdiv_some _ _ hne2]
  · simp only [h, if_false]

theorem metricsBlocking_spec (state : SystemState) (m : ComprehensiveMetrics) :
    metricsBlocking state m =
      some { m with
        BlockingProbability := if state.TotalCustomers > 0
          then (state.RejectedCustomers : ℚ) / (state.TotalCustomers : ℚ) else 0 } := by
  unfold metricsBlocking
  by_cases h : state.TotalCustomers > 0
  · have hne : (state.TotalCustomers : ℚ) ≠ 0 := by
      have : (0 : ℚ) < (state.TotalCustomers : ℚ) := by exact_mod_cast h
      exact ne_of_gt this
    simp only [h, if_true, fdiv_some _ _ hne]
  · simp only [h, if_false]

theorem calculateVariances_spec (sc : EnhancedStatisticsCollector)
    (hlen : sc.systemTimes.length = sc.waitTimes.length) :
    ∃ wv sv, sc.calculateVariances =
        some { sc with
          metrics := { sc.metrics with WaitTimeVariance := wv, SystemTimeVariance := sv } } ∧
      (sc.waitTimes.length < 2 → wv = 0 ∧ sv = 0) ∧
      (2 ≤ sc.waitTimes.length →
        wv = (sc.waitTimes.map (fun wt =>
            (wt - sc.metrics.AverageWaitTime) * (wt - sc.metrics.AverageWaitTime))).sum
          / (sc.waitTimes.length : ℚ) ∧
        sv = (sc.systemTimes.map (fun st =>
            (st - sc.metrics.AverageSystemTime) * (st - sc.metrics.AverageSystemTime))).sum
          / (sc.systemTimes.length : ℚ)) := by
  unfold EnhancedStatisticsCollector.calculateVariances
  by_cases h : sc.waitTimes.length < 2
  · simp only [h, if_true]
    exact ⟨0, 0, rfl, fun _ => ⟨rfl, rfl⟩, fun h2 => absurd h2 (by omega)⟩
  · have hne : (sc.waitTimes.length : ℚ) ≠ 0 := by
      have : (0 : ℚ) < (sc.waitTimes.length : ℚ) := by exact_mod_cast (by omega : 0 < sc.waitTimes.length)
      exact ne_of_gt this
    have hne2 : (sc.systemTimes.length : ℚ) ≠ 0 := by rw [hlen]; exact hne
    simp only [h, if_false, fdiv_some _ _ hne, fdiv_some _ _ hne2, foldl_add_eq_sum, zero_add]
    exact ⟨_, _, rfl, fun h2 => h2.elim, fun _ => ⟨rfl, rfl⟩⟩

theorem calculatePercentile_some (data : List ℚ) (p : ℚ) (hne : data ≠ []) (hp0 : 0 ≤ p)
    (hp1 : p ≤ 1) : ∃ v, calculatePercentile data p = some v := by
  obtain ⟨_, _, v, _, _, _, _, hv, _⟩ := calculatePercentile_spec data p hne hp0 hp1
  exact ⟨v, hv⟩

theorem calculatePercentiles_spec (sc : EnhancedStatisticsCollector) :
    ∃ ps, sc.calculatePercentiles =
      some { sc with metrics := { sc.metrics with WaitTimePercentiles := ps } } := by
  unfold EnhancedStatisticsCollector.calculatePercentiles
  by_cases h : sc.waitTimes.length = 0
  · simp only [h, if_true]
    exact ⟨sc.metrics.WaitTimePercentiles, rfl⟩
  · have hne : sc.waitTimes.insertionSort (fun a b => a ≤ b) ≠ [] := by
      intro hc
      have := (List.perm_insertionSort (fun a b : ℚ => a ≤ b) sc.waitTimes).length_eq
      rw [hc] at this
      exact h (by simpa using this.symm)
    obtain ⟨a, ha⟩ := calculatePercentile_some _ 0.5 hne (by norm_num) (by norm_num)
    obtain ⟨b, hb⟩ := calculatePercentile_some _ 0.75 hne (by norm_num) (by norm_num)
    obtain ⟨c, hc⟩ := calculatePercentile_some _ 0.9 hne (by norm_num) (by norm_num)
    obtain ⟨d, hd⟩ := calculatePercentile_some _ 0.95 hne (by norm_num) (by norm_num)
    simp only [h, if_false, ha, hb, hc, hd]
    exact ⟨_, rfl⟩

theorem calculateConfidenceIntervals_spec (sqrt : ℚ → ℚ) (sc : EnhancedStatisticsCollector)
    (hlen : sc.systemTimes.length = sc.waitTimes.length) :
    ∃ wci sci, sc.calculateConfidenceIntervals sqrt =
        some { sc with
          metrics := { sc.metrics with
            WaitTimeConfidence := wci, SystemTimeConfidence := sci } } ∧
      (sc.waitTimes.length < 2 → wci = (0, 0) ∧ sci = (0, 0)) := by
  unfold EnhancedStatisticsCollector.calculateConfidenceIntervals
  by_cases h : sc.waitTimes.length < 2
  · simp only [h, if_true]
    exact ⟨(0, 0), (0, 0), rfl, fun _ => ⟨rfl, rfl⟩⟩
  · have hne : (sc.waitTimes.length : ℚ) ≠ 0 := by
      have : (0 : ℚ) < (sc.waitTimes.length : ℚ) := by exact_mod_cast (by omega : 0 < sc.waitTimes.length)
      exact ne_of_gt this
    have hne2 : (sc.systemTimes.length : ℚ) ≠ 0 := by rw [hlen]; exact hne
    have h2 : sc.systemTimes.length ≥ 2 := by omega
    simp only [h, if_false, fdiv_some _ _ hne, fdiv_some _ _ hne2, h2, if_true]
    exact ⟨_, _, rfl, fun hc => hc.elim⟩

theorem CalculateFinalMetrics_spec (sqrt : ℚ → ℚ) (cfg : SimulationConfig)
    (sc : EnhancedStatisticsCollector) (state : SystemState)
    (hlen : sc.systemTimes.length = sc.waitTimes.length) :
    ∃ sc1, sc.CalculateFinalMetrics sqrt cfg state = some sc1 ∧
      (sc1.customerStats = sc.customerStats ∧ sc1.waitTimes = sc.waitTimes ∧
        sc1.systemTimes = sc.systemTimes ∧ sc1.maxQueueLength = sc.maxQueueLength ∧
        sc1.maxWaitTime = sc.maxWaitTime) ∧
      (sc1.metrics.AverageWaitTime = (if state.CustomersServed > 0
          then state.TotalDelay / (state.CustomersServed : ℚ) else 0) ∧
        sc1.metrics.AverageQueueLength
          = (if state.Clock > 0 then state.AreaUnderQ / state.Clock else 0) ∧
        sc1.metrics.ServerUtilization
          = (if state.Clock > 0 then state.AreaUnderB / state.Clock else 0) ∧
        sc1.metrics.Throughput
          = (if state.Clock > 0 then (state.CustomersServed : ℚ) / state.Clock else 0) ∧
        sc1.metrics.AverageSystemTime = (if sc.customerStats.length > 0
          then (sc.customerStats.map (fun st => st.SystemTime)).sum
            / (sc.customerStats.length : ℚ)
          else 0) ∧
        sc1.metrics.AverageInSystem
          = sc1.metrics.AverageQueueLength + sc1.metrics.ServerUtilization ∧
        sc1.metrics.BlockingProbability = (if state.TotalCustomers > 0
          then (state.RejectedCustomers : ℚ) / (state.TotalCustomers : ℚ) else 0) ∧
        sc1.metrics.QueueProbability = (if state.Clock > 0 ∧ cfg.MaxQueueSize > 0
          then state.AreaUnderQ / state.Clock / (cfg.MaxQueueSize : ℚ) else 0)) ∧
      (sc1.metrics.ServerBusyTime = (if state.Clock > 0 then state.AreaUnderB else 0) ∧
        sc1.metrics.ServerIdleTime
          = (if state.Clock > 0 then state.Clock - state.AreaUnderB else 0) ∧
        sc1.metrics.TotalCustomers = state.TotalCustomers ∧
        sc1.metrics.RejectedCustomers = state.RejectedCustomers ∧
        sc1.metrics.MaxQueueLength = sc.maxQueueLength ∧
        sc1.metrics.MaxWaitTime = sc.maxWaitTime) ∧
      (sc.waitTimes.length < 2 →
        sc1.metrics.WaitTimeVariance = 0 ∧ sc1.metrics.SystemTimeVariance = 0 ∧
        sc1.metrics.WaitTimeConfidence = (0, 0) ∧
        sc1.metrics.SystemTimeConfidence = (0, 0)) ∧
      (2 ≤ sc.waitTimes.length →
        sc1.metrics.WaitTimeVariance = (sc.waitTimes.map (fun wt =>
            (wt - sc1.metrics.AverageWaitTime) * (wt - sc1.metrics.AverageWaitTime))).sum
          / (sc.waitTimes.length : ℚ) ∧
        sc1.metrics.SystemTimeVariance = (sc.systemTimes.map (fun st =>
            (st - sc1.metrics.AverageSystemTime) * (st - sc1.metrics.AverageSystemTime))).sum
          / (sc.systemTimes.length : ℚ)) := by
  obtain ⟨m, hm, a1, a2, a3, a4, a5, a6, a7, a8, a9, _, _, _⟩ :=
    metricsTimeAverages_spec sc state
  unfold EnhancedStatisticsCollector.CalculateFinalMetrics
  simp only [hm, Option.some_bind, metricsWaitAverage_spec, metricsSystemAverage_spec,
    metricsQueueProbability_spec, metricsBlocking_spec]
  obtain ⟨wv, sv, hv, hv1, hv2⟩ := calculateVariances_spec
    { sc with
      metrics :=
        { m with
          AverageWaitTime := if state.CustomersServed > 0
            then state.TotalDelay / (state.CustomersServed : ℚ) else 0
          AverageSystemTime := if sc.customerStats.length > 0
            then (sc.customerStats.map (fun st => st.SystemTime)).sum
              / (sc.customerStats.length : ℚ)
            else 0
          AverageInSystem := m.AverageQueueLength + m.ServerUtilization
          QueueProbability := if state.Clock > 0 ∧ cfg.MaxQueueSize > 0
            then state.AreaUnderQ / state.Clock / (cfg.MaxQueueSize : ℚ) else 0
          BlockingProbability := if state.TotalCustomers > 0
            then (state.RejectedCustomers : ℚ) / (state.TotalCustomers : ℚ) else 0 } } hlen
  simp only at hv hv1 hv2
  simp only [hv, Option.some_bind]
  obtain ⟨ps, hps⟩ := calculatePercentiles_spec
    { sc with
      metrics :=
        { m with
          AverageWaitTime := if state.CustomersServed > 0
            then state.TotalDelay / (state.CustomersServed : ℚ) else 0
          AverageSystemTime := if sc.customerStats.length > 0
            then (sc.customerStats.map (fun st => st.SystemTime)).sum
              / (sc.customerStats.length : ℚ)
            else 0
          AverageInSystem := m.AverageQueueLength + m.ServerUtilization
          QueueProbability := if state.Clock > 0 ∧ cfg.MaxQueueSize > 0
            then state.AreaUnderQ / state.Clock / (cfg.MaxQueueSize : ℚ) else 0
          BlockingProbability := if state.TotalCustomers > 0
            then (state.RejectedCustomers : ℚ) / (state.TotalCustomers : ℚ) else 0
          WaitTimeVariance := wv
          SystemTimeVariance := sv } }
  simp only at hps
  simp only [hps, Option.some_bind]
  obtain ⟨wci, sci, hci, hci1⟩ := calculateConfidenceIntervals_spec sqrt
    { sc with
      metrics :=
        { m with
          AverageWaitTime := if state.CustomersServed > 0
            then state.TotalDelay / (state.CustomersServed : ℚ) else 0
          AverageSystemTime := if sc.customerStats.length > 0
            then (sc.customerStats.map (fun st => st.SystemTime)).sum
              / (sc.customerStats.length : ℚ)
            else 0
          AverageInSystem := m.AverageQueueLength + m.ServerUtilization
          QueueProbability := if state.Clock > 0 ∧ cfg.MaxQueueSize > 0
            then state.AreaUnderQ / state.Clock / (cfg.MaxQueueSize : ℚ) else 0
          BlockingProbability := if state.TotalCustomers > 0
            then (state.RejectedCustomers : ℚ) / (state.TotalCustomers : ℚ) else 0
          WaitTimeVariance := wv
          SystemTimeVariance := sv
          WaitTimePercentiles := ps } } hlen
  simp only at hci hci1
  refine ⟨_, hci, ⟨rfl, rfl, rfl, rfl, rfl⟩, ⟨rfl, a1, a2, a3, rfl, rfl, rfl, rfl⟩,
    ⟨a4, a5, a6, a7, a8, a9⟩, ?_, ?_⟩
  · intro h
    obtain ⟨v1, v2⟩ := hv1 h
    obtain ⟨c1, c2⟩ := hci1 h
    exact ⟨v1, v2, c1, c2⟩
  · intro h
    exact hv2 h

theorem Built_consistent (sqrt : ℚ → ℚ) (cfg : SimulationConfig)
    (sc : EnhancedStatisticsCollector)
    (h : EnhancedStatisticsCollector.Built sqrt cfg sc) : sc.Consistent := by
  induction h with
  | new => exact ⟨rfl, rfl⟩
  | update sc state dt _ ih =>
    unfold EnhancedStatisticsCollector.UpdatePreEvent
    split
    · exact ih
    · simp only
      split <;> exact ih
  | record sc c _ ih =>
    obtain ⟨h1, h2⟩ := ih
    unfold EnhancedStatisticsCollector.RecordCustomerCompletion
      EnhancedStatisticsCollector.Consistent
    simp only [List.map_append, List.map_cons, List.map_nil, h1, h2]
    exact ⟨trivial, trivial⟩
  | final sc sc1 state _ hfin ih =>
    obtain ⟨h1, h2⟩ := ih
    have hlen : sc.systemTimes.length = sc.waitTimes.length := by
      rw [← h1, ← h2, List.length_map, List.length_map]
    obtain ⟨sc2, hsc2, ⟨e1, e2, e3, _, _⟩, _⟩ := CalculateFinalMetrics_spec sqrt cfg sc state hlen
    rw [hsc2] at hfin
    cases hfin
    unfold EnhancedStatisticsCollector.Consistent
    rw [e1, e2, e3]
    exact ⟨h1, h2⟩

theorem Consistent_length (sc : EnhancedStatisticsCollector) (h : sc.Consistent) :
    sc.systemTimes.length = sc.waitTimes.length ∧
    sc.customerStats.length = sc.systemTimes.length := by
  obtain ⟨h1, h2⟩ := h
  rw [← h1, ← h2, List.length_map, List.length_map]
  exact ⟨rfl, rfl⟩

theorem flush_stats_built (sqrt : ℚ → ℚ) (cfg : SimulationConfig)
    (s : DiscreteEventSimulator) (dt : ℚ)
    (h : EnhancedStatisticsCollector.Built sqrt cfg s.stats) :
    EnhancedStatisticsCollector.Built sqrt cfg (s.flush dt).stats := by
  unfold DiscreteEventSimulator.flush
  split
  · exact EnhancedStatisticsCollector.Built.update s.stats s.state dt h
  · exact h

theorem processEvent_stats_built (ln sqrt : ℚ → ℚ) (cfg : SimulationConfig)
    (s s1 : DiscreteEventSimulator) (e : Event)
    (h : EnhancedStatisticsCollector.Built sqrt cfg s.stats)
    (hs : s.processEvent ln cfg e = some s1) :
    EnhancedStatisticsCollector.Built sqrt cfg s1.stats := by
  unfold DiscreteEventSimulator.processEvent at hs
  split at hs
  · obtain ⟨st, em, _, h2⟩ := processArrival_spec ln cfg s s1 hs
    obtain ⟨_, _, _, _, hstats, _⟩ := scheduleNext_spec ln cfg _ s1 h2
    rw [hstats, (place_spec cfg _ _).1]
    exact h
  · simp only [Option.some.injEq] at hs
    rw [← hs, (processDeparture_spec s e.Customer).2.2.1]
    cases e.Customer with
    | none => exact h
    | some c => exact EnhancedStatisticsCollector.Built.record s.stats _ h
  · simp only [Option.some.injEq] at hs
    rw [← hs]
    exact h

theorem Reachable_stats_built (ln sqrt : ℚ → ℚ) (src : Int → List ℚ) (now : Int)
    (cfg : SimulationConfig) (s : DiscreteEventSimulator)
    (h : Reachable ln src now cfg s) :
    EnhancedStatisticsCollector.Built sqrt cfg s.stats := by
  induction h with
  | init s0 h0 =>
    obtain ⟨_, _, _, _, hstats, _⟩ := Initialize_spec ln cfg _ s0 h0
    rw [hstats]
    exact EnhancedStatisticsCollector.Built.new
  | step s s1 e _ hstep ih =>
    obtain ⟨s3, hs3, rfl, _, _⟩ := Applies_unfold ln cfg s s1 e hstep
    refine processEvent_stats_built ln sqrt cfg _ s3 e ?_ hs3
    exact flush_stats_built sqrt cfg s _ ih

theorem runLoop_reachable (ln : ℚ → ℚ) (src : Int → List ℚ) (now : Int)
    (cfg : SimulationConfig) (fuel : Nat) (s s1 : DiscreteEventSimulator)
    (h : Reachable ln src now cfg s)
    (hl : DiscreteEventSimulator.runLoop ln cfg fuel s = some s1) :
    Reachable ln src now cfg s1 :=
  (runLoop_areas ln src now cfg fuel s s1 h hl).1

theorem Run_stats_built (ln sqrt : ℚ → ℚ) (src : Int → List ℚ) (now : Int)
    (cfg : SimulationConfig) (fuel : Nat) (s0 sF : DiscreteEventSimulator)
    (h0 : (NewSimulator src now cfg).Initialize ln cfg = some s0)
    (hrun : s0.Run ln cfg fuel = some sF) :
    EnhancedStatisticsCollector.Built sqrt cfg sF.stats := by
  unfold DiscreteEventSimulator.Run at hrun
  split at hrun
  · simp at hrun
  · next s1 hs1 =>
    simp only [Option.some.injEq] at hrun
    subst hrun
    have hb := Reachable_stats_built ln sqrt src now cfg s1
      (runLoop_reachable ln src now cfg fuel s0 s1 (Reachable.init s0 h0) hs1)
    unfold DiscreteEventSimulator.runFinal
    split
    · exact flush_stats_built sqrt cfg s1 _ hb
    · exact hb

theorem demoFinal_eq : demoInit.Run demoLn demoConfig 10 = some demoFinal := by
  decide!

theorem demoFinal_built :
    EnhancedStatisticsCollector.Built demoSqrt demoConfig demoFinal.stats :=
  Run_stats_built demoLn demoSqrt demoSrc 0 demoConfig 10 demoInit demoFinal demoInit_eq
    demoFinal_eq

/-- C18. For a collector with fewer than two recorded completions and every
state, `CalculateFinalMetrics` returns with both variances `0` and both
confidence intervals `[0, 0]`. -/
theorem few_samples_zero_variance (sqrt : ℚ → ℚ) (cfg : SimulationConfig)
    (sc : EnhancedStatisticsCollector) (state : SystemState)
    (hb : EnhancedStatisticsCollector.Built sqrt cfg sc) (hn : sc.waitTimes.length < 2) :
    ∃ sc1, sc.CalculateFinalMetrics sqrt cfg state = some sc1 ∧
      sc1.metrics.WaitTimeVariance = 0 ∧ sc1.metrics.SystemTimeVariance = 0 ∧
      sc1.metrics.WaitTimeConfidence = (0, 0) ∧
      sc1.metrics.SystemTimeConfidence = (0, 0) := by
  have hlen := (Consistent_length sc (Built_consistent sqrt cfg sc hb)).1
  obtain ⟨sc1, h1, _, _, _, h5, _⟩ := CalculateFinalMetrics_spec sqrt cfg sc state hlen
  exact ⟨sc1, h1, h5 hn⟩

/-- Witness of C18: the collector of the demo run, with one recorded
completion. -/
theorem few_samples_zero_variance_witness :
    demoFinal.stats.waitTimes.length = 1 ∧
    ∃ sc1, demoFinal.stats.CalculateFinalMetrics demoSqrt demoConfig demoFinal.state
        = some sc1 ∧
      sc1.metrics.WaitTimeVariance = 0 ∧ sc1.metrics.SystemTimeVariance = 0 ∧
      sc1.metrics.WaitTimeConfidence = (0, 0) ∧
      sc1.metrics.SystemTimeConfidence = (0, 0) :=
  ⟨by decide!,
    few_samples_zero_variance demoSqrt demoConfig demoFinal.stats demoFinal.state
      demoFinal_built (by decide!)⟩

/-- C19. For every collector built by its methods and every state,
`CalculateFinalMetrics` returns (no division has a zero divisor) and the
metrics are: `AverageWaitTime = TotalDelay / CustomersServed` under the test
`CustomersServed > 0`, else `0`; `AverageQueueLength = AreaUnderQ / Clock`,
`ServerUtilization = AreaUnderB / Clock` and `Throughput = CustomersServed /
Clock` under the test `Clock > 0`, else `0`; `AverageSystemTime` the mean of
the recorded system-time samples, `0` if there is none; `AverageInSystem =
AverageQueueLength + ServerUtilization`; `BlockingProbability =
RejectedCustomers / TotalCustomers` under the test `TotalCustomers > 0`, else
`0`. -/
theorem final_metrics_formulas (sqrt : ℚ → ℚ) (cfg : SimulationConfig)
    (sc : EnhancedStatisticsCollector) (state : SystemState)
    (hb : EnhancedStatisticsCollector.Built sqrt cfg sc) :
    ∃ sc1, sc.CalculateFinalMetrics sqrt cfg state = some sc1 ∧
      sc1.metrics.AverageWaitTime = (if state.CustomersServed > 0
        then state.TotalDelay / (state.CustomersServed : ℚ) else 0) ∧
      sc1.metrics.AverageQueueLength
        = (if state.Clock > 0 then state.AreaUnderQ / state.Clock else 0) ∧
      sc1.metrics.ServerUtilization
        = (if state.Clock > 0 then state.AreaUnderB / state.Clock else 0) ∧
      sc1.metrics.Throughput
        = (if state.Clock > 0 then (state.CustomersServed : ℚ) / state.Clock else 0) ∧
      sc1.metrics.AverageSystemTime
        = (if sc.systemTimes.length > 0 then mean sc.systemTimes else 0) ∧
      sc1.metrics.AverageInSystem
        = sc1.metrics.AverageQueueLength + sc1.metrics.ServerUtilization ∧
      sc1.metrics.BlockingProbability = (if state.TotalCustomers > 0
        then (state.RejectedCustomers : ℚ) / (state.TotalCustomers : ℚ) else 0) := by
  have hcons := Built_consistent sqrt cfg sc hb
  obtain ⟨hlen, hlen2⟩ := Consistent_length sc hcons
  obtain ⟨sc1, h1, _, ⟨a1, a2, a3, a4, a5, a6, a7, _⟩, _⟩ :=
    CalculateFinalMetrics_spec sqrt cfg sc state hlen
  refine ⟨sc1, h1, a1, a2, a3, a4, ?_, a6, a7⟩
  rw [a5, hcons.2, hlen2]
  rfl

/-- Witness of C19: the collector and the final state of the demo run. -/
theorem final_metrics_formulas_witness :
    (demoFinal.stats.CalculateFinalMetrics demoSqrt demoConfig demoFinal.state).map
        (fun sc => (sc.metrics.AverageWaitTime, sc.metrics.AverageQueueLength,
          sc.metrics.ServerUtilization, sc.metrics.Throughput))
      = some (0, 1 / 4, 5 / 8, 1) ∧
    (demoFinal.stats.CalculateFinalMetrics demoSqrt demoConfig demoFinal.state).map
        (fun sc => (sc.metrics.AverageSystemTime, sc.metrics.AverageInSystem,
          sc.metrics.BlockingProbability))
      = some (1 / 2, 7 / 8, 0) ∧
    ∃ sc1, demoFinal.stats.CalculateFinalMetrics demoSqrt demoConfig demoFinal.state
        = some sc1 ∧
      sc1.metrics.AverageWaitTime = (if demoFinal.state.CustomersServed > 0
        then demoFinal.state.TotalDelay / (demoFinal.state.CustomersServed : ℚ) else 0) ∧
      sc1.metrics.AverageQueueLength = (if demoFinal.state.Clock > 0
        then demoFinal.state.AreaUnderQ / demoFinal.state.Clock else 0) ∧
      sc1.metrics.ServerUtilization = (if demoFinal.state.Clock > 0
        then demoFinal.state.AreaUnderB / demoFinal.state.Clock else 0) ∧
      sc1.metrics.Throughput = (if demoFinal.state.Clock > 0
        then (demoFinal.state.CustomersServed : ℚ) / demoFinal.state.Clock else 0) ∧
      sc1.metrics.AverageSystemTime = (if demoFinal.stats.systemTimes.length > 0
        then mean demoFinal.stats.systemTimes else 0) ∧
      sc1.metrics.AverageInSystem
        = sc1.metrics.AverageQueueLength + sc1.metrics.ServerUtilization ∧
      sc1.metrics.BlockingProbability = (if demoFinal.state.TotalCustomers > 0
        then (demoFinal.state.RejectedCustomers : ℚ) / (demoFinal.state.TotalCustomers : ℚ)
        else 0) :=
  ⟨by decide!, by decide!,
    final_metrics_formulas demoSqrt demoConfig demoFinal.stats demoFinal.state
      demoFinal_built⟩

/-- C17, the code at the failing input. In the run of `varConfig` two customers
complete, with wait times `0` and `1/8`, and a third has started service after
a delay of `1/4`: `AverageWaitTime = TotalDelay / CustomersServed = 1/8` is not
the mean `1/16` of the two samples, and `WaitTimeVariance` is `1/128` while
the population variance of the samples is `1/256`. The system-time variance
is the population variance of its samples. -/
theorem wait_variance_off_centre :
    (initState demoLn varSrc 0 varConfig).Run demoLn varConfig 10 = some varFinal ∧
    varFinal.stats.waitTimes = [0, 1 / 8] ∧
    varFinal.state.TotalDelay = 3 / 8 ∧ varFinal.state.CustomersServed = 3 ∧
    mean varFinal.stats.waitTimes = 1 / 16 ∧
    populationVariance varFinal.stats.waitTimes = 1 / 256 ∧
    (varFinal.stats.CalculateFinalMetrics demoSqrt varConfig varFinal.state).map
        (fun sc => (sc.metrics.AverageWaitTime, sc.metrics.WaitTimeVariance))
      = some (1 / 8, 1 / 128) ∧
    (varFinal.stats.CalculateFinalMetrics demoSqrt varConfig varFinal.state).map
        (fun sc => sc.metrics.SystemTimeVariance)
      = some (populationVariance varFinal.stats.systemTimes) := by
  decide!

/-- C15, the code at the failing input. The demo run applies four events and
returns an empty event log. -/
theorem run_returns_empty_log :
    (runOnce demoLn demoSqrt demoSrc 0 demoConfig 10).map
        (fun r => (r.State.EventsProcessed, r.EventLog)) = some (4, []) := by
  decide!

/-! ## The horizon -/

theorem ScheduleEvent_mem (em : EventManager) (k : EventType) (t : ℚ) (c : Option Customer)
    (x : Event) (hx : x ∈ (em.ScheduleEvent k t c).eventList.events) :
    x = { Kind := k, Timestamp := t, Customer := c, Priority := 0 } ∨
      x ∈ em.eventList.events := by
  have := (ScheduleEvent_perm em k t c).mem_iff.1 hx
  simpa using this

theorem place_pending (cfg : SimulationConfig) (s : DiscreteEventSimulator) (c : Customer) :
    (IsHeap (pending s) → IsHeap (pending (s.place cfg c))) ∧
    (∀ x ∈ pending (s.place cfg c), x ∈ pending s ∨ x.Kind = EventType.EventDeparture) := by
  obtain ⟨_, _, _, h⟩ := place_spec cfg s c
  unfold pending
  rcases h with ⟨_, _, he⟩ | ⟨_, _, _, he⟩ | ⟨_, _, _, he⟩
  · rw [he]
    refine ⟨fun hh => ScheduleEvent_isHeap _ _ _ _ hh, fun x hx => ?_⟩
    rcases ScheduleEvent_mem _ _ _ _ x hx with h1 | h1
    · exact Or.inr (by rw [h1])
    · exact Or.inl h1
  · rw [he]
    exact ⟨fun hh => hh, fun x hx => Or.inl hx⟩
  · rw [he]
    exact ⟨fun hh => hh, fun x hx => Or.inl hx⟩

theorem scheduleNext_pending (ln : ℚ → ℚ) (cfg : SimulationConfig)
    (s s1 : DiscreteEventSimulator) (h : s.scheduleNext ln cfg = some s1) :
    (IsHeap (pending s) → IsHeap (pending s1)) ∧
    (∀ x ∈ pending s1, x ∈ pending s ∨
      (x.Kind = EventType.EventArrival ∧ x.Timestamp ≤ cfg.SimulationTime)) := by
  obtain ⟨ia, em, hia, _, _, _, _, h1⟩ := scheduleNext_spec ln cfg s s1 h
  have hel := GetInterarrivalTime_eventList ln cfg s.events em ia hia
  unfold pending
  rcases h1 with ⟨hle, he⟩ | ⟨_, he⟩
  · rw [he]
    refine ⟨fun hh => ScheduleEvent_isHeap _ _ _ _ (by rw [hel]; exact hh), fun x hx => ?_⟩
    rcases ScheduleEvent_mem _ _ _ _ x hx with h2 | h2
    · exact Or.inr (by rw [h2]; exact ⟨rfl, hle⟩)
    · rw [hel] at h2
      exact Or.inl h2
  · rw [he, hel]
    exact ⟨fun hh => hh, fun x hx => Or.inl hx⟩

theorem processDeparture_pending (s : DiscreteEventSimulator) (c : Option Customer) :
    (IsHeap (pending s) → IsHeap (pending (s.processDeparture c))) ∧
    (∀ x ∈ pending (s.processDeparture c),
      x ∈ pending s ∨ x.Kind = EventType.EventDeparture) := by
  obtain ⟨_, _, _, h⟩ := processDeparture_spec s c
  unfold pending
  rcases h with ⟨n, rest, _, _, he⟩ | ⟨_, _, he⟩
  · rw [he]
    refine ⟨fun hh => ScheduleEvent_isHeap _ _ _ _ hh, fun x hx => ?_⟩
    rcases ScheduleEvent_mem _ _ _ _ x hx with h1 | h1
    · exact Or.inr (by rw [h1])
    · exact Or.inl h1
  · rw [he]
    exact ⟨fun hh => hh, fun x hx => Or.inl hx⟩

theorem processEvent_pending (ln : ℚ → ℚ) (cfg : SimulationConfig)
    (s s1 : DiscreteEventSimulator) (e : Event) (hs : s.processEvent ln cfg e = some s1) :
    (IsHeap (pending s) → IsHeap (pending s1)) ∧
    (∀ x ∈ pending s1, x ∈ pending s ∨ Admissible cfg x) := by
  unfold DiscreteEventSimulator.processEvent at hs
  split at hs
  · obtain ⟨st, em, hst, h2⟩ := processArrival_spec ln cfg s s1 hs
    have hel := GetServiceTime_eventList ln cfg s.events em st hst
    obtain ⟨a1, a2⟩ := scheduleNext_pending ln cfg _ s1 h2
    obtain ⟨b1, b2⟩ := place_pending cfg
      { s with
        events := em
        customerID := s.customerID + 1
        state := { s.state with TotalCustomers := s.state.TotalCustomers + 1 } }
      { ID := s.customerID, ArrivalTime := s.state.Clock, ServiceTime := st,
        ServiceStart := 0, ExitTime := 0, Status := CustomerStatus.CustomerWaiting }
    have hp : pending
        { s with
          events := em
          customerID := s.customerID + 1
          state := { s.state with TotalCustomers := s.state.TotalCustomers + 1 } }
        = pending s := by
      unfold pending
      rw [← hel]
    rw [hp] at b1 b2
    refine ⟨fun hh => a1 (b1 hh), fun x hx => ?_⟩
    rcases a2 x hx with h3 | h3
    · rcases b2 x h3 with h4 | h4
      · exact Or.inl h4
      · exact Or.inr (Or.inl h4)
    · exact Or.inr (Or.inr h3)
  · simp only [Option.some.injEq] at hs
    rw [← hs]
    obtain ⟨c1, c2⟩ := processDeparture_pending s e.Customer
    refine ⟨c1, fun x hx => ?_⟩
    rcases c2 x hx with h3 | h3
    · exact Or.inl h3
    · exact Or.inr (Or.inl h3)
  · simp only [Option.some.injEq] at hs
    rw [← hs]
    exact ⟨fun hh => hh, fun x hx => Or.inl hx⟩

theorem Applies_pending (ln : ℚ → ℚ) (cfg : SimulationConfig)
    (s s1 : DiscreteEventSimulator) (e : Event) (h : Applies ln cfg s e s1) :
    (IsHeap (pending s) → IsHeap (pending s1)) ∧
    (∀ x ∈ pending s1, x ∈ s.events.eventList.Pop.2.events ∨ Admissible cfg x) ∧
    (pending s).Perm (e :: s.events.eventList.Pop.2.events) := by
  obtain ⟨s3, hs3, rfl, hperm, _⟩ := Applies_unfold ln cfg s s1 e h
  obtain ⟨a1, a2⟩ := processEvent_pending ln cfg _ s3 e hs3
  exact ⟨fun hh => a1 (EventList_Pop_isHeap s.events.eventList hh), a2, hperm⟩

theorem Initialize_pending (ln : ℚ → ℚ) (src : Int → List ℚ) (now : Int)
    (cfg : SimulationConfig) (s0 : DiscreteEventSimulator)
    (h0 : (NewSimulator src now cfg).Initialize ln cfg = some s0) :
    IsHeap (pending s0) ∧
    ∃ t, pending s0
      = [{ Kind := EventType.EventArrival, Timestamp := t, Customer := none, Priority := 0 }] := by
  obtain ⟨t, em, ht, _, _, _, _, he⟩ := Initialize_spec ln cfg _ s0 h0
  have hel := GetInterarrivalTime_eventList ln cfg _ em t ht
  have hnil : em.eventList.events = [] := by
    rw [hel]
    exact NewSimulator_pending src now cfg
  unfold pending
  rw [he]
  refine ⟨ScheduleEvent_isHeap _ _ _ _ (by rw [hnil]; exact isHeap_nil), t, ?_⟩
  have hp := ScheduleEvent_perm em EventType.EventArrival t none
  rw [hnil] at hp
  exact List.perm_singleton.1 hp

theorem Reachable_isHeap (ln : ℚ → ℚ) (src : Int → List ℚ) (now : Int)
    (cfg : SimulationConfig) (s : DiscreteEventSimulator)
    (hr : Reachable ln src now cfg s) : IsHeap (pending s) := by
  induction hr with
  | init s0 h0 => exact (Initialize_pending ln src now cfg s0 h0).1
  | step s s1 e _ hstep ih => exact (Applies_pending ln cfg s s1 e hstep).1 ih

theorem Peek_none (el : EventList) (h : el.Peek = none) : el.events = [] := by
  unfold EventList.Peek EventList.IsEmpty at h
  cases hl : el.events with
  | nil => rfl
  | cons a l => simp [hl] at h

theorem Reachable_queue_le (ln : ℚ → ℚ) (src : Int → List ℚ) (now : Int)
    (cfg : SimulationConfig) (s : DiscreteEventSimulator)
    (hmax : 0 ≤ cfg.MaxQueueSize) (hr : Reachable ln src now cfg s) :
    (s.state.Queue.length : Int) ≤ cfg.MaxQueueSize := by
  induction hr with
  | init s0 h0 =>
    obtain ⟨_, _, _, hst, _⟩ := Initialize_spec ln cfg _ s0 h0
    rw [hst]
    simpa [initialState] using hmax
  | step s s1 e _ hstep ih => exact Applies_queue_le ln cfg s s1 e hstep ih

theorem Applies_arrival_full (ln : ℚ → ℚ) (cfg : SimulationConfig)
    (s s1 : DiscreteEventSimulator) (e : Event) (h : Applies ln cfg s e s1)
    (harr : e.Kind = EventType.EventArrival) (hbusy : s.state.ServerBusy = true)
    (hfull : ¬ (s.state.Queue.length : Int) < cfg.MaxQueueSize) :
    s1.state.RejectedCustomers = s.state.RejectedCustomers + 1 ∧
    s1.state.Queue = s.state.Queue ∧
    s1.state.CustomersServed = s.state.CustomersServed ∧
    s1.state.TotalCustomers = s.state.TotalCustomers + 1 ∧
    (deps (pending s1)).Perm (deps (pending s)) ∧
    ∃ c, (atEvent s e).arrivalCustomer ln cfg = some c ∧ c.ID = s.customerID ∧
      c.ArrivalTime = e.Timestamp ∧ c.Status = CustomerStatus.CustomerRejected := by
  obtain ⟨s3, hs3, rfl, hperm, _⟩ := Applies_unfold ln cfg s s1 e h
  unfold DiscreteEventSimulator.processEvent at hs3
  rw [harr] at hs3
  simp only at hs3
  obtain ⟨st, em, hst, h2⟩ := processArrival_spec ln cfg _ s3 hs3
  have hel := GetServiceTime_eventList ln cfg _ em st hst
  obtain ⟨ia, em2, _, hstate, _, _, _, _⟩ := scheduleNext_spec ln cfg _ s3 h2
  have hdeps := scheduleNext_deps ln cfg _ s3 h2
  obtain ⟨_, _, _, hplace⟩ := place_spec cfg
    { (atEvent s e) with
      events := em
      customerID := (atEvent s e).customerID + 1
      state := { (atEvent s e).state with
        TotalCustomers := (atEvent s e).state.TotalCustomers + 1 } }
    { ID := (atEvent s e).customerID, ArrivalTime := (atEvent s e).state.Clock,
      ServiceTime := st, ServiceStart := 0, ExitTime := 0,
      Status := CustomerStatus.CustomerWaiting }
  have hb : (atEvent s e).state.ServerBusy = true := by
    simp only [atEvent, flush_state]
    exact hbusy
  have hq : (atEvent s e).state.Queue = s.state.Queue := by
    simp only [atEvent, flush_state]
  rcases hplace with ⟨h3, _⟩ | ⟨_, h3, _⟩ | ⟨_, _, hps, hpe⟩
  · simp only [hb] at h3
    cases h3
  · simp only [hq] at h3
    exact absurd h3 hfull
  · have hst3 : s3.state = _ := hstate.trans hps
    refine ⟨?_, ?_, ?_, ?_, ?_, ?_⟩
    · simp only [hst3, atEvent, flush_state]
    · simp only [hst3, atEvent, flush_state]
    · simp only [hst3, atEvent, flush_state]
    · simp only [hst3, atEvent, flush_state]
    · have hd : (deps (pending s3)).Perm (deps s.events.eventList.Pop.2.events) := by
        refine hdeps.trans ?_
        have hpe2 : (DiscreteEventSimulator.place cfg
            { (atEvent s e) with
              events := em
              customerID := (atEvent s e).customerID + 1
              state := { (atEvent s e).state with
                TotalCustomers := (atEvent s e).state.TotalCustomers + 1 } }
            { ID := (atEvent s e).customerID, ArrivalTime := (atEvent s e).state.Clock,
              ServiceTime := st, ServiceStart := 0, ExitTime := 0,
              Status := CustomerStatus.CustomerWaiting }).events = em := hpe
        exact List.Perm.of_eq (congrArg deps
          ((congrArg (fun m : EventManager => m.eventList.events) hpe2).trans
            (congrArg EventList.events hel)))
      have hd2 := deps_perm _ _ hperm
      rw [deps_cons_other e _ (by rw [harr]; simp)] at hd2
      exact hd.trans hd2.symm
    · have hst2 : (atEvent s e).events.GetServiceTime ln cfg = some (st, em) := hst
      unfold DiscreteEventSimulator.arrivalCustomer
      rw [hst2]
      refine ⟨_, rfl, ?_, ?_, ?_⟩
      · simp only [DiscreteEventSimulator.placedCustomer, hb, hq, hfull]
        simp only [atEvent, flush_customerID]
        rfl
      · simp only [DiscreteEventSimulator.placedCustomer, hb, hq, hfull]
        rfl
      · simp only [DiscreteEventSimulator.placedCustomer, hb, hq, hfull]
        rfl

/-- C13. With `MaxQueueSize = 0`, the queue is empty in every state reached
from `Initialize` by applied events, and an arrival applied in such a state
while the server is busy increments `RejectedCustomers` by one, leaves the
queue and `CustomersServed` unchanged, leaves the pending departures as they
were (no departure is scheduled) and leaves the new customer, the one with
the identifier `customerID`, with status rejected. -/
theorem zero_capacity_rejects (ln : ℚ → ℚ) (src : Int → List ℚ) (now : Int)
    (cfg : SimulationConfig) (s : DiscreteEventSimulator)
    (hmax : cfg.MaxQueueSize = 0) (hr : Reachable ln src now cfg s) :
    s.state.Queue = [] ∧
    ∀ e s1, Applies ln cfg s e s1 → e.Kind = EventType.EventArrival →
      s.state.ServerBusy = true →
      s1.state.RejectedCustomers = s.state.RejectedCustomers + 1 ∧
      s1.state.Queue = [] ∧
      s1.state.CustomersServed = s.state.CustomersServed ∧
      (deps (pending s1)).Perm (deps (pending s)) ∧
      ∃ c, (atEvent s e).arrivalCustomer ln cfg = some c ∧ c.ID = s.customerID ∧
        c.Status = CustomerStatus.CustomerRejected := by
  have hq := Reachable_queue_le ln src now cfg s (by rw [hmax]) hr
  rw [hmax] at hq
  have hnil : s.state.Queue = [] := List.length_eq_zero.1 (by omega)
  refine ⟨hnil, fun e s1 hstep harr hbusy => ?_⟩
  have hfull : ¬ (s.state.Queue.length : Int) < cfg.MaxQueueSize := by
    rw [hmax, hnil]
    simp
  obtain ⟨a1, a2, a3, _, a5, c, c1, c2, _, c4⟩ :=
    Applies_arrival_full ln cfg s s1 e hstep harr hbusy hfull
  exact ⟨a1, a2.trans hnil, a3, a5, c, c1, c2, c4⟩

/-- Witness of C13: the run without waiting room, where the fourth event is
an arrival at `3/2` while the server is busy. -/
theorem zero_capacity_rejects_witness :
    zeroConfig.MaxQueueSize = 0 ∧
    Applies demoLn zeroConfig (zeroAfter 3) zeroArrival (zeroAfter 4) ∧
    (zeroAfter 3).state.ServerBusy = true ∧
    (zeroAfter 3).state.Queue = [] ∧
    (zeroAfter 4).state.RejectedCustomers = (zeroAfter 3).state.RejectedCustomers + 1 ∧
    (zeroAfter 4).state.Queue = [] ∧
    (zeroAfter 4).state.CustomersServed = (zeroAfter 3).state.CustomersServed ∧
    (deps (pending (zeroAfter 4))).Perm (deps (pending (zeroAfter 3))) ∧
    ∃ c, (atEvent (zeroAfter 3) zeroArrival).arrivalCustomer demoLn zeroConfig = some c ∧
      c.ID = (zeroAfter 3).customerID ∧ c.Status = CustomerStatus.CustomerRejected :=
  ⟨by decide, by unfold Applies; decide!, by decide!,
    (zero_capacity_rejects demoLn demoSrc 0 zeroConfig (zeroAfter 3) (by decide)
      (stateAfter_reachable demoLn demoSrc 0 zeroConfig 3 (by decide!) (by decide!))).1,
    (zero_capacity_rejects demoLn demoSrc 0 zeroConfig (zeroAfter 3) (by decide)
      (stateAfter_reachable demoLn demoSrc 0 zeroConfig 3 (by decide!) (by decide!))).2
      zeroArrival (zeroAfter 4) (by unfold Applies; decide!) rfl (by decide!)⟩

/-! ## The retained samples -/

theorem Built_samples (sqrt : ℚ → ℚ) (cfg : SimulationConfig)
    (sc : EnhancedStatisticsCollector)
    (h : EnhancedStatisticsCollector.Built sqrt cfg sc) :
    (∀ w ∈ sc.waitTimes, 0 ≤ w) ∧ (∀ t ∈ sc.systemTimes, 0 ≤ t) ∧
    (∀ w ∈ sc.waitTimes, w ≤ sc.maxWaitTime) ∧
    (sc.waitTimes = [] → sc.maxWaitTime = 0) ∧
    (sc.waitTimes ≠ [] → sc.maxWaitTime ∈ sc.waitTimes) := by
  induction h with
  | new =>
    refine ⟨?_, ?_, ?_, fun _ => rfl, fun hne => absurd rfl hne⟩ <;>
      intro w hw <;> simp [NewStatisticsCollector] at hw
  | update sc state dt _ ih =>
    unfold EnhancedStatisticsCollector.UpdatePreEvent
    split
    · exact ih
    · simp only
      split <;> exact ih
  | record sc c _ ih =>
    obtain ⟨h1, h2, h3, h4, h5⟩ := ih
    unfold EnhancedStatisticsCollector.RecordCustomerCompletion
    simp only
    refine ⟨?_, ?_, ?_, ?_, ?_⟩
    · intro w hw
      rcases List.mem_append.1 hw with hw1 | hw1
      · exact h1 w hw1
      · rw [List.mem_singleton.1 hw1]
        exact le_max_left _ _
    · intro t ht
      rcases List.mem_append.1 ht with ht1 | ht1
      · exact h2 t ht1
      · rw [List.mem_singleton.1 ht1]
        exact le_max_left _ _
    · intro w hw
      rcases List.mem_append.1 hw with hw1 | hw1
      · have := h3 w hw1
        split
        · next hgt => exact le_trans this (le_of_lt hgt)
        · exact this
      · rw [List.mem_singleton.1 hw1]
        split
        · exact le_refl _
        · next hgt => exact not_lt.1 hgt
    · intro hnil
      simp at hnil
    · intro _
      split
      · simp
      · next hgt =>
        by_cases hl : sc.waitTimes = []
        · have hm := h4 hl
          have h0 : (0 : ℚ) ≤ max 0 (c.ServiceStart - c.ArrivalTime) := le_max_left _ _
          have hle := not_lt.1 hgt
          rw [hm] at hle
          have heq : sc.maxWaitTime = max 0 (c.ServiceStart - c.ArrivalTime) := by
            rw [hm]
            exact le_antisymm h0 hle
          rw [heq]
          simp
        · exact List.mem_append.2 (Or.inl (h5 hl))
  | final sc sc1 state hb hfin ih =>
    have hlen := (Consistent_length sc (Built_consistent sqrt cfg sc hb)).1
    obtain ⟨sc2, hsc2, ⟨_, e2, e3, _, e5⟩, _⟩ := CalculateFinalMetrics_spec sqrt cfg sc state hlen
    rw [hsc2] at hfin
    cases hfin
    rw [e2, e3, e5]
    exact ih

/-- C21. `RecordCustomerCompletion` appends one sample to each retained list,
`max 0 (ServiceStart - ArrivalTime)` to the wait times and
`max 0 (ExitTime - ArrivalTime)` to the system times, after the earlier
samples. For every collector built by its methods every sample is
non-negative, the two lists have the same length, and `CalculateFinalMetrics`
returns with `MaxWaitTime` the maximum of the wait samples, `0` if there is
none. -/
theorem record_completion_samples (sqrt : ℚ → ℚ) (cfg : SimulationConfig)
    (sc : EnhancedStatisticsCollector) (c : Customer) (state : SystemState)
    (hb : EnhancedStatisticsCollector.Built sqrt cfg sc) :
    ((sc.RecordCustomerCompletion c).waitTimes
        = sc.waitTimes ++ [max 0 (c.ServiceStart - c.ArrivalTime)] ∧
      (sc.RecordCustomerCompletion c).systemTimes
        = sc.systemTimes ++ [max 0 (c.ExitTime - c.ArrivalTime)] ∧
      (sc.RecordCustomerCompletion c).customerStats
        = sc.customerStats ++ [{ WaitTime := max 0 (c.ServiceStart - c.ArrivalTime),
                                  SystemTime := max 0 (c.ExitTime - c.ArrivalTime) }]) ∧
    (∀ w ∈ sc.waitTimes, 0 ≤ w) ∧ (∀ t ∈ sc.systemTimes, 0 ≤ t) ∧
    sc.waitTimes.length = sc.systemTimes.length ∧
    ∃ sc1, sc.CalculateFinalMetrics sqrt cfg state = some sc1 ∧
      (∀ w ∈ sc.waitTimes, w ≤ sc1.metrics.MaxWaitTime) ∧
      (sc.waitTimes = [] → sc1.metrics.MaxWaitTime = 0) ∧
      (sc.waitTimes ≠ [] → sc1.metrics.MaxWaitTime ∈ sc.waitTimes) := by
  obtain ⟨h1, h2, h3, h4, h5⟩ := Built_samples sqrt cfg sc hb
  have hlen := (Consistent_length sc (Built_consistent sqrt cfg sc hb)).1
  obtain ⟨sc1, hsc1, _, _, ⟨_, _, _, _, _, hmax⟩, _⟩ :=
    CalculateFinalMetrics_spec sqrt cfg sc state hlen
  refine ⟨⟨rfl, rfl, rfl⟩, h1, h2, hlen.symm, sc1, hsc1, ?_, ?_, ?_⟩
  · rw [hmax]
    exact h3
  · rw [hmax]
    exact h4
  · rw [hmax]
    exact h5

theorem varFinal_built :
    EnhancedStatisticsCollector.Built demoSqrt varConfig varFinal.stats :=
  Run_stats_built demoLn demoSqrt varSrc 0 varConfig 10 (initState demoLn varSrc 0 varConfig)
    varFinal (by decide!) (by decide!)

/-- Witness of C21: the collector of the run of `varConfig`, which holds the
wait samples `0` and `1/8`. -/
theorem record_completion_samples_witness :
    varFinal.stats.waitTimes = [0, 1 / 8] ∧
    (varFinal.stats.RecordCustomerCompletion sampleCustomer).waitTimes = [0, 1 / 8, 1 / 2] ∧
    (varFinal.stats.RecordCustomerCompletion sampleCustomer).systemTimes
      = [5 / 8, 3 / 4, 3 / 2] ∧
    (varFinal.stats.CalculateFinalMetrics demoSqrt varConfig varFinal.state).map
      (fun sc => sc.metrics.MaxWaitTime) = some (1 / 8) ∧
    (∀ w ∈ varFinal.stats.waitTimes, 0 ≤ w) ∧ (∀ t ∈ varFinal.stats.systemTimes, 0 ≤ t) ∧
    varFinal.stats.waitTimes.length = varFinal.stats.systemTimes.length ∧
    ∃ sc1, varFinal.stats.CalculateFinalMetrics demoSqrt varConfig varFinal.state = some sc1 ∧
      (∀ w ∈ varFinal.stats.waitTimes, w ≤ sc1.metrics.MaxWaitTime) ∧
      (varFinal.stats.waitTimes = [] → sc1.metrics.MaxWaitTime = 0) ∧
      (varFinal.stats.waitTimes ≠ [] → sc1.metrics.MaxWaitTime ∈ varFinal.stats.waitTimes) :=
  ⟨by decide!, by decide!, by decide!, by decide!,
    (record_completion_samples demoSqrt varConfig varFinal.stats sampleCustomer varFinal.state
      varFinal_built).2⟩

/-! ## Construction -/

/-- C22, counterexample. For a file whose content has arrival rate `0`,
service rate `-1`, capacity `-1` and the distribution name `gamma`,
`LoadConfig` returns the converted configuration and no error, `NewSimulator`
builds a simulator in the initial state, `Initialize` schedules the first
arrival at time `1`, and the run applies three events. No draw and no
logarithm is involved: both variates are the constant `1` of
`GenerateExponential` for a rate `≤ 0`. -/
theorem invalid_config_accepted :
    LoadConfig (fun _ => Except.ok "") (fun _ => Except.ok invalidYAML) "config.yml"
      = Except.ok (convertToModel invalidYAML) ∧
    (convertToModel invalidYAML).ArrivalRate ≤ 0 ∧
    (convertToModel invalidYAML).ServiceRate ≤ 0 ∧
    (convertToModel invalidYAML).MaxQueueSize < 0 ∧
    (convertToModel invalidYAML).Random.Distribution = "gamma" ∧
    (NewSimulator demoSrc 0 (convertToModel invalidYAML)).state = initialState ∧
    ((NewSimulator demoSrc 0 (convertToModel invalidYAML)).Initialize demoLn
        (convertToModel invalidYAML)).map
      (fun s => (pending s).map (fun x => (x.Kind, x.Timestamp)))
      = some [(EventType.EventArrival, 1)] ∧
    (runOnce demoLn demoSqrt demoSrc 0 (convertToModel invalidYAML) 10).map
      (fun r => (r.State.TotalCustomers, r.State.EventsProcessed)) = some (2, 3) := by
  refine ⟨rfl, ?_, ?_, ?_, ?_, ?_, ?_, ?_⟩ <;> decide!

/-- C22, amended. Construction validates nothing. `LoadConfig` fails exactly
when the file cannot be read or parsed; for every parsed content, whatever
its rates, capacity and distribution name, it returns the field-by-field
copy. `NewSimulator` has no error result and returns, for every
configuration, a simulator in the initial state with no pending event. A
distribution name other than `uniform` and `constant` selects the exponential
variate, and a rate `≤ 0` makes that variate the constant `1`. -/
theorem construction_accepts_every_config (readFile : String → Except String String)
    (unmarshal : String → Except String YAMLConfig) (filename : String) :
    (∀ err, readFile filename = Except.error err →
      LoadConfig readFile unmarshal filename
        = Except.error ("failed to read config file: " ++ err)) ∧
    (∀ data err, readFile filename = Except.ok data → unmarshal data = Except.error err →
      LoadConfig readFile unmarshal filename
        = Except.error ("failed to parse YAML: " ++ err)) ∧
    (∀ data yamlConfig, readFile filename = Except.ok data →
      unmarshal data = Except.ok yamlConfig →
      LoadConfig readFile unmarshal filename = Except.ok (convertToModel yamlConfig) ∧
      (convertToModel yamlConfig).ArrivalRate = yamlConfig.ArrivalRate ∧
      (convertToModel yamlConfig).ServiceRate = yamlConfig.ServiceRate ∧
      (convertToModel yamlConfig).MaxQueueSize = yamlConfig.MaxQueueSize ∧
      (convertToModel yamlConfig).Random.Distribution = yamlConfig.Distribution) ∧
    (∀ (src : Int → List ℚ) (now : Int) (cfg : SimulationConfig),
      (NewSimulator src now cfg).state = initialState ∧
      pending (NewSimulator src now cfg) = [] ∧
      (NewSimulator src now cfg).stats = NewStatisticsCollector ∧
      (NewSimulator src now cfg).customerID = 1 ∧
      (NewSimulator src now cfg).eventLog = []) ∧
    (∀ (ln : ℚ → ℚ) (cfg : SimulationConfig) (em : EventManager),
      cfg.Random.Distribution ≠ "uniform" → cfg.Random.Distribution ≠ "constant" →
      em.GetInterarrivalTime ln cfg = em.GenerateExponential ln cfg.ArrivalRate ∧
      em.GetServiceTime ln cfg = em.GenerateExponential ln cfg.ServiceRate) ∧
    (∀ (ln : ℚ → ℚ) (em : EventManager) (rate : ℚ), rate ≤ 0 →
      em.GenerateExponential ln rate = some (1, em)) := by
  refine ⟨?_, ?_, ?_, ?_, ?_, ?_⟩
  · intro err h
    unfold LoadConfig
    rw [h]
  · intro data err h1 h2
    unfold LoadConfig
    rw [h1]
    simp only
    rw [h2]
  · intro data yamlConfig h1 h2
    refine ⟨?_, rfl, rfl, rfl, rfl⟩
    unfold LoadConfig
    rw [h1]
    simp only
    rw [h2]
  · intro src now cfg
    exact ⟨rfl, NewSimulator_pending src now cfg, rfl, rfl, rfl⟩
  · intro ln cfg em hu hc
    unfold EventManager.GetInterarrivalTime EventManager.GetServiceTime
    rw [if_neg hu, if_neg hc, if_neg hu, if_neg hc]
    exact ⟨rfl, rfl⟩
  · intro ln em rate hr
    unfold EventManager.GenerateExponential
    rw [if_pos hr]

/-! ## The two transitions -/

theorem GenerateUniform_rng (em em1 em2 : EventManager) (a b t : ℚ) (hr : em2.rng = em.rng)
    (h : em.GenerateUniform a b = some (t, em1)) :
    em2.GenerateUniform a b = some (t, { em2 with rng := em1.rng }) := by
  unfold EventManager.GenerateUniform at h ⊢
  rw [hr]
  split at h
  · simp at h
  · next u r hu =>
    simp only [Option.some.injEq, Prod.mk.injEq] at h
    rw [← h.1, ← h.2]

theorem GenerateExponential_rng (ln : ℚ → ℚ) (em em1 em2 : EventManager) (rate t : ℚ)
    (hr : em2.rng = em.rng) (h : em.GenerateExponential ln rate = some (t, em1)) :
    em2.GenerateExponential ln rate = some (t, { em2 with rng := em1.rng }) := by
  unfold EventManager.GenerateExponential at h ⊢
  rw [hr]
  split at h
  · next hle =>
    simp only [Option.some.injEq, Prod.mk.injEq] at h
    rw [if_pos hle, ← h.1, ← h.2, ← hr]
  · next hle =>
    rw [if_neg hle]
    split at h
    · simp at h
    · next u0 r0 hu =>
      split at h
      · simp at h
      · next u r hres =>
        simp only [Option.some.injEq, Prod.mk.injEq] at h
        simp only [hres, ← h.1, ← h.2]

theorem GetInterarrivalTime_rng (ln : ℚ → ℚ) (cfg : SimulationConfig)
    (em em1 em2 : EventManager) (t : ℚ) (hr : em2.rng = em.rng)
    (h : em.GetInterarrivalTime ln cfg = some (t, em1)) :
    em2.GetInterarrivalTime ln cfg = some (t, { em2 with rng := em1.rng }) := by
  by_cases hr0 : cfg.ArrivalRate = 0
  · rw [GetInterarrivalTime_zero ln cfg em hr0] at h
    rw [GetInterarrivalTime_zero ln cfg em2 hr0]
    split at h
    · simp at h
    · next hd =>
      rw [if_neg hd]
      split at h
      · simp at h
      · next hc =>
        rw [if_neg hc]
        exact GenerateExponential_rng ln em em1 em2 _ t hr h
  · rw [GetInterarrivalTime_unfold ln cfg em hr0] at h
    rw [GetInterarrivalTime_unfold ln cfg em2 hr0]
    split at h
    · next hd =>
      rw [if_pos hd]
      exact GenerateUniform_rng em em1 em2 _ _ t hr h
    · next hd =>
      rw [if_neg hd]
      split at h
      · next hc =>
        simp only [Option.some.injEq, Prod.mk.injEq] at h
        rw [if_pos hc, ← h.1, ← h.2, ← hr]
      · next hc =>
        rw [if_neg hc]
        exact GenerateExponential_rng ln em em1 em2 _ t hr h

theorem place_rng (cfg : SimulationConfig) (s : DiscreteEventSimulator) (c : Customer) :
    (s.place cfg c).events.rng = s.events.rng := by
  obtain ⟨_, _, _, h⟩ := place_spec cfg s c
  rcases h with ⟨_, _, he⟩ | ⟨_, _, _, he⟩ | ⟨_, _, _, he⟩ <;> rw [he]
  rfl

theorem scheduleNext_perm (ln : ℚ → ℚ) (cfg : SimulationConfig)
    (s s1 : DiscreteEventSimulator) (h : s.scheduleNext ln cfg = some s1) :
    ∃ ia em, s.events.GetInterarrivalTime ln cfg = some (ia, em) ∧
      (pending s1).Perm (nextArrivals cfg s ia ++ pending s) := by
  obtain ⟨ia, em, hia, _, _, _, _, h1⟩ := scheduleNext_spec ln cfg s s1 h
  have hel := GetInterarrivalTime_eventList ln cfg s.events em ia hia
  refine ⟨ia, em, hia, ?_⟩
  unfold pending nextArrivals
  rcases h1 with ⟨hle, he⟩ | ⟨hle, he⟩
  · rw [he, if_pos hle, ← hel]
    exact ScheduleEvent_perm em _ _ _
  · rw [he, if_neg hle, hel]
    exact List.Perm.refl _

theorem max_zero_eq (x : ℚ) : (if x < 0 then 0 else x) = max 0 x := by
  split
  · next h => exact (max_eq_left (le_of_lt h)).symm
  · next h => exact (max_eq_right (not_lt.1 h)).symm

/-- C24. `processDeparture` at clock `t`: with a non-empty queue it removes the
head and keeps the rest in order, adds `max 0 (t - head.ArrivalTime)` to
`TotalDelay`, schedules one departure at `t + head.ServiceTime` that carries
the head with `ServiceStart = t` and status in-service, adds one to
`CustomersServed` and leaves the server busy; with an empty queue it sets the
server idle and schedules nothing. `TotalCustomers` and `RejectedCustomers`
do not change, and a customer attached to the event gets `ExitTime = t` and
is recorded by one call of `RecordCustomerCompletion`. -/
theorem processDeparture_cases (s : DiscreteEventSimulator) (customer : Option Customer) :
    (∀ head rest, s.state.Queue = head :: rest →
      (s.processDeparture customer).state = { s.state with
        Queue := rest
        TotalDelay := s.state.TotalDelay + max 0 (s.state.Clock - head.ArrivalTime)
        ServerBusy := true
        CustomersServed := s.state.CustomersServed + 1 } ∧
      (pending (s.processDeparture customer)).Perm
        ({ Kind := EventType.EventDeparture, Timestamp := s.state.Clock + head.ServiceTime,
           Customer := some { head with
             ServiceStart := s.state.Clock, Status := CustomerStatus.CustomerInService },
           Priority := 0 } :: pending s)) ∧
    (s.state.Queue = [] →
      (s.processDeparture customer).state = { s.state with ServerBusy := false } ∧
      pending (s.processDeparture customer) = pending s) ∧
    (s.processDeparture customer).state.TotalCustomers = s.state.TotalCustomers ∧
    (s.processDeparture customer).state.RejectedCustomers = s.state.RejectedCustomers ∧
    (∀ c, customer = some c →
      (s.departedCustomer c).ExitTime = s.state.Clock ∧
      (s.processDeparture customer).stats
        = s.stats.RecordCustomerCompletion (s.departedCustomer c) ∧
      (s.processDeparture customer).stats.waitTimes.length
        = s.stats.waitTimes.length + 1) ∧
    (customer = none → (s.processDeparture customer).stats = s.stats) := by
  obtain ⟨_, _, hstats, hcase⟩ := processDeparture_spec s customer
  refine ⟨?_, ?_, ?_, ?_, ?_, ?_⟩
  · intro head rest hq
    rcases hcase with ⟨n, r, hq2, hst, hev⟩ | ⟨hq2, _, _⟩
    · rw [hq] at hq2
      cases hq2
      refine ⟨?_, ?_⟩
      · rw [hst, max_zero_eq]
      · unfold pending
        rw [hev]
        exact ScheduleEvent_perm _ _ _ _
    · rw [hq] at hq2
      cases hq2
  · intro hq
    rcases hcase with ⟨n, r, hq2, _, _⟩ | ⟨_, hst, hev⟩
    · rw [hq] at hq2
      cases hq2
    · refine ⟨hst, ?_⟩
      unfold pending
      rw [hev]
  · rcases hcase with ⟨n, r, _, hst, _⟩ | ⟨_, hst, _⟩ <;> rw [hst]
  · rcases hcase with ⟨n, r, _, hst, _⟩ | ⟨_, hst, _⟩ <;> rw [hst]
  · intro c hc
    subst hc
    refine ⟨rfl, hstats, ?_⟩
    rw [hstats]
    simp [EnhancedStatisticsCollector.RecordCustomerCompletion]
  · intro hc
    subst hc
    exact hstats

/-- C23. `processArrival` at clock `t`, with the drawn service time `st` and
the interarrival time `ia` drawn after it: the new customer has the
identifier `customerID`, arrival time `t` and service time `st`; `customerID`
and `TotalCustomers` grow by one; then exactly one of three cases. Server
idle: the server becomes busy, the customer gets `ServiceStart = t` and
status in-service, one departure carrying it is scheduled at `t + st`,
`CustomersServed` grows by one and the queue is unchanged. Server busy with
room: the customer, with status waiting, is appended at the tail of the
queue, and nothing else changes. Otherwise: the customer is rejected,
`RejectedCustomers` grows by one, and nothing else changes. Besides the
departure of the first case the only new event is the next arrival, at
`t + ia`, scheduled only if that time is within the horizon. -/
theorem processArrival_cases (ln : ℚ → ℚ) (cfg : SimulationConfig)
    (s s1 : DiscreteEventSimulator) (h : s.processArrival ln cfg = some s1) :
    ∃ st em ia em2 c,
      s.events.GetServiceTime ln cfg = some (st, em) ∧
      em.GetInterarrivalTime ln cfg = some (ia, em2) ∧
      s.arrivalCustomer ln cfg = some c ∧
      c.ID = s.customerID ∧ c.ArrivalTime = s.state.Clock ∧ c.ServiceTime = st ∧
      s1.customerID = s.customerID + 1 ∧
      s1.state.TotalCustomers = s.state.TotalCustomers + 1 ∧
      (s.state.ServerBusy = false →
        c.ServiceStart = s.state.Clock ∧ c.Status = CustomerStatus.CustomerInService ∧
        s1.state = { s.state with
          TotalCustomers := s.state.TotalCustomers + 1
          ServerBusy := true
          CustomersServed := s.state.CustomersServed + 1 } ∧
        (pending s1).Perm (nextArrivals cfg s ia ++
          { Kind := EventType.EventDeparture, Timestamp := s.state.Clock + st,
            Customer := some c, Priority := 0 } :: pending s)) ∧
      (s.state.ServerBusy = true → (s.state.Queue.length : Int) < cfg.MaxQueueSize →
        c.Status = CustomerStatus.CustomerWaiting ∧
        s1.state = { s.state with
          TotalCustomers := s.state.TotalCustomers + 1
          Queue := s.state.Queue ++ [c] } ∧
        (pending s1).Perm (nextArrivals cfg s ia ++ pending s)) ∧
      (s.state.ServerBusy = true → ¬ (s.state.Queue.length : Int) < cfg.MaxQueueSize →
        c.Status = CustomerStatus.CustomerRejected ∧
        s1.state = { s.state with
          TotalCustomers := s.state.TotalCustomers + 1
          RejectedCustomers := s.state.RejectedCustomers + 1 } ∧
        (pending s1).Perm (nextArrivals cfg s ia ++ pending s)) := by
  obtain ⟨st, em, hst, h2⟩ := processArrival_spec ln cfg s s1 h
  have hel := GetServiceTime_eventList ln cfg s.events em st hst
  obtain ⟨ia, em3, hia3, hstate, _, hcid, _, _⟩ := scheduleNext_spec ln cfg _ s1 h2
  obtain ⟨ia2, em4, hia4, hperm⟩ := scheduleNext_perm ln cfg _ s1 h2
  rw [hia3] at hia4
  cases hia4
  obtain ⟨_, hpcid, _, hplace⟩ := place_spec cfg
    { s with
      events := em
      customerID := s.customerID + 1
      state := { s.state with TotalCustomers := s.state.TotalCustomers + 1 } }
    { ID := s.customerID, ArrivalTime := s.state.Clock, ServiceTime := st,
      ServiceStart := 0, ExitTime := 0, Status := CustomerStatus.CustomerWaiting }
  have hrng := place_rng cfg
    { s with
      events := em
      customerID := s.customerID + 1
      state := { s.state with TotalCustomers := s.state.TotalCustomers + 1 } }
    { ID := s.customerID, ArrivalTime := s.state.Clock, ServiceTime := st,
      ServiceStart := 0, ExitTime := 0, Status := CustomerStatus.CustomerWaiting }
  have hia : em.GetInterarrivalTime ln cfg = some (ia, { em with rng := em3.rng }) :=
    GetInterarrivalTime_rng ln cfg _ em3 em ia hrng.symm hia3
  have hcust : s.arrivalCustomer ln cfg = some (DiscreteEventSimulator.placedCustomer cfg
      { s with
        events := em
        customerID := s.customerID + 1
        state := { s.state with TotalCustomers := s.state.TotalCustomers + 1 } }
      { ID := s.customerID, ArrivalTime := s.state.Clock, ServiceTime := st,
        ServiceStart := 0, ExitTime := 0, Status := CustomerStatus.CustomerWaiting }) := by
    unfold DiscreteEventSimulator.arrivalCustomer
    rw [hst]
  have hclock : (DiscreteEventSimulator.place cfg
      { s with
        events := em
        customerID := s.customerID + 1
        state := { s.state with TotalCustomers := s.state.TotalCustomers + 1 } }
      { ID := s.customerID, ArrivalTime := s.state.Clock, ServiceTime := st,
        ServiceStart := 0, ExitTime := 0,
        Status := CustomerStatus.CustomerWaiting }).state.Clock = s.state.Clock := by
    rcases hplace with ⟨_, hs, _⟩ | ⟨_, _, hs, _⟩ | ⟨_, _, hs, _⟩ <;> rw [hs]
  have hperm2 : (pending s1).Perm (nextArrivals cfg s ia ++ pending
      (DiscreteEventSimulator.place cfg
        { s with
          events := em
          customerID := s.customerID + 1
          state := { s.state with TotalCustomers := s.state.TotalCustomers + 1 } }
        { ID := s.customerID, ArrivalTime := s.state.Clock, ServiceTime := st,
          ServiceStart := 0, ExitTime := 0, Status := CustomerStatus.CustomerWaiting })) := by
    have : nextArrivals cfg s ia = nextArrivals cfg
        (DiscreteEventSimulator.place cfg
          { s with
            events := em
            customerID := s.customerID + 1
            state := { s.state with TotalCustomers := s.state.TotalCustomers + 1 } }
          { ID := s.customerID, ArrivalTime := s.state.Clock, ServiceTime := st,
            ServiceStart := 0, ExitTime := 0, Status := CustomerStatus.CustomerWaiting })
        ia := by
      unfold nextArrivals
      rw [hclock]
    rw [this]
    exact hperm
  refine ⟨st, em, ia, _, _, hst, hia, hcust, ?_, ?_, ?_, ?_, ?_, ?_, ?_, ?_⟩
  · unfold DiscreteEventSimulator.placedCustomer
    split
    · rfl
    · split <;> rfl
  · unfold DiscreteEventSimulator.placedCustomer
    split
    · rfl
    · split <;> rfl
  · unfold DiscreteEventSimulator.placedCustomer
    split
    · rfl
    · split <;> rfl
  · rw [hcid, hpcid]
  · rw [hstate]
    rcases hplace with ⟨_, hs, _⟩ | ⟨_, _, hs, _⟩ | ⟨_, _, hs, _⟩ <;> rw [hs]
  · intro hidle
    rcases hplace with ⟨_, hs, he⟩ | ⟨hb, _⟩ | ⟨hb, _⟩
    · refine ⟨?_, ?_, ?_, ?_⟩
      · simp [DiscreteEventSimulator.placedCustomer, hidle]
      · simp [DiscreteEventSimulator.placedCustomer, hidle]
      · rw [hstate, hs]
      · refine hperm2.trans (List.Perm.append_left _ ?_)
        unfold pending
        rw [he]
        have hp := ScheduleEvent_perm em EventType.EventDeparture (s.state.Clock + st)
          (some { ID := s.customerID, ArrivalTime := s.state.Clock, ServiceTime := st,
                  ServiceStart := s.state.Clock, ExitTime := 0,
                  Status := CustomerStatus.CustomerInService })
        rw [hel] at hp
        simpa [DiscreteEventSimulator.placedCustomer, hidle] using hp
    · rw [hidle] at hb
      cases hb
    · rw [hidle] at hb
      cases hb
  · intro hbusy hroom
    rcases hplace with ⟨hb, _⟩ | ⟨_, _, hs, he⟩ | ⟨_, hn, _⟩
    · rw [hbusy] at hb
      cases hb
    · refine ⟨?_, ?_, ?_⟩
      · simp [DiscreteEventSimulator.placedCustomer, hbusy, hroom]
      · rw [hstate, hs]
        simp [DiscreteEventSimulator.placedCustomer, hbusy, hroom]
      · refine hperm2.trans (List.Perm.append_left _ ?_)
        unfold pending
        rw [he]
        exact List.Perm.of_eq (congrArg EventList.events hel)
    · exact absurd hroom hn
  · intro hbusy hfull
    rcases hplace with ⟨hb, _⟩ | ⟨_, hr, _⟩ | ⟨_, _, hs, he⟩
    · rw [hbusy] at hb
      cases hb
    · exact absurd hr hfull
    · refine ⟨?_, ?_, ?_⟩
      · simp [DiscreteEventSimulator.placedCustomer, hbusy, hfull]
      · rw [hstate, hs]
      · refine hperm2.trans (List.Perm.append_left _ ?_)
        unfold pending
        rw [he]
        exact List.Perm.of_eq (congrArg EventList.events hel)

/-- Witness of C23: the first arrival of the demo run, which finds the server
idle. -/
theorem processArrival_cases_witness :
    (atEvent demoInit demoFirst).state.ServerBusy = false ∧
    (atEvent demoInit demoFirst).processArrival demoLn demoConfig = some demoArrived ∧
    (pending demoArrived).map (fun x => (x.Kind, x.Timestamp))
      = [(EventType.EventDeparture, 1), (EventType.EventArrival, 5 / 4)] ∧
    ∃ c, (atEvent demoInit demoFirst).arrivalCustomer demoLn demoConfig = some c ∧
      c.ID = 1 ∧ c.ServiceStart = 1 / 2 ∧ c.Status = CustomerStatus.CustomerInService ∧
      demoArrived.customerID = 2 ∧ demoArrived.state.TotalCustomers = 1 ∧
      demoArrived.state.CustomersServed = 1 ∧ demoArrived.state.ServerBusy = true := by
  have hrun : (atEvent demoInit demoFirst).processArrival demoLn demoConfig
      = some demoArrived := by decide!
  have hidle : (atEvent demoInit demoFirst).state.ServerBusy = false := by decide!
  obtain ⟨st, em, ia, em2, c, _, _, hc, h1, _, _, h2, h3, hcase, _, _⟩ :=
    processArrival_cases demoLn demoConfig (atEvent demoInit demoFirst) demoArrived hrun
  obtain ⟨h4, h5, h6, _⟩ := hcase hidle
  refine ⟨hidle, hrun, by decide!, c, hc, ?_, ?_, h5, ?_, ?_, ?_, ?_⟩
  · rw [h1]
    decide!
  · rw [h4]
    decide!
  · rw [h2]
    decide!
  · rw [h3]
    decide!
  · rw [h6]
    decide!
  · rw [h6]

/-! ## Customer status and repeated initialization -/

/-- C25, the code at the failing input. The second event of the demo run is
the departure of customer 1, whose status is in-service. The loop of `Run`
applies it and records the completion, and the record of the customer then
has `ExitTime = 1` and still the status in-service: no statement assigns
`CustomerCompleted`. -/
theorem departed_customer_not_completed :
    (demoAfter 1).events.PeekNextEvent = some demoDeparture ∧
    Applies demoLn demoConfig (demoAfter 1) demoDeparture (demoAfter 2) ∧
    demoDeparture.Customer = some demoCustomer ∧
    demoCustomer.Status = CustomerStatus.CustomerInService ∧
    (demoAfter 1).stats.waitTimes.length = 0 ∧ (demoAfter 2).stats.waitTimes.length = 1 ∧
    (atEvent (demoAfter 1) demoDeparture).departedCustomer demoCustomer
      = { demoCustomer with ExitTime := 1 } ∧
    ((atEvent (demoAfter 1) demoDeparture).departedCustomer demoCustomer).Status
      = CustomerStatus.CustomerInService :=
  ⟨by decide!, by unfold Applies; decide!, rfl, rfl, by decide!, by decide!, by decide!,
    by decide!⟩

/-- C26, the code at the failing input. `Initialize` on the new simulator
leaves one pending arrival, at `1/2`. A second `Initialize`, as the manual
driver calls it, resets the state and the statistics and leaves two pending
arrivals, at `1/4` and `1/2`; `Initialize` after the demo run leaves the
departure at `9/4` next to the new arrival. -/
theorem second_initialize_keeps_events :
    (NewSimulator demoSrc 0 demoConfig).Initialize demoLn demoConfig = some demoInit ∧
    (pending demoInit).map (fun x => (x.Kind, x.Timestamp))
      = [(EventType.EventArrival, 1 / 2)] ∧
    demoInit.Initialize demoLn demoConfig = some manualStart ∧
    manualStart.state = initialState ∧ manualStart.stats = NewStatisticsCollector ∧
    manualStart.customerID = 1 ∧ manualStart.eventLog = [] ∧
    (pending manualStart).map (fun x => (x.Kind, x.Timestamp))
      = [(EventType.EventArrival, 1 / 4), (EventType.EventArrival, 1 / 2)] ∧
    (demoFinal.Initialize demoLn demoConfig).map
        (fun s => (s.state, (pending s).map (fun x => (x.Kind, x.Timestamp))))
      = some (initialState,
          [(EventType.EventArrival, 1 / 4), (EventType.EventDeparture, 9 / 4)]) := by
  refine ⟨?_, ?_, ?_, ?_, ?_, ?_, ?_, ?_, ?_⟩ <;> decide!

/-! ## Customer identifiers -/

theorem processArrival_counts (ln : ℚ → ℚ) (cfg : SimulationConfig)
    (s s1 : DiscreteEventSimulator) (h : s.processArrival ln cfg = some s1) :
    s1.customerID = s.customerID + 1 ∧
    s1.state.TotalCustomers = s.state.TotalCustomers + 1 ∧
    ∃ c, s.arrivalCustomer ln cfg = some c ∧ c.ID = s.customerID := by
  obtain ⟨st, em, hst, h2⟩ := processArrival_spec ln cfg s s1 h
  obtain ⟨ia, em3, _, hstate, _, hcid, _, _⟩ := scheduleNext_spec ln cfg _ s1 h2
  obtain ⟨_, hpcid, _, hplace⟩ := place_spec cfg
    { s with
      events := em
      customerID := s.customerID + 1
      state := { s.state with TotalCustomers := s.state.TotalCustomers + 1 } }
    { ID := s.customerID, ArrivalTime := s.state.Clock, ServiceTime := st,
      ServiceStart := 0, ExitTime := 0, Status := CustomerStatus.CustomerWaiting }
  refine ⟨?_, ?_, ?_⟩
  · rw [hcid, hpcid]
  · rw [hstate]
    rcases hplace with ⟨_, hs, _⟩ | ⟨_, _, hs, _⟩ | ⟨_, _, hs, _⟩ <;> rw [hs]
  · unfold DiscreteEventSimulator.arrivalCustomer
    rw [hst]
    refine ⟨_, rfl, ?_⟩
    unfold DiscreteEventSimulator.placedCustomer
    split
    · rfl
    · split <;> rfl

theorem Applies_ids (ln : ℚ → ℚ) (cfg : SimulationConfig)
    (s s1 : DiscreteEventSimulator) (e : Event) (h : Applies ln cfg s e s1) :
    (e.Kind = EventType.EventArrival →
      s1.customerID = s.customerID + 1 ∧
      s1.state.TotalCustomers = s.state.TotalCustomers + 1 ∧
      ∃ c, (atEvent s e).arrivalCustomer ln cfg = some c ∧ c.ID = s.customerID) ∧
    (e.Kind ≠ EventType.EventArrival →
      s1.customerID = s.customerID ∧ s1.state.TotalCustomers = s.state.TotalCustomers) := by
  obtain ⟨s3, hs3, rfl, _, _⟩ := Applies_unfold ln cfg s s1 e h
  have hs3a : (atEvent s e).processEvent ln cfg e = some s3 := hs3
  have hid : (atEvent s e).customerID = s.customerID := by
    simp only [atEvent, flush_customerID]
  have htot : (atEvent s e).state.TotalCustomers = s.state.TotalCustomers := by
    simp only [atEvent, flush_state]
  unfold DiscreteEventSimulator.processEvent at hs3a
  refine ⟨fun harr => ?_, fun hne => ?_⟩
  · rw [harr] at hs3a
    simp only at hs3a
    obtain ⟨h1, h2, c, hc, hcid⟩ := processArrival_counts ln cfg _ s3 hs3a
    exact ⟨h1.trans (by rw [hid]), h2.trans (by rw [htot]), c, hc, hcid.trans hid⟩
  · split at hs3a
    · next hk => exact absurd hk hne
    · simp only [Option.some.injEq] at hs3a
      rw [← hs3a]
      obtain ⟨h1, _, _, hcase⟩ := processDeparture_spec (atEvent s e) e.Customer
      refine ⟨h1.trans hid, ?_⟩
      rcases hcase with ⟨n, r, _, hst, _⟩ | ⟨_, hst, _⟩
      · show (DiscreteEventSimulator.processDeparture (atEvent s e)
          e.Customer).state.TotalCustomers = _
        rw [hst]
        exact htot
      · show (DiscreteEventSimulator.processDeparture (atEvent s e)
          e.Customer).state.TotalCustomers = _
        rw [hst]
        exact htot
    · simp only [Option.some.injEq] at hs3a
      rw [← hs3a]
      exact ⟨hid, htot⟩

theorem Reachable_ids (ln : ℚ → ℚ) (src : Int → List ℚ) (now : Int)
    (cfg : SimulationConfig) (s : DiscreteEventSimulator)
    (hr : Reachable ln src now cfg s) : s.customerID = s.state.TotalCustomers + 1 := by
  induction hr with
  | init s0 h0 =>
    obtain ⟨_, _, _, hst, _, hcid, _⟩ := Initialize_spec ln cfg _ s0 h0
    rw [hst, hcid]
    rfl
  | step s s1 e _ hstep ih =>
    obtain ⟨ha, hd⟩ := Applies_ids ln cfg s s1 e hstep
    by_cases hk : e.Kind = EventType.EventArrival
    · obtain ⟨h1, h2, _⟩ := ha hk
      rw [h1, h2, ih]
    · obtain ⟨h1, h2⟩ := hd hk
      rw [h1, h2, ih]

/-- C27. In every state reached from `Initialize` by applied events,
`RejectedCustomers + CustomersServed + len(Queue) = TotalCustomers` and the
next identifier `customerID` is `TotalCustomers + 1`; an applied arrival gives
its customer the identifier `TotalCustomers + 1` and raises `TotalCustomers`
and `customerID` by one, and any other applied event leaves both unchanged:
the identifiers are `1, 2, 3, ...` in arrival order. -/
theorem customer_ids_sequential (ln : ℚ → ℚ) (src : Int → List ℚ) (now : Int)
    (cfg : SimulationConfig) (s : DiscreteEventSimulator)
    (hr : Reachable ln src now cfg s) :
    s.state.RejectedCustomers + s.state.CustomersServed + (s.state.Queue.length : Int)
      = s.state.TotalCustomers ∧
    s.customerID = s.state.TotalCustomers + 1 ∧
    ∀ e s1, Applies ln cfg s e s1 →
      (e.Kind = EventType.EventArrival →
        s1.state.TotalCustomers = s.state.TotalCustomers + 1 ∧
        s1.customerID = s.customerID + 1 ∧
        ∃ c, (atEvent s e).arrivalCustomer ln cfg = some c ∧
          c.ID = s.state.TotalCustomers + 1) ∧
      (e.Kind ≠ EventType.EventArrival →
        s1.state.TotalCustomers = s.state.TotalCustomers ∧ s1.customerID = s.customerID) := by
  have hid := Reachable_ids ln src now cfg s hr
  refine ⟨(Reachable_invServe ln src now cfg s hr).2.2.1, hid, fun e s1 hstep => ?_⟩
  obtain ⟨ha, hd⟩ := Applies_ids ln cfg s s1 e hstep
  refine ⟨fun hk => ?_, fun hk => ?_⟩
  · obtain ⟨h1, h2, c, hc, hcid⟩ := ha hk
    exact ⟨h2, h1, c, hc, hcid.trans hid⟩
  · obtain ⟨h1, h2⟩ := hd hk
    exact ⟨h2, h1⟩

/-- Witness of C27: the demo run after three events, with two customers
counted, and its fourth event, the arrival of customer 3. -/
theorem customer_ids_sequential_witness :
    (demoAfter 3).state.TotalCustomers = 2 ∧ (demoAfter 3).customerID = 3 ∧
    Applies demoLn demoConfig (demoAfter 3) demoFourth (demoAfter 4) ∧
    ((atEvent (demoAfter 3) demoFourth).arrivalCustomer demoLn demoConfig).map
      (fun c => c.ID) = some 3 ∧
    (demoAfter 3).state.RejectedCustomers + (demoAfter 3).state.CustomersServed
        + ((demoAfter 3).state.Queue.length : Int) = (demoAfter 3).state.TotalCustomers ∧
    (demoAfter 3).customerID = (demoAfter 3).state.TotalCustomers + 1 ∧
    (demoAfter 4).state.TotalCustomers = (demoAfter 3).state.TotalCustomers + 1 ∧
    (demoAfter 4).customerID = (demoAfter 3).customerID + 1 :=
  ⟨by decide!, by decide!, by unfold Applies; decide!, by decide!,
    (customer_ids_sequential demoLn demoSrc 0 demoConfig (demoAfter 3)
      (demoAfter_reachable 3 (by decide!))).1,
    (customer_ids_sequential demoLn demoSrc 0 demoConfig (demoAfter 3)
      (demoAfter_reachable 3 (by decide!))).2.1,
    (((customer_ids_sequential demoLn demoSrc 0 demoConfig (demoAfter 3)
      (demoAfter_reachable 3 (by decide!))).2.2 demoFourth (demoAfter 4)
      (by unfold Applies; decide!)).1 rfl).1,
    (((customer_ids_sequential demoLn demoSrc 0 demoConfig (demoAfter 3)
      (demoAfter_reachable 3 (by decide!))).2.2 demoFourth (demoAfter 4)
      (by unfold Applies; decide!)).1 rfl).2.1⟩

/-! ## Bounds on the metrics of a run -/

theorem flush_maxQueue_le (s : DiscreteEventSimulator) (dt : ℚ) (M : Int)
    (h1 : (s.state.Queue.length : Int) ≤ M) (h2 : s.stats.maxQueueLength ≤ M) :
    (s.flush dt).stats.maxQueueLength ≤ M := by
  unfold DiscreteEventSimulator.flush EnhancedStatisticsCollector.UpdatePreEvent
  split
  · simp only
    split
    · exact h2
    · simp only
      split
      · exact h1
      · exact h2
  · exact h2

theorem processEvent_extra (ln : ℚ → ℚ) (cfg : SimulationConfig)
    (s s1 : DiscreteEventSimulator) (e : Event) (hs : s.processEvent ln cfg e = some s1) :
    s1.stats.maxQueueLength = s.stats.maxQueueLength ∧
    s.state.RejectedCustomers ≤ s1.state.RejectedCustomers := by
  unfold DiscreteEventSimulator.processEvent at hs
  split at hs
  · obtain ⟨st, em, _, h2⟩ := processArrival_spec ln cfg s s1 hs
    obtain ⟨_, _, _, hstate, hstats, _⟩ := scheduleNext_spec ln cfg _ s1 h2
    obtain ⟨hps, _, _, hcase⟩ := place_spec cfg
      { s with
        events := em
        customerID := s.customerID + 1
        state := { s.state with TotalCustomers := s.state.TotalCustomers + 1 } }
      { ID := s.customerID, ArrivalTime := s.state.Clock, ServiceTime := st,
        ServiceStart := 0, ExitTime := 0, Status := CustomerStatus.CustomerWaiting }
    refine ⟨?_, ?_⟩
    · rw [hstats, hps]
    · rw [hstate]
      rcases hcase with ⟨_, hst, _⟩ | ⟨_, _, hst, _⟩ | ⟨_, _, hst, _⟩
      · rw [hst]
      · rw [hst]
      · rw [hst]
        simp
  · simp only [Option.some.injEq] at hs
    rw [← hs]
    obtain ⟨_, _, hstats, hcase⟩ := processDeparture_spec s e.Customer
    refine ⟨?_, ?_⟩
    · rw [hstats]
      cases e.Customer <;> rfl
    · rcases hcase with ⟨n, r, _, hst, _⟩ | ⟨_, hst, _⟩ <;> rw [hst]
  · simp only [Option.some.injEq] at hs
    rw [← hs]
    exact ⟨rfl, le_refl _⟩

theorem Applies_invQueue (ln : ℚ → ℚ) (cfg : SimulationConfig)
    (s s1 : DiscreteEventSimulator) (e : Event) (hr : 0 < cfg.ArrivalRate)
    (hm : 0 < cfg.ServiceRate) (hln : LogNegative ln) (hmax : 0 ≤ cfg.MaxQueueSize)
    (hinv : InvTime cfg s) (hq : InvQueue cfg s) (h : Applies ln cfg s e s1) :
    InvQueue cfg s1 := by
  obtain ⟨q1, q2, q3, q4, q5⟩ := hq
  obtain ⟨_, hclk, hc1, hQ, _, _⟩ := Applies_invTime ln cfg s s1 e hr hm hln hinv h
  have hlast : s.state.LastEventTime = s.state.Clock := hinv.2.1
  have hlenQ : (s.state.Queue.length : ℚ) ≤ (cfg.MaxQueueSize : ℚ) := by exact_mod_cast q3
  have hmaxQ : (0 : ℚ) ≤ (cfg.MaxQueueSize : ℚ) := by exact_mod_cast hmax
  have hlen0 : (0 : ℚ) ≤ (s.state.Queue.length : ℚ) := Nat.cast_nonneg _
  rw [integralQ_flushArgs, hlast] at hQ
  have hdt : 0 ≤ e.Timestamp - s.state.Clock := by linarith
  refine ⟨?_, ?_, Applies_queue_le ln cfg s s1 e h q3, ?_, ?_⟩
  · rw [hQ]
    split
    · next hpos => nlinarith [mul_nonneg hlen0 (le_of_lt hpos)]
    · linarith
  · rw [hQ, hc1]
    split
    · next hpos =>
      have := mul_le_mul_of_nonneg_right hlenQ (le_of_lt hpos)
      nlinarith
    · have := mul_nonneg hmaxQ hdt
      nlinarith
  · obtain ⟨s3, hs3, rfl, _, _⟩ := Applies_unfold ln cfg s s1 e h
    obtain ⟨e1, _⟩ := processEvent_extra ln cfg _ s3 e hs3
    show s3.stats.maxQueueLength ≤ cfg.MaxQueueSize
    rw [e1]
    exact flush_maxQueue_le s _ _ q3 q4
  · obtain ⟨s3, hs3, rfl, _, _⟩ := Applies_unfold ln cfg s s1 e h
    obtain ⟨_, e2⟩ := processEvent_extra ln cfg _ s3 e hs3
    simp only [flush_state] at e2
    exact le_trans q5 e2

theorem Reachable_invQueue (ln : ℚ → ℚ) (src : Int → List ℚ) (now : Int)
    (cfg : SimulationConfig) (s : DiscreteEventSimulator) (hr : 0 < cfg.ArrivalRate)
    (hm : 0 < cfg.ServiceRate) (hln : LogNegative ln) (hsrc : ∀ seed, ValidStream (src seed))
    (hmax : 0 ≤ cfg.MaxQueueSize) (h : Reachable ln src now cfg s) : InvQueue cfg s := by
  induction h with
  | init s0 h0 =>
    obtain ⟨_, _, _, hst, hstats, _⟩ := Initialize_spec ln cfg _ s0 h0
    unfold InvQueue
    rw [hst, hstats]
    simp only [initialState, NewStatisticsCollector, List.length_nil, mul_zero, le_refl,
      Nat.cast_zero, true_and]
    exact ⟨hmax, hmax, trivial⟩
  | step s s1 e hs hstep ih =>
    exact Applies_invQueue ln cfg s s1 e hr hm hln hmax
      (Reachable_invTime ln src now cfg s hr hm hln hsrc hs) ih hstep

theorem runFinal_counters (cfg : SimulationConfig) (s : DiscreteEventSimulator) :
    (s.runFinal cfg).state.RejectedCustomers = s.state.RejectedCustomers ∧
    (s.runFinal cfg).state.TotalCustomers = s.state.TotalCustomers ∧
    (s.runFinal cfg).state.CustomersServed = s.state.CustomersServed ∧
    (s.runFinal cfg).state.Queue = s.state.Queue := by
  unfold DiscreteEventSimulator.runFinal
  split
  · simp only [flush_state]
    exact ⟨trivial, trivial, trivial, trivial⟩
  · exact ⟨rfl, rfl, rfl, rfl⟩

theorem runFinal_maxQueue_le (cfg : SimulationConfig) (s : DiscreteEventSimulator) (M : Int)
    (h1 : (s.state.Queue.length : Int) ≤ M) (h2 : s.stats.maxQueueLength ≤ M) :
    (s.runFinal cfg).stats.maxQueueLength ≤ M := by
  unfold DiscreteEventSimulator.runFinal
  split
  · exact flush_maxQueue_le s _ M h1 h2
  · exact h2

theorem runFinal_invQueue (cfg : SimulationConfig) (s : DiscreteEventSimulator)
    (hT : 0 ≤ cfg.SimulationTime) (hinv : InvTime cfg s) (hq : InvQueue cfg s) :
    0 ≤ (s.runFinal cfg).state.AreaUnderQ ∧
    (s.runFinal cfg).state.AreaUnderQ ≤ (cfg.MaxQueueSize : ℚ) * cfg.SimulationTime := by
  obtain ⟨q1, q2, q3, _, _⟩ := hq
  have hlast : s.state.LastEventTime = s.state.Clock := hinv.2.1
  have hclk : s.state.Clock ≤ cfg.SimulationTime := hinv.2.2.2.2 hT
  have hlenQ : (s.state.Queue.length : ℚ) ≤ (cfg.MaxQueueSize : ℚ) := by exact_mod_cast q3
  have hlen0 : (0 : ℚ) ≤ (s.state.Queue.length : ℚ) := Nat.cast_nonneg _
  have hmaxQ : (0 : ℚ) ≤ (cfg.MaxQueueSize : ℚ) := le_trans hlen0 hlenQ
  have hdt : 0 ≤ cfg.SimulationTime - s.state.Clock := by linarith
  obtain ⟨f1, _, _⟩ := runFinal_areas cfg s
  rw [f1]
  unfold finalIntervals
  split
  · rw [integralQ_flushArgs, hlast]
    split
    · next hpos =>
      have h3 := mul_le_mul_of_nonneg_right hlenQ (le_of_lt hpos)
      have h4 := mul_nonneg hlen0 (le_of_lt hpos)
      constructor
      · linarith
      · nlinarith
    · have := mul_nonneg hmaxQ hdt
      constructor
      · linarith
      · nlinarith
  · have := mul_nonneg hmaxQ hdt
    simp only [integralQ, List.map_nil, List.sum_nil, add_zero]
    constructor
    · exact q1
    · nlinarith

/-- C28. For a configuration with a positive horizon, a non-negative capacity
and positive rates, when `Run` returns after `Initialize` the computation of
the metrics returns too, and the metrics satisfy `0 ≤ ServerUtilization ≤ 1`,
`ServerBusyTime + ServerIdleTime = SimulationTime` with both parts
non-negative, `0 ≤ AverageQueueLength ≤ MaxQueueSize`,
`0 ≤ BlockingProbability ≤ 1` and `MaxQueueLength ≤ MaxQueueSize`. -/
theorem run_metrics_bounds (ln sqrt : ℚ → ℚ) (src : Int → List ℚ) (now : Int)
    (cfg : SimulationConfig) (fuel : Nat) (s0 sF : DiscreteEventSimulator)
    (hT : 0 < cfg.SimulationTime) (hmax : 0 ≤ cfg.MaxQueueSize)
    (hr : 0 < cfg.ArrivalRate) (hm : 0 < cfg.ServiceRate) (hln : LogNegative ln)
    (hsrc : ∀ seed, ValidStream (src seed))
    (h0 : (NewSimulator src now cfg).Initialize ln cfg = some s0)
    (hrun : s0.Run ln cfg fuel = some sF) :
    ∃ r, s0.RunResults ln sqrt cfg fuel = some r ∧ r.State = sF.state ∧
      0 ≤ r.Metrics.ServerUtilization ∧ r.Metrics.ServerUtilization ≤ 1 ∧
      r.Metrics.ServerBusyTime + r.Metrics.ServerIdleTime = cfg.SimulationTime ∧
      0 ≤ r.Metrics.ServerBusyTime ∧ 0 ≤ r.Metrics.ServerIdleTime ∧
      0 ≤ r.Metrics.AverageQueueLength ∧
      r.Metrics.AverageQueueLength ≤ (cfg.MaxQueueSize : ℚ) ∧
      0 ≤ r.Metrics.BlockingProbability ∧ r.Metrics.BlockingProbability ≤ 1 ∧
      r.Metrics.MaxQueueLength ≤ cfg.MaxQueueSize := by
  have hbuilt := Run_stats_built ln sqrt src now cfg fuel s0 sF h0 hrun
  have hlen := (Consistent_length sF.stats (Built_consistent sqrt cfg sF.stats hbuilt)).1
  obtain ⟨sc1, hsc1, _, ⟨_, mQ, mU, _, _, _, mB, _⟩, ⟨mBusy, mIdle, _, _, mMax, _⟩, _⟩ :=
    CalculateFinalMetrics_spec sqrt cfg sF.stats sF.state hlen
  have hres : s0.RunResults ln sqrt cfg fuel
      = some { Config := cfg, Metrics := sc1.metrics, State := sF.state,
               EventLog := sF.eventLog } := by
    unfold DiscreteEventSimulator.RunResults
    rw [hrun]
    simp only [hsc1]
  refine ⟨_, hres, rfl, ?_⟩
  simp only
  unfold DiscreteEventSimulator.Run at hrun
  split at hrun
  · simp at hrun
  · next s1 hs1 =>
    simp only [Option.some.injEq] at hrun
    subst hrun
    obtain ⟨j1, jr, _⟩ := runLoop_invTime ln src now cfg hr hm hln fuel s0 s1
      (Initialize_invTime ln src now cfg s0 hr hln hsrc h0) (Reachable.init s0 h0) hs1
    have jq := Reachable_invQueue ln src now cfg s1 hr hm hln hsrc hmax jr
    obtain ⟨_, _, b0, b1, hclock⟩ := runFinal_spec cfg s1 j1
    have hclk : (s1.runFinal cfg).state.Clock = cfg.SimulationTime := (hclock (le_of_lt hT)).1
    obtain ⟨a0, a1⟩ := runFinal_invQueue cfg s1 (le_of_lt hT) j1 jq
    obtain ⟨c1, c2, _, _⟩ := runFinal_counters cfg s1
    obtain ⟨_, _, i3, i4⟩ := Reachable_invServe ln src now cfg s1 jr
    have hpos : (s1.runFinal cfg).state.Clock > 0 := by
      rw [hclk]
      exact hT
    rw [hclk] at b1
    rw [mU, mQ, mB, mBusy, mIdle, mMax, if_pos hpos, if_pos hpos, if_pos hpos, if_pos hpos,
      hclk, c1, c2]
    have hTne : cfg.SimulationTime ≠ 0 := ne_of_gt hT
    have hrej : (0 : ℚ) ≤ (s1.state.RejectedCustomers : ℚ) := by exact_mod_cast jq.2.2.2.2
    have hle : s1.state.RejectedCustomers ≤ s1.state.TotalCustomers := by
      have h5 : (0 : Int) ≤ (s1.state.Queue.length : Int) := Int.natCast_nonneg _
      have h6 : (0 : Int) ≤ ((deps (pending s1)).length : Int) := Int.natCast_nonneg _
      have h7 : (0 : Int) ≤ (s1.stats.waitTimes.length : Int) := Int.natCast_nonneg _
      omega
    have hleQ : (s1.state.RejectedCustomers : ℚ) ≤ (s1.state.TotalCustomers : ℚ) := by
      exact_mod_cast hle
    refine ⟨div_nonneg b0 (le_of_lt hT), (div_le_one hT).2 b1, by ring, b0, by linarith,
      div_nonneg a0 (le_of_lt hT), ?_, ?_, ?_, ?_⟩
    · rw [div_le_iff₀ hT]
      exact a1
    · split
      · next hpt =>
        have : (0 : ℚ) < (s1.state.TotalCustomers : ℚ) := by exact_mod_cast hpt
        exact div_nonneg hrej (le_of_lt this)
      · exact le_refl _
    · split
      · next hpt =>
        have : (0 : ℚ) < (s1.state.TotalCustomers : ℚ) := by exact_mod_cast hpt
        exact (div_le_one this).2 hleQ
      · exact zero_le_one
    · exact runFinal_maxQueue_le cfg s1 _ jq.2.2.1 jq.2.2.2.1

/-- Witness of C28: the demo run, with utilization `5/8`, busy time `5/4`,
idle time `3/4`, average queue length `1/4` and no rejection. -/
theorem run_metrics_bounds_witness :
    (demoInit.RunResults demoLn demoSqrt demoConfig 10).map
      (fun r => (r.Metrics.ServerUtilization, r.Metrics.ServerBusyTime,
        r.Metrics.ServerIdleTime, r.Metrics.AverageQueueLength))
      = some (5 / 8, 5 / 4, 3 / 4, 1 / 4) ∧
    ∃ r, demoInit.RunResults demoLn demoSqrt demoConfig 10 = some r ∧
      r.State = demoFinal.state ∧
      0 ≤ r.Metrics.ServerUtilization ∧ r.Metrics.ServerUtilization ≤ 1 ∧
      r.Metrics.ServerBusyTime + r.Metrics.ServerIdleTime = demoConfig.SimulationTime ∧
      0 ≤ r.Metrics.ServerBusyTime ∧ 0 ≤ r.Metrics.ServerIdleTime ∧
      0 ≤ r.Metrics.AverageQueueLength ∧
      r.Metrics.AverageQueueLength ≤ (demoConfig.MaxQueueSize : ℚ) ∧
      0 ≤ r.Metrics.BlockingProbability ∧ r.Metrics.BlockingProbability ≤ 1 ∧
      r.Metrics.MaxQueueLength ≤ demoConfig.MaxQueueSize :=
  ⟨by decide!,
    run_metrics_bounds demoLn demoSqrt demoSrc 0 demoConfig 10 demoInit demoFinal
      (by decide!) (by decide) (by decide!) (by decide!) demoLn_negative demoSrc_valid
      demoInit_eq demoFinal_eq⟩

/-! ## The constant distribution -/

theorem const_interarrival (ln : ℚ → ℚ) (cfg : SimulationConfig) (em : EventManager)
    (hd : cfg.Random.Distribution = "constant") (hr : cfg.ArrivalRate ≠ 0) :
    em.GetInterarrivalTime ln cfg = some (1 / cfg.ArrivalRate, em) := by
  rw [GetInterarrivalTime_unfold ln cfg em hr, hd]
  rfl

theorem const_service (ln : ℚ → ℚ) (cfg : SimulationConfig) (em : EventManager)
    (hd : cfg.Random.Distribution = "constant") (hr : cfg.ServiceRate ≠ 0) :
    em.GetServiceTime ln cfg = some (1 / cfg.ServiceRate, em) := by
  rw [GetServiceTime_unfold ln cfg em hr, hd]
  rfl

theorem arrs_perm (l1 l2 : List Event) (h : l1.Perm l2) : (arrs l1).Perm (arrs l2) :=
  List.Perm.filter _ h

theorem arrs_cons_arr (e : Event) (l : List Event) (h : e.Kind = EventType.EventArrival) :
    arrs (e :: l) = e :: arrs l := by
  simp [arrs, h]

theorem arrs_cons_other (e : Event) (l : List Event) (h : e.Kind ≠ EventType.EventArrival) :
    arrs (e :: l) = arrs l := by
  simp [arrs, h]

theorem arrs_schedule_dep (em : EventManager) (t : ℚ) (c : Option Customer) :
    (arrs (em.ScheduleEvent EventType.EventDeparture t c).eventList.events).Perm
      (arrs em.eventList.events) := by
  have := arrs_perm _ _ (ScheduleEvent_perm em EventType.EventDeparture t c)
  rwa [arrs_cons_other _ _ (by simp)] at this

theorem place_arrs (cfg : SimulationConfig) (s : DiscreteEventSimulator) (c : Customer) :
    (arrs (pending (s.place cfg c))).Perm (arrs (pending s)) := by
  obtain ⟨_, _, _, h⟩ := place_spec cfg s c
  unfold pending
  rcases h with ⟨_, _, he⟩ | ⟨_, _, _, he⟩ | ⟨_, _, _, he⟩
  · rw [he]
    exact arrs_schedule_dep _ _ _
  · rw [he]
  · rw [he]

theorem processDeparture_arrs (s : DiscreteEventSimulator) (c : Option Customer) :
    (arrs (pending (s.processDeparture c))).Perm (arrs (pending s)) := by
  obtain ⟨_, _, _, h⟩ := processDeparture_spec s c
  unfold pending
  rcases h with ⟨n, rest, _, _, he⟩ | ⟨_, _, he⟩
  · rw [he]
    exact arrs_schedule_dep _ _ _
  · rw [he]

theorem processEvent_arrs (ln : ℚ → ℚ) (cfg : SimulationConfig)
    (s s1 : DiscreteEventSimulator) (e : Event) (hs : s.processEvent ln cfg e = some s1) :
    (e.Kind = EventType.EventArrival →
      ∃ (ia : ℚ) (em em1 : EventManager), em.GetInterarrivalTime ln cfg = some (ia, em1) ∧
        (arrs (pending s1)).Perm (nextArrivals cfg s ia ++ arrs (pending s))) ∧
    (e.Kind ≠ EventType.EventArrival → (arrs (pending s1)).Perm (arrs (pending s))) := by
  unfold DiscreteEventSimulator.processEvent at hs
  split at hs
  · next hk =>
    refine ⟨fun _ => ?_, fun hne => absurd hk hne⟩
    obtain ⟨st, em, hst, h2⟩ := processArrival_spec ln cfg s s1 hs
    have hel := GetServiceTime_eventList ln cfg s.events em st hst
    obtain ⟨ia, em3, hia3, hperm⟩ := scheduleNext_perm ln cfg _ s1 h2
    have hpa := place_arrs cfg
      { s with
        events := em
        customerID := s.customerID + 1
        state := { s.state with TotalCustomers := s.state.TotalCustomers + 1 } }
      { ID := s.customerID, ArrivalTime := s.state.Clock, ServiceTime := st,
        ServiceStart := 0, ExitTime := 0, Status := CustomerStatus.CustomerWaiting }
    obtain ⟨_, _, _, hplace⟩ := place_spec cfg
      { s with
        events := em
        customerID := s.customerID + 1
        state := { s.state with TotalCustomers := s.state.TotalCustomers + 1 } }
      { ID := s.customerID, ArrivalTime := s.state.Clock, ServiceTime := st,
        ServiceStart := 0, ExitTime := 0, Status := CustomerStatus.CustomerWaiting }
    have hclock : (DiscreteEventSimulator.place cfg
        { s with
          events := em
          customerID := s.customerID + 1
          state := { s.state with TotalCustomers := s.state.TotalCustomers + 1 } }
        { ID := s.customerID, ArrivalTime := s.state.Clock, ServiceTime := st,
          ServiceStart := 0, ExitTime := 0,
          Status := CustomerStatus.CustomerWaiting }).state.Clock = s.state.Clock := by
      rcases hplace with ⟨_, hs, _⟩ | ⟨_, _, hs, _⟩ | ⟨_, _, hs, _⟩ <;> rw [hs]
    have hna : nextArrivals cfg
        (DiscreteEventSimulator.place cfg
          { s with
            events := em
            customerID := s.customerID + 1
            state := { s.state with TotalCustomers := s.state.TotalCustomers + 1 } }
          { ID := s.customerID, ArrivalTime := s.state.Clock, ServiceTime := st,
            ServiceStart := 0, ExitTime := 0, Status := CustomerStatus.CustomerWaiting })
        ia = nextArrivals cfg s ia := by
      unfold nextArrivals
      rw [hclock]
    have harrs_next : arrs (nextArrivals cfg s ia) = nextArrivals cfg s ia := by
      unfold nextArrivals
      split <;> simp [arrs]
    refine ⟨ia, _, em3, hia3, ?_⟩
    have h4 := arrs_perm _ _ hperm
    rw [hna] at h4
    have h5 : arrs (nextArrivals cfg s ia ++ pending
        (DiscreteEventSimulator.place cfg
          { s with
            events := em
            customerID := s.customerID + 1
            state := { s.state with TotalCustomers := s.state.TotalCustomers + 1 } }
          { ID := s.customerID, ArrivalTime := s.state.Clock, ServiceTime := st,
            ServiceStart := 0, ExitTime := 0, Status := CustomerStatus.CustomerWaiting }))
        = nextArrivals cfg s ia ++ arrs (pending
        (DiscreteEventSimulator.place cfg
          { s with
            events := em
            customerID := s.customerID + 1
            state := { s.state with TotalCustomers := s.state.TotalCustomers + 1 } }
          { ID := s.customerID, ArrivalTime := s.state.Clock, ServiceTime := st,
            ServiceStart := 0, ExitTime := 0, Status := CustomerStatus.CustomerWaiting })) := by
      unfold arrs at harrs_next ⊢
      rw [List.filter_append, harrs_next]
    rw [h5] at h4
    refine h4.trans (List.Perm.append_left _ (hpa.trans ?_))
    exact List.Perm.of_eq (congrArg arrs (congrArg EventList.events hel))
  · next hk =>
    simp only [Option.some.injEq] at hs
    rw [← hs]
    refine ⟨fun ha => ?_, fun _ => processDeparture_arrs s e.Customer⟩
    rw [hk] at ha
    cases ha
  · next hk =>
    simp only [Option.some.injEq] at hs
    rw [← hs]
    refine ⟨fun ha => ?_, fun _ => List.Perm.refl _⟩
    rw [hk] at ha
    cases ha

theorem processEvent_processed (ln : ℚ → ℚ) (cfg : SimulationConfig)
    (s s1 : DiscreteEventSimulator) (e : Event) (hs : s.processEvent ln cfg e = some s1) :
    s1.state.EventsProcessed = s.state.EventsProcessed ∧
    (e.Kind = EventType.EventArrival → s1.stats.waitTimes = s.stats.waitTimes) ∧
    (e.Kind = EventType.EventDeparture → ∀ c, e.Customer = some c →
      s1.stats.waitTimes.length = s.stats.waitTimes.length + 1) := by
  unfold DiscreteEventSimulator.processEvent at hs
  split at hs
  · next hk =>
    obtain ⟨st, em, _, h2⟩ := processArrival_spec ln cfg s s1 hs
    obtain ⟨_, _, _, hstate, hstats, _⟩ := scheduleNext_spec ln cfg _ s1 h2
    obtain ⟨hps, _, _, hcase⟩ := place_spec cfg
      { s with
        events := em
        customerID := s.customerID + 1
        state := { s.state with TotalCustomers := s.state.TotalCustomers + 1 } }
      { ID := s.customerID, ArrivalTime := s.state.Clock, ServiceTime := st,
        ServiceStart := 0, ExitTime := 0, Status := CustomerStatus.CustomerWaiting }
    refine ⟨?_, fun _ => ?_, fun hd => ?_⟩
    · rw [hstate]
      rcases hcase with ⟨_, hst, _⟩ | ⟨_, _, hst, _⟩ | ⟨_, _, hst, _⟩ <;> rw [hst]
    · rw [hstats, hps]
    · rw [hk] at hd
      cases hd
  · next hk =>
    simp only [Option.some.injEq] at hs
    rw [← hs]
    obtain ⟨_, _, hstats, hcase⟩ := processDeparture_spec s e.Customer
    refine ⟨?_, fun ha => ?_, fun _ c hc => ?_⟩
    · rcases hcase with ⟨n, r, _, hst, _⟩ | ⟨_, hst, _⟩ <;> rw [hst]
    · rw [hk] at ha
      cases ha
    · rw [hstats, hc]
      simp [EnhancedStatisticsCollector.RecordCustomerCompletion]
  · next hk =>
    simp only [Option.some.injEq] at hs
    rw [← hs]
    refine ⟨rfl, fun _ => rfl, fun hd => ?_⟩
    rw [hk] at hd
    cases hd

theorem Applies_shape (ln : ℚ → ℚ) (cfg : SimulationConfig)
    (s s1 : DiscreteEventSimulator) (e : Event) (h : Applies ln cfg s e s1) :
    (pending s).Perm (e :: s.events.eventList.Pop.2.events) ∧
    s1.state.EventsProcessed = s.state.EventsProcessed + 1 ∧
    s.state.RejectedCustomers ≤ s1.state.RejectedCustomers ∧
    (e.Kind = EventType.EventArrival →
      s1.stats.waitTimes = s.stats.waitTimes ∧
      ∃ (ia : ℚ) (em em1 : EventManager), em.GetInterarrivalTime ln cfg = some (ia, em1) ∧
        (arrs (pending s1)).Perm
          (nextArrivals cfg (atEvent s e) ia ++ arrs s.events.eventList.Pop.2.events)) ∧
    (e.Kind ≠ EventType.EventArrival →
      (arrs (pending s1)).Perm (arrs s.events.eventList.Pop.2.events)) ∧
    (e.Kind = EventType.EventDeparture → ∀ c, e.Customer = some c →
      s1.stats.waitTimes.length = s.stats.waitTimes.length + 1) := by
  obtain ⟨s3, hs3, rfl, hperm, _⟩ := Applies_unfold ln cfg s s1 e h
  have hs3a : (atEvent s e).processEvent ln cfg e = some s3 := hs3
  obtain ⟨p1, p2, p3⟩ := processEvent_processed ln cfg _ s3 e hs3a
  obtain ⟨a1, a2⟩ := processEvent_arrs ln cfg _ s3 e hs3a
  obtain ⟨_, x2⟩ := processEvent_extra ln cfg _ s3 e hs3a
  have hw : (atEvent s e).stats.waitTimes = s.stats.waitTimes := by
    simp only [atEvent, flush_samples]
  refine ⟨hperm, ?_, ?_, fun hk => ⟨?_, ?_⟩, fun hk => ?_, fun hk c hc => ?_⟩
  · show s3.state.EventsProcessed + 1 = _
    rw [p1]
    simp only [atEvent, flush_state]
  · show _ ≤ s3.state.RejectedCustomers
    simp only [atEvent, flush_state] at x2
    exact x2
  · exact (p2 hk).trans hw
  · exact a1 hk
  · exact a2 hk
  · show s3.stats.waitTimes.length = _
    rw [p3 hk c hc, hw]

theorem arrs_nextArrivals (cfg : SimulationConfig) (s : DiscreteEventSimulator) (e : Event)
    (ia : ℚ) :
    nextArrivals cfg (atEvent s e) ia =
      if e.Timestamp + ia ≤ cfg.SimulationTime then
        [{ Kind := EventType.EventArrival, Timestamp := e.Timestamp + ia, Customer := none,
           Priority := 0 }]
      else [] := rfl

theorem Applies_invConst (ln : ℚ → ℚ) (cfg : SimulationConfig)
    (s s1 : DiscreteEventSimulator) (e : Event)
    (hd : cfg.Random.Distribution = "constant") (hr0 : cfg.ArrivalRate ≠ 0)
    (hinv : InvConst cfg s) (hserve : InvServe s) (h : Applies ln cfg s e s1) :
    InvConst cfg s1 ∧
    (e.Kind = EventType.EventArrival →
      e.Timestamp = ((s.state.TotalCustomers : ℚ) + 1) / cfg.ArrivalRate ∧
      s1.state.TotalCustomers = s.state.TotalCustomers + 1) ∧
    (e.Kind ≠ EventType.EventArrival → s1.state.TotalCustomers = s.state.TotalCustomers) := by
  obtain ⟨k1, k2, k3, k4, k5, k6⟩ := hinv
  obtain ⟨hperm, hEP, hrej, hA, hD, hW⟩ := Applies_shape ln cfg s s1 e h
  obtain ⟨iA, iD⟩ := Applies_ids ln cfg s s1 e h
  obtain ⟨_, hpend, _⟩ := Applies_pending ln cfg s s1 e h
  have hmem : e ∈ pending s := hperm.mem_iff.2 (List.mem_cons_self _ _)
  have hkinds : ∀ x ∈ pending s1,
      x.Kind = EventType.EventArrival ∨ x.Kind = EventType.EventDeparture := by
    intro x hx
    rcases hpend x hx with h1 | h1
    · exact k4 x (hperm.mem_iff.2 (List.mem_cons_of_mem e h1))
    · rcases h1 with h2 | ⟨h2, _⟩
      · exact Or.inr h2
      · exact Or.inl h2
  by_cases hk : e.Kind = EventType.EventArrival
  · obtain ⟨hcid, htot, _⟩ := iA hk
    obtain ⟨hw, ia, em, em1, hia, harr⟩ := hA hk
    rw [const_interarrival ln cfg em hd hr0] at hia
    simp only [Option.some.injEq, Prod.mk.injEq] at hia
    have hia1 : ia = 1 / cfg.ArrivalRate := hia.1.symm
    have hparrs := arrs_perm _ _ hperm
    rw [arrs_cons_arr e _ hk] at hparrs
    have hsingle : arrs (pending s)
        = [{ Kind := EventType.EventArrival,
             Timestamp := ((s.state.TotalCustomers : ℚ) + 1) / cfg.ArrivalRate,
             Customer := none, Priority := 0 }] := by
      rcases k1 with h1 | ⟨h1, _⟩
      · exact h1
      · rw [h1] at hparrs
        exact absurd hparrs.length_eq (by simp)
    rw [hsingle] at hparrs
    have hrest : arrs s.events.eventList.Pop.2.events = [] := by
      have hlen := hparrs.length_eq
      simp only [List.length_cons, List.length_nil] at hlen
      exact List.length_eq_zero.1 (by omega)
    have he : e =
        { Kind := EventType.EventArrival,
          Timestamp := ((s.state.TotalCustomers : ℚ) + 1) / cfg.ArrivalRate,
          Customer := none, Priority := 0 } := by
      have := hparrs.mem_iff.2 (List.mem_cons_self _ _)
      exact List.mem_singleton.1 this
    have het : e.Timestamp = ((s.state.TotalCustomers : ℚ) + 1) / cfg.ArrivalRate := by
      rw [he]
    have hnext : e.Timestamp + ia = ((s1.state.TotalCustomers : ℚ) + 1) / cfg.ArrivalRate := by
      rw [het, hia1, htot]
      push_cast
      ring
    rw [hrest, List.append_nil, arrs_nextArrivals, hnext] at harr
    refine ⟨⟨?_, ?_, ?_, hkinds, le_trans k5 hrej, ?_⟩, fun _ => ⟨het, htot⟩,
      fun hne => absurd hk hne⟩
    · by_cases hle : ((s1.state.TotalCustomers : ℚ) + 1) / cfg.ArrivalRate
          ≤ cfg.SimulationTime
      · rw [if_pos hle] at harr
        exact Or.inl (List.perm_singleton.1 harr)
      · rw [if_neg hle] at harr
        exact Or.inr ⟨List.perm_nil.1 harr, not_le.1 hle⟩
    · have hT := not_lt.1 h.2.1
      rw [het] at hT
      rw [htot]
      push_cast
      exact hT
    · rw [hEP, k3, htot, hw]
      ring
    · rw [htot]
      omega
  · obtain ⟨_, htot⟩ := iD hk
    have hdep : e.Kind = EventType.EventDeparture := by
      rcases k4 e hmem with h1 | h1
      · exact absurd h1 hk
      · exact h1
    have hcust : ∃ c, e.Customer = some c := by
      obtain ⟨c, hc, _⟩ := hserve.2.1 e (by
        unfold deps
        exact List.mem_filter.2 ⟨hmem, by simp [hdep]⟩)
      exact ⟨c, hc⟩
    obtain ⟨c, hc⟩ := hcust
    have hparrs := arrs_perm _ _ hperm
    rw [arrs_cons_other e _ hk] at hparrs
    have harr : (arrs (pending s1)).Perm (arrs (pending s)) := (hD hk).trans hparrs.symm
    refine ⟨⟨?_, ?_, ?_, hkinds, le_trans k5 hrej, ?_⟩, fun ha => absurd ha hk,
      fun _ => htot⟩
    · rw [htot]
      rcases k1 with h1 | ⟨h1, h2⟩
      · rw [h1] at harr
        exact Or.inl (List.perm_singleton.1 harr)
      · rw [h1] at harr
        exact Or.inr ⟨List.perm_nil.1 harr, h2⟩
    · rw [htot]
      exact k2
    · rw [hEP, k3, htot, hW hdep c hc]
      push_cast
      ring
    · rw [htot]
      exact k6

theorem Reachable_invConst (ln : ℚ → ℚ) (src : Int → List ℚ) (now : Int)
    (cfg : SimulationConfig) (s : DiscreteEventSimulator)
    (hd : cfg.Random.Distribution = "constant") (hr0 : cfg.ArrivalRate ≠ 0)
    (hT : 0 ≤ cfg.SimulationTime) (h : Reachable ln src now cfg s) : InvConst cfg s := by
  induction h with
  | init s0 h0 =>
    obtain ⟨t, em, ht, hst, hstats, _, _, _⟩ := Initialize_spec ln cfg _ s0 h0
    obtain ⟨_, t1, hp⟩ := Initialize_pending ln src now cfg s0 h0
    have ht1 : t1 = 1 / cfg.ArrivalRate := by
      obtain ⟨t2, em2, ht2, _, _, _, _, he⟩ := Initialize_spec ln cfg _ s0 h0
      rw [const_interarrival ln cfg _ hd hr0] at ht2
      simp only [Option.some.injEq, Prod.mk.injEq] at ht2
      have hmem : (
          { Kind := EventType.EventArrival, Timestamp := t2, Customer := none,
            Priority := 0 } : Event) ∈ pending s0 := by
        unfold pending
        rw [he]
        exact (ScheduleEvent_perm em2 _ _ _).mem_iff.2 (List.mem_cons_self _ _)
      rw [hp] at hmem
      have := List.mem_singleton.1 hmem
      simp only [Event.mk.injEq, true_and, and_true] at this
      rw [← this, ← ht2.1]
    unfold InvConst
    rw [hp, hst, hstats, ht1]
    refine ⟨Or.inl ?_, ?_, ?_, ?_, ?_, ?_⟩
    · simp [arrs, initialState]
    · simpa [initialState] using hT
    · simp [initialState, NewStatisticsCollector]
    · intro x hx
      rw [List.mem_singleton.1 hx]
      exact Or.inl rfl
    · simp [initialState]
    · simp [initialState]
  | step s s1 e hs hstep ih =>
    exact (Applies_invConst ln cfg s s1 e hd hr0 ih
      (Reachable_invServe ln src now cfg s hs) hstep).1

theorem processEvent_const_ne_none (ln : ℚ → ℚ) (cfg : SimulationConfig) (e : Event)
    (hd : cfg.Random.Distribution = "constant") (hr0 : cfg.ArrivalRate ≠ 0)
    (hm0 : cfg.ServiceRate ≠ 0) (t : DiscreteEventSimulator) :
    t.processEvent ln cfg e ≠ none := by
  unfold DiscreteEventSimulator.processEvent
  split
  · unfold DiscreteEventSimulator.processArrival
    rw [const_service ln cfg _ hd hm0]
    simp only
    unfold DiscreteEventSimulator.scheduleNext
    rw [const_interarrival ln cfg _ hd hr0]
    simp only
    split <;> simp
  · simp
  · simp

theorem runBody_const_some (ln : ℚ → ℚ) (cfg : SimulationConfig)
    (s : DiscreteEventSimulator) (e : Event) (hd : cfg.Random.Distribution = "constant")
    (hr0 : cfg.ArrivalRate ≠ 0) (hm0 : cfg.ServiceRate ≠ 0)
    (hpeek : s.events.PeekNextEvent = some e) : ∃ s1, s.runBody ln cfg e = some s1 := by
  obtain ⟨hpop, _, _⟩ := Peek_some s.events.eventList e hpeek
  unfold DiscreteEventSimulator.runBody
  simp only [flush_events, EventManager.GetNextEvent, hpop]
  split
  · next hnone => exact absurd hnone (processEvent_const_ne_none ln cfg e hd hr0 hm0 _)
  · exact ⟨_, rfl⟩

theorem Initialize_const_some (ln : ℚ → ℚ) (cfg : SimulationConfig)
    (s : DiscreteEventSimulator) (hd : cfg.Random.Distribution = "constant")
    (hr0 : cfg.ArrivalRate ≠ 0) : ∃ s0, s.Initialize ln cfg = some s0 := by
  unfold DiscreteEventSimulator.Initialize
  rw [const_interarrival ln cfg _ hd hr0]
  exact ⟨_, rfl⟩

theorem Reachable_const_bounds (ln : ℚ → ℚ) (src : Int → List ℚ) (now : Int)
    (cfg : SimulationConfig) (s : DiscreteEventSimulator)
    (hd : cfg.Random.Distribution = "constant") (hr : 0 < cfg.ArrivalRate)
    (hT : 0 ≤ cfg.SimulationTime) (h : Reachable ln src now cfg s) :
    s.state.TotalCustomers ≤ ⌊cfg.SimulationTime * cfg.ArrivalRate⌋ ∧
    s.state.EventsProcessed ≤ 2 * ⌊cfg.SimulationTime * cfg.ArrivalRate⌋ := by
  obtain ⟨_, k2, k3, _, k5, _⟩ := Reachable_invConst ln src now cfg s hd (ne_of_gt hr) hT h
  obtain ⟨_, _, i3, i4⟩ := Reachable_invServe ln src now cfg s h
  have h1 : s.state.TotalCustomers ≤ ⌊cfg.SimulationTime * cfg.ArrivalRate⌋ := by
    rw [Int.le_floor]
    exact (div_le_iff₀ hr).1 k2
  have h5 : (0 : Int) ≤ (s.state.Queue.length : Int) := Int.natCast_nonneg _
  have h6 : (0 : Int) ≤ ((deps (pending s)).length : Int) := Int.natCast_nonneg _
  refine ⟨h1, ?_⟩
  omega

theorem exit_total (ln : ℚ → ℚ) (src : Int → List ℚ) (now : Int)
    (cfg : SimulationConfig) (s : DiscreteEventSimulator)
    (hd : cfg.Random.Distribution = "constant") (hr : 0 < cfg.ArrivalRate)
    (hT : 0 ≤ cfg.SimulationTime) (h : Reachable ln src now cfg s)
    (hexit : s.events.PeekNextEvent = none ∨
      ∃ e, s.events.PeekNextEvent = some e ∧ cfg.SimulationTime < e.Timestamp) :
    s.state.TotalCustomers = ⌊cfg.SimulationTime * cfg.ArrivalRate⌋ := by
  obtain ⟨k1, _, _, _, _, _⟩ := Reachable_invConst ln src now cfg s hd (ne_of_gt hr) hT h
  have hle := (Reachable_const_bounds ln src now cfg s hd hr hT h).1
  have hlt : cfg.SimulationTime < ((s.state.TotalCustomers : ℚ) + 1) / cfg.ArrivalRate := by
    rcases k1 with h1 | ⟨_, h2⟩
    · have hx : (
          { Kind := EventType.EventArrival,
            Timestamp := ((s.state.TotalCustomers : ℚ) + 1) / cfg.ArrivalRate,
            Customer := none, Priority := 0 } : Event) ∈ pending s := by
        have : (
            { Kind := EventType.EventArrival,
              Timestamp := ((s.state.TotalCustomers : ℚ) + 1) / cfg.ArrivalRate,
              Customer := none, Priority := 0 } : Event) ∈ arrs (pending s) := by
          rw [h1]
          exact List.mem_singleton.2 rfl
        exact (List.mem_filter.1 this).1
      rcases hexit with hn | ⟨e, he, hgt⟩
      · have hnil := Peek_none s.events.eventList hn
        unfold pending at hx
        rw [hnil] at hx
        simp at hx
      · have hmin := heap_root_min (pending s) (Reachable_isHeap ln src now cfg s h) e
          (Peek_some s.events.eventList e he).2.2 _ hx
        exact lt_of_lt_of_le hgt hmin
    · exact h2
  have h3 : cfg.SimulationTime * cfg.ArrivalRate < ((s.state.TotalCustomers + 1 : Int) : ℚ) := by
    have := (lt_div_iff₀ hr).1 hlt
    push_cast
    exact this
  have h4 := Int.floor_lt.2 h3
  omega

theorem runFinal_processed (cfg : SimulationConfig) (s : DiscreteEventSimulator) :
    (s.runFinal cfg).state.EventsProcessed = s.state.EventsProcessed := by
  unfold DiscreteEventSimulator.runFinal
  split
  · simp only [flush_state]
  · rfl

theorem runLoop_const (ln : ℚ → ℚ) (src : Int → List ℚ) (now : Int)
    (cfg : SimulationConfig) (hd : cfg.Random.Distribution = "constant")
    (hr : 0 < cfg.ArrivalRate) (hm : 0 < cfg.ServiceRate) (hT : 0 ≤ cfg.SimulationTime) :
    ∀ (fuel : Nat) (s : DiscreteEventSimulator), Reachable ln src now cfg s →
      2 * ⌊cfg.SimulationTime * cfg.ArrivalRate⌋ - s.state.EventsProcessed < (fuel : Int) →
      ∃ sF, DiscreteEventSimulator.runLoop ln cfg fuel s = some sF ∧
        Reachable ln src now cfg sF ∧
        sF.state.TotalCustomers = ⌊cfg.SimulationTime * cfg.ArrivalRate⌋ ∧
        appliedArrivals ln cfg fuel s
          = (List.range
              (⌊cfg.SimulationTime * cfg.ArrivalRate⌋ - s.state.TotalCustomers).toNat).map
            (fun k : Nat => ((s.state.TotalCustomers : ℚ) + 1 + (k : ℚ)) / cfg.ArrivalRate) := by
  intro fuel
  induction fuel with
  | zero =>
    intro s hs hf
    have := (Reachable_const_bounds ln src now cfg s hd hr hT hs).2
    simp only [Nat.cast_zero] at hf
    omega
  | succ n ih =>
    intro s hs hf
    have hexit : (s.events.PeekNextEvent = none ∨
        ∃ e, s.events.PeekNextEvent = some e ∧ cfg.SimulationTime < e.Timestamp) →
        ∃ sF, some s = some sF ∧ Reachable ln src now cfg sF ∧
          sF.state.TotalCustomers = ⌊cfg.SimulationTime * cfg.ArrivalRate⌋ ∧
          ([] : List ℚ)
            = (List.range
                (⌊cfg.SimulationTime * cfg.ArrivalRate⌋ - s.state.TotalCustomers).toNat).map
              (fun k : Nat => ((s.state.TotalCustomers : ℚ) + 1 + (k : ℚ)) / cfg.ArrivalRate) := by
      intro hex
      have htot := exit_total ln src now cfg s hd hr hT hs hex
      refine ⟨s, rfl, hs, htot, ?_⟩
      rw [htot]
      simp
    simp only [DiscreteEventSimulator.runLoop, appliedArrivals]
    cases hpeek : s.events.PeekNextEvent with
    | none => exact hexit (Or.inl hpeek)
    | some e =>
      simp only
      by_cases hgt : e.Timestamp > cfg.SimulationTime
      · rw [if_pos hgt, if_pos hgt]
        exact hexit (Or.inr ⟨e, hpeek, hgt⟩)
      · rw [if_neg hgt, if_neg hgt]
        obtain ⟨s2, hs2⟩ := runBody_const_some ln cfg s e hd (ne_of_gt hr) (ne_of_gt hm) hpeek
        rw [hs2]
        simp only
        have happ : Applies ln cfg s e s2 := ⟨hpeek, hgt, hs2⟩
        have hs2r := Reachable.step s s2 e hs happ
        obtain ⟨_, hEP, _⟩ := Applies_shape ln cfg s s2 e happ
        obtain ⟨_, hA, hD⟩ := Applies_invConst ln cfg s s2 e hd (ne_of_gt hr)
          (Reachable_invConst ln src now cfg s hd (ne_of_gt hr) hT hs)
          (Reachable_invServe ln src now cfg s hs) happ
        have hf2 : 2 * ⌊cfg.SimulationTime * cfg.ArrivalRate⌋ - s2.state.EventsProcessed
            < (n : Int) := by
          rw [hEP]
          push_cast at hf
          omega
        obtain ⟨sF, h1, h2, h3, h4⟩ := ih s2 hs2r hf2
        refine ⟨sF, h1, h2, h3, ?_⟩
        by_cases hk : e.Kind = EventType.EventArrival
        · obtain ⟨het, htot⟩ := hA hk
          have hle := (Reachable_const_bounds ln src now cfg s2 hd hr hT hs2r).1
          rw [if_pos hk, h4, htot]
          have hm : (⌊cfg.SimulationTime * cfg.ArrivalRate⌋ - s.state.TotalCustomers).toNat
              = (⌊cfg.SimulationTime * cfg.ArrivalRate⌋
                  - (s.state.TotalCustomers + 1)).toNat + 1 := by
            omega
          rw [hm, List.range_succ_eq_map, List.map_cons, List.map_map, het]
          congr 1
          · simp
          · apply List.map_congr_left
            intro k _
            simp only [Function.comp_apply]
            push_cast
            ring
        · rw [if_neg hk, h4, hD hk]

/-- C29. With the constant distribution, positive rates and a horizon
`T ≥ 0`, `Initialize` and `Run` return for every fuel of at least
`2 * ⌊T * ArrivalRate⌋ + 1` loop passes: the arrivals applied are those at
the times `k / ArrivalRate` for `k = 1, ..., ⌊T * ArrivalRate⌋`, in this
order, `TotalCustomers` ends at `⌊T * ArrivalRate⌋`, and the loop applies at
most `2 * ⌊T * ArrivalRate⌋` events. -/
theorem constant_run_terminates (ln : ℚ → ℚ) (src : Int → List ℚ) (now : Int)
    (cfg : SimulationConfig) (fuel : Nat) (hd : cfg.Random.Distribution = "constant")
    (hr : 0 < cfg.ArrivalRate) (hm : 0 < cfg.ServiceRate) (hT : 0 ≤ cfg.SimulationTime)
    (hfuel : 2 * ⌊cfg.SimulationTime * cfg.ArrivalRate⌋ + 1 ≤ (fuel : Int)) :
    ∃ s0 sF, (NewSimulator src now cfg).Initialize ln cfg = some s0 ∧
      s0.Run ln cfg fuel = some sF ∧
      sF.state.TotalCustomers = ⌊cfg.SimulationTime * cfg.ArrivalRate⌋ ∧
      sF.state.EventsProcessed ≤ 2 * ⌊cfg.SimulationTime * cfg.ArrivalRate⌋ ∧
      appliedArrivals ln cfg fuel s0
        = (List.range ⌊cfg.SimulationTime * cfg.ArrivalRate⌋.toNat).map
          (fun k : Nat => ((k : ℚ) + 1) / cfg.ArrivalRate) := by
  obtain ⟨s0, h0⟩ := Initialize_const_some ln cfg (NewSimulator src now cfg) hd (ne_of_gt hr)
  have hs0 := Reachable.init s0 h0
  obtain ⟨_, _, _, hst, _⟩ := Initialize_spec ln cfg _ s0 h0
  have hEP0 : s0.state.EventsProcessed = 0 := by
    rw [hst]
    rfl
  have hT0 : s0.state.TotalCustomers = 0 := by
    rw [hst]
    rfl
  obtain ⟨s1, h1, h2, h3, h4⟩ := runLoop_const ln src now cfg hd hr hm hT fuel s0 hs0
    (by rw [hEP0]; omega)
  refine ⟨s0, s1.runFinal cfg, h0, ?_, ?_, ?_, ?_⟩
  · unfold DiscreteEventSimulator.Run
    rw [h1]
  · rw [(runFinal_counters cfg s1).2.1]
    exact h3
  · rw [runFinal_processed]
    exact (Reachable_const_bounds ln src now cfg s1 hd hr hT h2).2
  · rw [h4, hT0]
    simp only [sub_zero, Int.cast_zero, zero_add]
    apply List.map_congr_left
    intro k _
    ring

/-- Witness of C29: arrivals every time unit up to the horizon `9/2`; four
customers arrive, at the times `1, 2, 3, 4`. -/
theorem constant_run_terminates_witness :
    ⌊constConfig.SimulationTime * constConfig.ArrivalRate⌋ = 4 ∧
    appliedArrivals demoLn constConfig 9 (initState demoLn demoSrc 0 constConfig)
      = [1, 2, 3, 4] ∧
    ∃ s0 sF, (NewSimulator demoSrc 0 constConfig).Initialize demoLn constConfig = some s0 ∧
      s0.Run demoLn constConfig 9 = some sF ∧
      sF.state.TotalCustomers = ⌊constConfig.SimulationTime * constConfig.ArrivalRate⌋ ∧
      sF.state.EventsProcessed ≤ 2 * ⌊constConfig.SimulationTime * constConfig.ArrivalRate⌋ ∧
      appliedArrivals demoLn constConfig 9 s0
        = (List.range ⌊constConfig.SimulationTime * constConfig.ArrivalRate⌋.toNat).map
          (fun k : Nat => ((k : ℚ) + 1) / constConfig.ArrivalRate) :=
  ⟨by decide!, by decide!,
    constant_run_terminates demoLn demoSrc 0 constConfig 9 rfl (by decide!) (by decide!)
      (by decide!) (by decide!)⟩

/-! ## Runs of the embedding have finite variates -/

theorem GetInterarrivalTime_ne_zero (ln : ℚ → ℚ) (cfg : SimulationConfig)
    (em em1 : EventManager) (t : ℚ) (h : em.GetInterarrivalTime ln cfg = some (t, em1))
    (hd : cfg.Random.Distribution = "uniform" ∨ cfg.Random.Distribution = "constant") :
    cfg.ArrivalRate ≠ 0 := by
  intro hr0
  rw [GetInterarrivalTime_zero ln cfg em hr0] at h
  split at h
  · simp at h
  · next hu =>
    split at h
    · simp at h
    · next hc =>
      rcases hd with h1 | h1
      · exact hu h1
      · exact hc h1

theorem GetServiceTime_ne_zero (ln : ℚ → ℚ) (cfg : SimulationConfig)
    (em em1 : EventManager) (t : ℚ) (h : em.GetServiceTime ln cfg = some (t, em1))
    (hd : cfg.Random.Distribution = "uniform" ∨ cfg.Random.Distribution = "constant") :
    cfg.ServiceRate ≠ 0 := by
  intro hr0
  rw [GetServiceTime_zero ln cfg em hr0] at h
  split at h
  · simp at h
  · next hu =>
    split at h
    · simp at h
    · next hc =>
      rcases hd with h1 | h1
      · exact hu h1
      · exact hc h1

theorem Reachable_service_ne_zero (ln : ℚ → ℚ) (src : Int → List ℚ) (now : Int)
    (cfg : SimulationConfig) (s : DiscreteEventSimulator)
    (hd : cfg.Random.Distribution = "uniform" ∨ cfg.Random.Distribution = "constant")
    (h : Reachable ln src now cfg s) :
    0 < s.state.TotalCustomers → cfg.ServiceRate ≠ 0 := by
  induction h with
  | init s0 h0 =>
    obtain ⟨_, _, _, hst, _⟩ := Initialize_spec ln cfg _ s0 h0
    rw [hst]
    intro hpos
    simp [initialState] at hpos
  | step s s1 e _ hstep ih =>
    intro hpos
    by_cases hk : e.Kind = EventType.EventArrival
    · obtain ⟨s3, hs3, _, _, _⟩ := Applies_unfold ln cfg s s1 e hstep
      unfold DiscreteEventSimulator.processEvent at hs3
      rw [hk] at hs3
      simp only at hs3
      obtain ⟨st, em, hst, _⟩ := processArrival_spec ln cfg _ s3 hs3
      exact GetServiceTime_ne_zero ln cfg _ em st hst hd
    · obtain ⟨_, htot⟩ := (Applies_ids ln cfg s s1 e hstep).2 hk
      rw [htot] at hpos
      exact ih hpos

theorem Run_finite_variates (ln : ℚ → ℚ) (src : Int → List ℚ) (now : Int)
    (cfg : SimulationConfig) (fuel : Nat) (s0 sF : DiscreteEventSimulator)
    (h0 : (NewSimulator src now cfg).Initialize ln cfg = some s0)
    (hrun : s0.Run ln cfg fuel = some sF) :
    cfg.Random.Distribution = "uniform" ∨ cfg.Random.Distribution = "constant" →
      cfg.ArrivalRate ≠ 0 ∧ (0 < sF.state.TotalCustomers → cfg.ServiceRate ≠ 0) := by
  intro hd
  obtain ⟨t, em, ht, _⟩ := Initialize_spec ln cfg _ s0 h0
  refine ⟨GetInterarrivalTime_ne_zero ln cfg _ em t ht hd, ?_⟩
  unfold DiscreteEventSimulator.Run at hrun
  split at hrun
  · simp at hrun
  · next s1 hs1 =>
    simp only [Option.some.injEq] at hrun
    subst hrun
    rw [(runFinal_counters cfg s1).2.1]
    exact Reachable_service_ne_zero ln src now cfg s1 hd
      (runLoop_reachable ln src now cfg fuel s0 s1 (Reachable.init s0 h0) hs1)

/-! ## The integrals of a run -/

/-- C9, as the code has it. The statement is about the runs of the embedding,
in which every variate is a finite number: when such a run returns, the rates
are not zero wherever the code divides by them (last part). When `Run`
returns for a horizon `T > 0` the clock equals `T`, and `AreaUnderQ`, `AreaUnderB` are the sums, over the intervals
passed to the integral update (by the applied events with a positive gap and
by the final flush), of length times the queue length, respectively the busy
indicator, of the state in which the event ending the interval is applied.
For a configuration with positive arrival and service rates these intervals
are non-empty and consecutive from `0` to `T`, hence disjoint with total
length `T`, so that the two sums are the integrals over `[0, T]`. -/
theorem run_integrals_exact (ln : ℚ → ℚ) (src : Int → List ℚ) (now : Int)
    (cfg : SimulationConfig) (hT : 0 < cfg.SimulationTime)
    (s0 sF : DiscreteEventSimulator) (fuel : Nat)
    (h0 : (NewSimulator src now cfg).Initialize ln cfg = some s0)
    (hrun : s0.Run ln cfg fuel = some sF) :
    sF.state.Clock = cfg.SimulationTime ∧
    sF.state.AreaUnderQ = integralQ (runIntervals ln cfg fuel s0) ∧
    sF.state.AreaUnderB = integralB (runIntervals ln cfg fuel s0) ∧
    (0 < cfg.ArrivalRate → 0 < cfg.ServiceRate → LogNegative ln →
      (∀ seed, ValidStream (src seed)) →
      Covers 0 cfg.SimulationTime (runIntervals ln cfg fuel s0) ∧
      List.Pairwise (fun x y : Interval => x.hi ≤ y.lo) (runIntervals ln cfg fuel s0) ∧
      totalLength (runIntervals ln cfg fuel s0) = cfg.SimulationTime) ∧
    (cfg.Random.Distribution = "uniform" ∨ cfg.Random.Distribution = "constant" →
      cfg.ArrivalRate ≠ 0 ∧ (0 < sF.state.TotalCustomers → cfg.ServiceRate ≠ 0)) := by
  have hfin := Run_finite_variates ln src now cfg fuel s0 sF h0 hrun
  unfold DiscreteEventSimulator.Run at hrun
  unfold runIntervals
  split at hrun
  · simp at hrun
  · next s1 hs1 =>
    simp only [Option.some.injEq] at hrun
    subst hrun
    obtain ⟨_, _, _, hst, _⟩ := Initialize_spec ln cfg _ s0 h0
    have hc0 : s0.state.Clock = 0 := by rw [hst]; rfl
    have hq0 : s0.state.AreaUnderQ = 0 := by rw [hst]; rfl
    have hb0 : s0.state.AreaUnderB = 0 := by rw [hst]; rfl
    obtain ⟨k1, k2, k3⟩ := runLoop_areas ln src now cfg fuel s0 s1 (Reachable.init s0 h0) hs1
    obtain ⟨f1, f2, f3⟩ := runFinal_areas cfg s1
    refine ⟨f3 (Reachable_invLite ln src now cfg s1 k1) (le_of_lt hT), ?_, ?_, ?_, hfin⟩
    · rw [f1, k2, hq0, integralQ_append]; ring
    · rw [f2, k3, hb0, integralB_append]; ring
    · intro hr hm hln hsrc
      obtain ⟨j1, _, j3, _, _⟩ := runLoop_invTime ln src now cfg hr hm hln fuel s0 s1
        (Initialize_invTime ln src now cfg s0 hr hln hsrc h0) (Reachable.init s0 h0) hs1
      obtain ⟨_, _, _, _, f5⟩ := runFinal_spec cfg s1 j1
      obtain ⟨_, f7⟩ := f5 (le_of_lt hT)
      rw [hc0] at j3
      have hcov := Covers_append _ _ _ _ _ j3 f7
      refine ⟨hcov, Covers_disjoint _ _ _ hcov, ?_⟩
      rw [Covers_totalLength _ _ _ hcov]; ring

/-- Witness of C9 as amended: the demo run and its five intervals. -/
theorem run_integrals_exact_witness :
    0 < demoConfig.SimulationTime ∧
    runIntervals demoLn demoConfig 10 demoInit =
      [{ lo := 0, hi := 1 / 2, queueLength := 0, busy := false },
       { lo := 1 / 2, hi := 1, queueLength := 0, busy := true },
       { lo := 1, hi := 5 / 4, queueLength := 0, busy := false },
       { lo := 5 / 4, hi := 3 / 2, queueLength := 0, busy := true },
       { lo := 3 / 2, hi := 2, queueLength := 1, busy := true }] ∧
    (demoFinal.state.Clock = demoConfig.SimulationTime ∧
    demoFinal.state.AreaUnderQ = integralQ (runIntervals demoLn demoConfig 10 demoInit) ∧
    demoFinal.state.AreaUnderB = integralB (runIntervals demoLn demoConfig 10 demoInit) ∧
    (0 < demoConfig.ArrivalRate → 0 < demoConfig.ServiceRate → LogNegative demoLn →
      (∀ seed, ValidStream (demoSrc seed)) →
      Covers 0 demoConfig.SimulationTime (runIntervals demoLn demoConfig 10 demoInit) ∧
      List.Pairwise (fun x y : Interval => x.hi ≤ y.lo)
        (runIntervals demoLn demoConfig 10 demoInit) ∧
      totalLength (runIntervals demoLn demoConfig 10 demoInit)
        = demoConfig.SimulationTime) ∧
    (demoConfig.Random.Distribution = "uniform" ∨
        demoConfig.Random.Distribution = "constant" →
      demoConfig.ArrivalRate ≠ 0 ∧
        (0 < demoFinal.state.TotalCustomers → demoConfig.ServiceRate ≠ 0))) :=
  ⟨by decide!, by decide!,
    run_integrals_exact demoLn demoSrc 0 demoConfig (by decide!) demoInit demoFinal 10
      demoInit_eq (by decide!)⟩

/-! ## The events applied by a run -/

end DES
